import Mathlib

/-!
Verification of the Leftmost Skeleton Tree implementation (`lst.c`).

The C state is shallowly embedded as follows.

* `struct lst_s` becomes the structure `LST`.  The element array `p` is a
  total function from physical slot to element identifier (a `Nat`; the
  identifier `0` plays the role of the null pointer), so reads of slots the
  C code never initialised return whatever the function holds there, just as
  C reads return unspecified garbage.
* The pivot stack is kept as the pair `sdata`/`sdepth` mirroring the
  `data`/`depth` fields of `pivot_stack_t`.  `stack_pop` only lowers
  `sdepth`; entries above the depth keep their old values, which matters
  because `lst_flatten` relies on those stale entries being readable.
* The intrusive handle field (`item_index`) of every user record is the
  function `hIdx` from element identifier to `lst_index_t`.
* `lst_index_t` is C `int`; indices are modelled as `Int`.  The macro
  `index_reduce` masks with `capacity - 1`; for a power-of-two capacity and
  two's-complement `int` this is exactly the Euclidean remainder `% capacity`.
* `rand()` draws are an explicit list of naturals, consumed head first.
* The recursive descents (`_lst_pop`, `_lst_peek`, `_lst_extract`,
  `_lst_insert`) and the Hoare partition loops take an explicit fuel and
  return `none` when it runs out; the wrappers pass fuel that is proved
  sufficient on states satisfying the data-structure invariants.
-/

namespace Lst

/-- Model of `struct lst_s` together with the pivot stack it owns and the
handle fields of all user records. -/
@[ext]
structure LST where
  capacity : Int
  idx : Int
  num_elements : Int
  p : Int → Nat
  sdata : Nat → Int
  sdepth : Nat
  hIdx : Nat → Int

/-- Pointwise function update, used for array writes and handle writes. -/
def fupd {α β : Type} [DecidableEq α] (f : α → β) (a : α) (b : β) : α → β :=
  fun x => if x = a then b else f x

/-- `index_reduce`: mask an index down to a physical slot. -/
def reduce (t : LST) (x : Int) : Int := x % t.capacity

/-- `item`: the element stored at the slot a logical index reduces to. -/
def item (t : LST) (i : Int) : Nat := t.p (reduce t i)

/-- `is_equivalent`: two logical indices denote the same physical slot. -/
def is_equivalent (t : LST) (a b : Int) : Prop := reduce t (a - b) = 0

instance (t : LST) (a b : Int) : Decidable (is_equivalent t a b) :=
  inferInstanceAs (Decidable (reduce t (a - b) = 0))

/-- `stack_item`. -/
def stack_item (t : LST) (k : Nat) : Int := t.sdata k

/-- `stack_set`. -/
def stack_set (t : LST) (k : Nat) (v : Int) : LST :=
  { t with sdata := fupd t.sdata k v }

/-- `stack_push` (allocation is assumed to succeed). -/
def stack_push (t : LST) (v : Int) : LST :=
  { t with sdata := fupd t.sdata t.sdepth v, sdepth := t.sdepth + 1 }

/-- `lst_length`: number of buckets of the subtree at a stack index. -/
def lst_length (t : LST) (k : Nat) : Int := (t.sdepth : Int) - (k : Int)

/-- `is_bucket`. -/
def is_bucket (t : LST) (k : Nat) : Prop := lst_length t k = 1

instance (t : LST) (k : Nat) : Decidable (is_bucket t k) :=
  inferInstanceAs (Decidable (lst_length t k = 1))

/-- `lst_size`: number of elements of the subtree at a stack index. -/
def lst_size (t : LST) (k : Nat) : Int :=
  if k = 0 then t.num_elements
  else
    let reduced_right := reduce t (stack_item t k)
    let reduced_idx := reduce t t.idx
    if reduced_idx ≤ reduced_right then reduced_right - reduced_idx
    else t.capacity - reduced_idx + reduced_right

/-- `lst_flatten`: `stack_pop(s, depth - k)` leaves exactly `k` entries. -/
def lst_flatten (t : LST) (k : Nat) : LST := { t with sdepth := k }

/-- `lst_move`: store an element at a location and record the reduced
location in the element's handle field. -/
def lst_move (t : LST) (location : Int) (data : Nat) : LST :=
  { t with p := fupd t.p (reduce t location) data,
           hIdx := fupd t.hIdx data (reduce t location) }

/-- `pivot_item`. -/
def pivot_item (t : LST) (k : Nat) : Nat := item t (stack_item t k)

/-- One iteration of the loop in `bucket_add` (loop variable `rindex`). -/
def bucket_add_step (t : LST) (rindex : Nat) : LST :=
  let prev_pivot_index := stack_item t (rindex + 1)
  let new_space := stack_item t rindex
  let t1 := stack_set t rindex (new_space + 1)
  let t2 :=
    if new_space - prev_pivot_index = 1 then t1
    else lst_move t1 new_space (item t1 (prev_pivot_index + 1))
  lst_move t2 (prev_pivot_index + 1) (item t2 prev_pivot_index)

/-- `bucket_add`. -/
def bucket_add (t : LST) (stack_index : Nat) (data : Nat) : LST :=
  let t1 := (List.range stack_index).foldl bucket_add_step t
  let new_space := stack_item t1 stack_index
  let t2 := stack_set t1 stack_index (new_space + 1)
  let t3 := lst_move t2 new_space data
  { t3 with num_elements := t3.num_elements + 1 }

/-- `lst_indices_reduce` (the C loop runs over the live entries only). -/
def lst_indices_reduce (t : LST) : LST :=
  let r := reduce t t.idx
  { t with sdata := fun i => if i < t.sdepth then r + t.sdata i - t.idx else t.sdata i,
           idx := r }

/-- One iteration of the restore-adjacency loop in `lst_expand`: the element
at physical slot `i` is moved to the logical index its handle plus the old
capacity names. -/
def expand_move (old_capacity : Int) (u : LST) (i : Nat) : LST :=
  let to_be_moved := item u (i : Int)
  let new_index := u.hIdx to_be_moved + old_capacity
  lst_move u new_index to_be_moved

/-- `lst_expand` (the `realloc` is assumed to succeed; note that the
capacity is doubled before `lst_indices_reduce` runs). -/
def lst_expand (t : LST) : LST :=
  let old_capacity := t.capacity
  let t1 := { t with capacity := 2 * t.capacity }
  let t2 := lst_indices_reduce t1
  (List.range t2.idx.toNat).foldl (expand_move old_capacity) t2

/-- `bucket_lwb`. -/
def bucket_lwb (t : LST) (k : Nat) : Int :=
  if is_bucket t k then t.idx else stack_item t (k + 1) + 1

/-- `bucket_upb`. -/
def bucket_upb (t : LST) (k : Nat) : Int := stack_item t k - 1

/-- The descending scan `while (cmp(item(--h), pivot) > 0)`. -/
def scanDown (cmp : Nat → Nat → Int) (t : LST) (pivot : Nat) : Nat → Int → Option Int
  | 0, _ => none
  | f + 1, h =>
    if 0 < cmp (item t (h - 1)) pivot then scanDown cmp t pivot f (h - 1)
    else some (h - 1)

/-- The ascending scan `while (cmp(item(++l), pivot) < 0)`. -/
def scanUp (cmp : Nat → Nat → Int) (t : LST) (pivot : Nat) : Nat → Int → Option Int
  | 0, _ => none
  | f + 1, l =>
    if cmp (item t (l + 1)) pivot < 0 then scanUp cmp t pivot f (l + 1)
    else some (l + 1)

/-- The Hoare partition loop of `partition`. -/
def hoareLoop (cmp : Nat → Nat → Int) (pivot : Nat) :
    Nat → LST → Int → Int → Option (LST × Int)
  | 0, _, _, _ => none
  | f + 1, t, l, h =>
    match scanDown cmp t pivot ((h - l).toNat + 1) h with
    | none => none
    | some h1 =>
      match scanUp cmp t pivot ((h - l).toNat + 1) l with
      | none => none
      | some l1 =>
        if h1 ≤ l1 then some (t, h1)
        else
          let temp := item t l1
          let t1 := lst_move t l1 (item t h1)
          let t2 := lst_move t1 h1 temp
          hoareLoop cmp pivot f t2 l1 h1

/-- The swap that brings the chosen pivot to the low end of the bucket
(`if (pivot_index != low) { ... }` in `partition`). -/
def partition_preswap (t : LST) (pivot_index low : Int) (pivot : Nat) : LST :=
  if pivot_index ≠ low then lst_move (lst_move t pivot_index (item t low)) low pivot
  else t

/-- After the Hoare loop, recover the pivot's current logical position from
its handle field, adjusting for wrap relative to `low` and `high`. -/
def partition_recover (t2 : LST) (low high : Int) (pivot : Nat) : Int :=
  let pivot_index := t2.hIdx pivot
  if reduce t2 low ≤ pivot_index then low + pivot_index - reduce t2 low
  else high - (reduce t2 high - pivot_index)

/-- Move the pivot to position `h` if it is not already there (the two
trailing `if`s of `partition`); returns the state and the final `h`. -/
def partition_place (t2 : LST) (h0 pi1 : Int) (pivot : Nat) : LST × Int :=
  let t3 := if pi1 < h0 then lst_move (lst_move t2 pi1 (item t2 h0)) h0 pivot else t2
  let h1 := if h0 < pi1 then h0 + 1 else h0
  let t4 := if h0 < pi1 then lst_move (lst_move t3 pi1 (item t3 h1)) h1 pivot else t3
  (t4, h1)

/-- `partition`. -/
def partition (cmp : Nat → Nat → Int) (t : LST) (stack_index : Nat) (rs : List Nat) :
    Option (LST × List Nat) :=
  let low := bucket_lwb t stack_index
  let high := bucket_upb t stack_index
  if is_equivalent t low high then some (stack_push t low, rs)
  else
    let r := rs.headD 0
    let rs1 := rs.tail
    let pivot_index := low + (r : Int) % (high + 1 - low)
    let pivot := item t pivot_index
    let t1 := partition_preswap t pivot_index low pivot
    match hoareLoop cmp pivot ((high - low).toNat + 1) t1 (low - 1) (high + 1) with
    | none => none
    | some (t2, h0) =>
      let pr := partition_place t2 h0 (partition_recover t2 low high pivot) pivot
      some (stack_push pr.1 pr.2, rs1)

/-- One shift of the loop in `bucket_delete` (before the `stack_index == 0`
test): fill the deleted location from the top of the bucket and shrink the
bucket by one. -/
def bucket_delete_shift (t : LST) (location : Int) (k : Nat) : LST :=
  let top := bucket_upb t k
  let t1 :=
    if is_equivalent t location top then t else lst_move t location (item t top)
  stack_set t1 k top

/-- The loop of `bucket_delete`, running from the given stack index down
to 0. -/
def bucket_delete_loop : LST → Int → Nat → LST
  | t, location, 0 => bucket_delete_shift t location 0
  | t, location, k + 1 =>
    let t2 := bucket_delete_shift t location (k + 1)
    let top := bucket_upb t (k + 1)
    let t3 := lst_move t2 top (item t2 (top + 1))
    bucket_delete_loop t3 (top + 1) k

/-- `bucket_delete`. -/
def bucket_delete (t : LST) (stack_index : Nat) (data : Nat) : LST :=
  let location := t.hIdx data
  let t1 :=
    if is_equivalent t location t.idx then
      let ta := { t with idx := t.idx + 1 }
      if is_equivalent ta ta.idx 0 then lst_indices_reduce ta else ta
    else bucket_delete_loop t location stack_index
  { t1 with num_elements := t1.num_elements - 1, hIdx := fupd t1.hIdx data (-1) }

/-- `_lst_pop`, with fuel. -/
def pop_go (cmp : Nat → Nat → Int) :
    Nat → LST → Nat → List Nat → Option (Nat × LST × List Nat)
  | 0, _, _, _ => none
  | fuel + 1, t, k, rs =>
    (if is_bucket t k then partition cmp t k rs else some (t, rs)).bind
      (fun s =>
        let t1 := s.1
        let rs1 := s.2
        let k1 := k + 1
        if lst_size t1 k1 = 0 then
          let m := pivot_item t1 k1
          let t2 := lst_flatten t1 k1
          some (m, bucket_delete t2 k1 m, rs1)
        else pop_go cmp fuel t1 k1 rs1)

/-- `_lst_peek`, with fuel. -/
def peek_go (cmp : Nat → Nat → Int) :
    Nat → LST → Nat → List Nat → Option (Nat × LST × List Nat)
  | 0, _, _, _ => none
  | fuel + 1, t, k, rs =>
    (if is_bucket t k then partition cmp t k rs else some (t, rs)).bind
      (fun s =>
        let t1 := s.1
        let rs1 := s.2
        let k1 := k + 1
        if lst_size t1 k1 = 0 then some (pivot_item t1 k1, t1, rs1)
        else peek_go cmp fuel t1 k1 rs1)

/-- `_lst_extract`, with fuel. -/
def extract_go (cmp : Nat → Nat → Int) : Nat → LST → Nat → Nat → Option LST
  | 0, _, _, _ => none
  | fuel + 1, t, k, data =>
    if is_bucket t k then some (bucket_delete t k data)
    else
      let k1 := k + 1
      let c := cmp data (pivot_item t k1)
      if c < 0 then extract_go cmp fuel t k1 data
      else if 0 < c then some (bucket_delete t (k1 - 1) data)
      else some (bucket_delete (lst_flatten t k1) k1 data)

/-- `_lst_insert`, with fuel. -/
def insert_go (cmp : Nat → Nat → Int) :
    Nat → LST → Nat → Nat → List Nat → Option (LST × List Nat)
  | 0, _, _, _, _ => none
  | fuel + 1, t, k, data, rs =>
    if is_bucket t k then some (bucket_add t k data, rs)
    else
      let k1 := k + 1
      let r := rs.headD 0
      let rs1 := rs.tail
      if (r : Int) % (lst_size t k1 + 1) ≠ 0 then
        if cmp data (pivot_item t k1) < 0 then insert_go cmp fuel t k1 data rs1
        else some (bucket_add t (k1 - 1) data, rs1)
      else some (bucket_add (lst_flatten t k1) k1 data, rs1)

/-- `lst_pop`. -/
def lst_pop (cmp : Nat → Nat → Int) (t : LST) (rs : List Nat) :
    Option (Nat × LST × List Nat) :=
  if t.num_elements = 0 then none
  else pop_go cmp (t.num_elements.toNat + 1) t 0 rs

/-- `lst_peek`. -/
def lst_peek (cmp : Nat → Nat → Int) (t : LST) (rs : List Nat) :
    Option (Nat × LST × List Nat) :=
  if t.num_elements = 0 then none
  else peek_go cmp (t.num_elements.toNat + 1) t 0 rs

/-- `lst_extract`; the `Int` in the result is the C return value. -/
def lst_extract (cmp : Nat → Nat → Int) (t : LST) (data : Nat) :
    Option (Int × LST) :=
  if t.num_elements = 0 ∨ t.hIdx data < 0 then some (-1, t)
  else (extract_go cmp t.sdepth t 0 data).map (fun u => (1, u))

/-- `lst_insert`; the `Int` in the result is the C return value. -/
def lst_insert (cmp : Nat → Nat → Int) (t : LST) (data : Nat) (rs : List Nat) :
    Option (Int × LST × List Nat) :=
  let t1 := if t.num_elements = t.capacity then lst_expand t else t
  let di := t1.hIdx data
  if 0 < di ∨ (di = 0 ∧ 0 < t1.num_elements ∧ t1.idx = 0 ∧ item t1 0 = data) then
    some (-1, t1, rs)
  else (insert_go cmp t1.sdepth t1 0 data rs).map (fun u => (1, u.1, u.2))

/-- `lst_num_elements`. -/
def lst_num_elements (t : LST) : Int := t.num_elements

/-- `lst_iter_init`: result is (new iterator value, element). -/
def lst_iter_init (t : LST) : Option (Int × Nat) :=
  if t.num_elements = 0 then none else some (t.idx, item t t.idx)

/-- `lst_iter_next`: result is (new iterator value, element). -/
def lst_iter_next (t : LST) (iter : Int) : Option (Int × Nat) :=
  if stack_item t 0 ≤ iter + 1 then none else some (iter + 1, item t (iter + 1))

/-- The state `_lst_alloc` builds: capacity 2048, zeroed element array,
one zero entry on the pivot stack.  The handle fields of all records are 0,
as the usage contract requires before first insertion. -/
def initialLST : LST where
  capacity := 2048
  idx := 0
  num_elements := 0
  p := fun _ => 0
  sdata := fun _ => 0
  sdepth := 1
  hIdx := fun _ => 0

/-- The comparator contract: a total order presented as a sign function. -/
structure IsTotalCmp (cmp : Nat → Nat → Int) : Prop where
  refl : ∀ a, cmp a a = 0
  flip : ∀ a b, 0 < cmp a b ↔ cmp b a < 0
  trans_le : ∀ a b c, cmp a b ≤ 0 → cmp b c ≤ 0 → cmp a c ≤ 0

/-- The data-structure invariants of §3 of the specification (I1 to I6,
with `s[0] = idx + num_elements` in its exact, unreduced form), together
with the well-formedness facts the code maintains: capacity is a power of
two, `0 ≤ idx < capacity`, `0 ≤ num_elements ≤ capacity`. -/
structure Inv (cmp : Nat → Nat → Int) (t : LST) : Prop where
  cap_pow : ∃ k : Nat, t.capacity = 2 ^ k
  idx_lb : 0 ≤ t.idx
  idx_ub : t.idx < t.capacity
  ne_lb : 0 ≤ t.num_elements
  ne_ub : t.num_elements ≤ t.capacity
  depth_pos : 1 ≤ t.sdepth
  s_zero : t.sdata 0 = t.idx + t.num_elements
  s_mono : ∀ i : Nat, i < t.sdepth - 1 → t.sdata (i + 1) < t.sdata i
  s_lb : ∀ i : Nat, i < t.sdepth → t.idx ≤ t.sdata i
  handles : ∀ k : Nat, k < t.num_elements.toNat →
    t.hIdx (item t (t.idx + (k : Int))) = reduce t (t.idx + (k : Int))
  ord_le : ∀ i : Nat, i < t.sdepth → 1 ≤ i → ∀ k : Nat, k < (t.sdata i - t.idx).toNat →
    cmp (item t (t.idx + (k : Int))) (pivot_item t i) ≤ 0
  ord_ge : ∀ i : Nat, i < t.sdepth → 1 ≤ i → ∀ k : Nat, k < t.num_elements.toNat →
    (t.sdata i - t.idx).toNat < k → 0 ≤ cmp (item t (t.idx + (k : Int))) (pivot_item t i)

/-- A record is resident when one of the live logical positions holds it. -/
def Resident (t : LST) (x : Nat) : Prop :=
  ∃ k : Nat, k < t.num_elements.toNat ∧ item t (t.idx + (k : Int)) = x

instance (t : LST) (x : Nat) : Decidable (Resident t x) :=
  inferInstanceAs (Decidable (∃ k : Nat, k < t.num_elements.toNat ∧ _ = x))

/-- The live elements, listed by logical position (physical order). -/
def residents (t : LST) : List Nat :=
  (List.range t.num_elements.toNat).map (fun (k : Nat) => item t (t.idx + (k : Int)))

/-- Nondecreasing with respect to the comparator. -/
def SortedCmp (cmp : Nat → Nat → Int) (l : List Nat) : Prop :=
  l.Chain' (fun a b => cmp a b ≤ 0)

/-- Insert a list of records one after the other, requiring every call to
report success. -/
def insertAll (cmp : Nat → Nat → Int) :
    List Nat → LST → List Nat → Option (LST × List Nat)
  | [], t, rs => some (t, rs)
  | x :: xs, t, rs =>
    match lst_insert cmp t x rs with
    | some (r, t', rs') => if r = 1 then insertAll cmp xs t' rs' else none
    | none => none

/-- Pop `n` times, collecting the returned records in order. -/
def popAll (cmp : Nat → Nat → Int) :
    Nat → LST → List Nat → Option (List Nat × LST × List Nat)
  | 0, t, rs => some ([], t, rs)
  | n + 1, t, rs =>
    match lst_pop cmp t rs with
    | some (x, t', rs') => (popAll cmp n t' rs').map (fun u => (x :: u.1, u.2))
    | none => none

/-- Keep calling `lst_iter_next` until it reports the end. -/
def iterTraceGo (t : LST) : Nat → Int → List Nat
  | 0, _ => []
  | f + 1, it =>
    match lst_iter_next t it with
    | none => []
    | some (it', x) => x :: iterTraceGo t f it'

/-- The full visiting order of one iteration over an LST. -/
def iterTrace (t : LST) : List Nat :=
  match lst_iter_init t with
  | none => []
  | some (it, x) => x :: iterTraceGo t t.num_elements.toNat it

/-- A comparator that ties everything (used where a claim is refuted and
the comparator is irrelevant to the refutation). -/
def cmp0 : Nat → Nat → Int := fun _ _ => 0

/-- The comparator ordering records by their identifier. -/
def cmpId : Nat → Nat → Int := fun a b => (a : Int) - (b : Int)

/-- An empty LST in which record 1 carries handle value `-1`. -/
def tC4 : LST := { initialLST with hIdx := fun x => if x = 1 then -1 else 0 }

/-- A full LST of capacity 2 holding records 1 and 2. -/
def tC5 : LST where
  capacity := 2
  idx := 0
  num_elements := 2
  p := fun j => if j = 0 then 1 else if j = 1 then 2 else 0
  sdata := fun i => if i = 0 then 2 else 0
  sdepth := 1
  hIdx := fun x => if x = 1 then 0 else if x = 2 then 1 else 0

/-- An LST of capacity 2 holding the single record 1 at slot 0. -/
def tC6 : LST where
  capacity := 2
  idx := 0
  num_elements := 1
  p := fun j => if j = 0 then 1 else 0
  sdata := fun i => if i = 0 then 1 else 0
  sdepth := 1
  hIdx := fun x => if x = 1 then 0 else 0

/-- Handle synchronisation over a range of logical positions: every element
stored there carries the reduced index of its slot in its handle field. -/
def HS (t : LST) (low high : Int) : Prop :=
  ∀ q : Int, low ≤ q → q ≤ high → t.hIdx (item t q) = reduce t q

/-- Every element in the range of `t` was already in the range of `t0`. -/
def Src (t0 t : LST) (low high : Int) : Prop :=
  ∀ q : Int, low ≤ q → q ≤ high → ∃ q', low ≤ q' ∧ q' ≤ high ∧ item t q = item t0 q'

/-- Physical slots outside the range are untouched. -/
def PFrame (t0 t : LST) (low high : Int) : Prop :=
  ∀ s : Int, (∀ q : Int, low ≤ q → q ≤ high → s ≠ reduce t0 q) → t.p s = t0.p s

/-- Handle fields of records not stored in the range are untouched. -/
def HFrame (t0 t : LST) (low high : Int) : Prop :=
  ∀ x : Nat, (∀ q : Int, low ≤ q → q ≤ high → x ≠ item t0 q) → t.hIdx x = t0.hIdx x

/-- All the array-level facts that in-range permutations (the moves of
`partition`) preserve. -/
def PermFacts (t0 t : LST) (low high : Int) : Prop :=
  t.capacity = t0.capacity ∧ HS t low high ∧ Src t0 t low high ∧
  PFrame t0 t low high ∧ HFrame t0 t low high

/-- Two states with the same capacity, offsets, count and pivot stack
(the element array and the handle fields may differ). -/
def EqShape (t t' : LST) : Prop :=
  t'.capacity = t.capacity ∧ t'.idx = t.idx ∧ t'.num_elements = t.num_elements ∧
  t'.sdepth = t.sdepth ∧ ∀ j, t'.sdata j = t.sdata j

/-- The exact fictitious-pivot equation `s[0] = idx + num_elements`. -/
def PivotZeroEq (t : LST) : Prop := t.sdata 0 = t.idx + t.num_elements

/-- A full LST of capacity 2 whose live range wraps: `idx = 1`, record 1 at
slot 1, record 2 at slot 0 (logical positions 1 and 2). -/
def tC8 : LST where
  capacity := 2
  idx := 1
  num_elements := 2
  p := fun j => if j = 0 then 2 else if j = 1 then 1 else 0
  sdata := fun i => if i = 0 then 3 else 0
  sdepth := 1
  hIdx := fun x => if x = 1 then 1 else if x = 2 then 0 else 0

lemma fupd_self {α β : Type} [DecidableEq α] (f : α → β) (a : α) (b : β) :
    fupd f a b a = b := by
  simp [fupd]

lemma fupd_ne {α β : Type} [DecidableEq α] (f : α → β) (a : α) (b : β) {x : α}
    (h : x ≠ a) : fupd f a b x = f x := by
  simp [fupd, h]

lemma IsTotalCmp.le_flip {cmp : Nat → Nat → Int} (hc : IsTotalCmp cmp) (a b : Nat) :
    cmp a b ≤ 0 ↔ 0 ≤ cmp b a := by
  have h1 := hc.flip a b
  have h2 := hc.flip b a
  omega

lemma IsTotalCmp.lt_trans_le {cmp : Nat → Nat → Int} (hc : IsTotalCmp cmp) {a b c : Nat}
    (h1 : cmp a b < 0) (h2 : cmp b c ≤ 0) : cmp a c < 0 := by
  by_contra hcon
  have h3 : cmp c a ≤ 0 := by
    have h5 := hc.flip a c
    have h6 := hc.flip c a
    omega
  have h4 : cmp b a ≤ 0 := hc.trans_le b c a h2 h3
  have := hc.flip b a
  omega

lemma IsTotalCmp.ge_trans {cmp : Nat → Nat → Int} (hc : IsTotalCmp cmp) {a b c : Nat}
    (h1 : 0 ≤ cmp a b) (h2 : 0 ≤ cmp b c) : 0 ≤ cmp a c := by
  have h1' : cmp b a ≤ 0 := (hc.le_flip b a).mpr h1
  have h2' : cmp c b ≤ 0 := (hc.le_flip c b).mpr h2
  exact (hc.le_flip c a).mp (hc.trans_le c b a h2' h1')

lemma reduce_nonneg (t : LST) (hC : 0 < t.capacity) (x : Int) : 0 ≤ reduce t x :=
  Int.emod_nonneg x (by omega)

lemma reduce_lt_cap (t : LST) (hC : 0 < t.capacity) (x : Int) :
    reduce t x < t.capacity :=
  Int.emod_lt_of_pos x hC

lemma reduce_eq_of_bounds (t : LST) {x : Int} (h0 : 0 ≤ x) (h1 : x < t.capacity) :
    reduce t x = x :=
  Int.emod_eq_of_lt h0 h1

lemma reduce_add_cap (t : LST) (x : Int) : reduce t (x + t.capacity) = reduce t x := by
  unfold reduce
  conv_lhs => rw [show x + t.capacity = x + t.capacity * 1 by ring]
  exact Int.add_mul_emod_self_left x t.capacity 1

lemma reduce_eq_reduce_iff (t : LST) (a b : Int) :
    reduce t a = reduce t b ↔ reduce t (a - b) = 0 :=
  Int.emod_eq_emod_iff_emod_sub_eq_zero

lemma is_equivalent_iff (t : LST) (a b : Int) :
    is_equivalent t a b ↔ reduce t a = reduce t b :=
  (reduce_eq_reduce_iff t a b).symm

lemma reduce_inj_window (t : LST) (hC : 0 < t.capacity) {a b : Int}
    (h : reduce t a = reduce t b) (hlow : -t.capacity < a - b)
    (hhigh : a - b < t.capacity) : a = b := by
  have h0 : reduce t (a - b) = 0 := (reduce_eq_reduce_iff t a b).mp h
  rcases le_or_lt 0 (a - b) with hd | hd
  · have := reduce_eq_of_bounds t hd hhigh
    omega
  · have h1 : reduce t (a - b + t.capacity) = reduce t (a - b) := reduce_add_cap t _
    have h2 : reduce t (a - b + t.capacity) = a - b + t.capacity :=
      reduce_eq_of_bounds t (by omega) (by omega)
    omega

theorem lst_move_capacity (t : LST) (l : Int) (d : Nat) :
    (lst_move t l d).capacity = t.capacity := rfl

theorem lst_move_idx (t : LST) (l : Int) (d : Nat) : (lst_move t l d).idx = t.idx := rfl

theorem lst_move_num (t : LST) (l : Int) (d : Nat) :
    (lst_move t l d).num_elements = t.num_elements := rfl

theorem lst_move_sdata (t : LST) (l : Int) (d : Nat) :
    (lst_move t l d).sdata = t.sdata := rfl

theorem lst_move_sdepth (t : LST) (l : Int) (d : Nat) :
    (lst_move t l d).sdepth = t.sdepth := rfl

theorem reduce_move (t : LST) (l : Int) (d : Nat) (x : Int) :
    reduce (lst_move t l d) x = reduce t x := rfl

lemma item_move_self (t : LST) (l : Int) (d : Nat) : item (lst_move t l d) l = d := by
  simp [item, lst_move, reduce, fupd]

lemma item_move_ne (t : LST) (l : Int) (d : Nat) {x : Int}
    (h : reduce t x ≠ reduce t l) : item (lst_move t l d) x = item t x := by
  simp [item, lst_move, reduce, fupd]
  intro hx
  exact absurd hx h

lemma hIdx_move_self (t : LST) (l : Int) (d : Nat) :
    (lst_move t l d).hIdx d = reduce t l := by
  simp [lst_move, fupd]

lemma hIdx_move_ne (t : LST) (l : Int) (d : Nat) {x : Nat} (h : x ≠ d) :
    (lst_move t l d).hIdx x = t.hIdx x := by
  simp [lst_move, fupd, h]

theorem stack_set_capacity (t : LST) (k : Nat) (v : Int) :
    (stack_set t k v).capacity = t.capacity := rfl

theorem stack_set_idx (t : LST) (k : Nat) (v : Int) : (stack_set t k v).idx = t.idx := rfl

theorem stack_set_num (t : LST) (k : Nat) (v : Int) :
    (stack_set t k v).num_elements = t.num_elements := rfl

theorem stack_set_p (t : LST) (k : Nat) (v : Int) : (stack_set t k v).p = t.p := rfl

theorem stack_set_hIdx (t : LST) (k : Nat) (v : Int) :
    (stack_set t k v).hIdx = t.hIdx := rfl

theorem stack_set_sdepth (t : LST) (k : Nat) (v : Int) :
    (stack_set t k v).sdepth = t.sdepth := rfl

lemma stack_item_set_self (t : LST) (k : Nat) (v : Int) :
    stack_item (stack_set t k v) k = v := by
  simp [stack_item, stack_set, fupd]

lemma stack_item_set_ne (t : LST) (k : Nat) (v : Int) {j : Nat} (h : j ≠ k) :
    stack_item (stack_set t k v) j = stack_item t j := by
  simp [stack_item, stack_set, fupd, h]

lemma item_stack_set (t : LST) (k : Nat) (v : Int) (x : Int) :
    item (stack_set t k v) x = item t x := rfl

theorem stack_push_sdepth (t : LST) (v : Int) :
    (stack_push t v).sdepth = t.sdepth + 1 := rfl

lemma stack_item_push_top (t : LST) (v : Int) :
    stack_item (stack_push t v) t.sdepth = v := by
  simp [stack_item, stack_push, fupd]

lemma stack_item_push_ne (t : LST) (v : Int) {j : Nat} (h : j ≠ t.sdepth) :
    stack_item (stack_push t v) j = stack_item t j := by
  simp [stack_item, stack_push, fupd, h]

theorem stack_push_capacity (t : LST) (v : Int) :
    (stack_push t v).capacity = t.capacity := rfl

theorem stack_push_idx (t : LST) (v : Int) : (stack_push t v).idx = t.idx := rfl

theorem stack_push_num (t : LST) (v : Int) :
    (stack_push t v).num_elements = t.num_elements := rfl

theorem stack_push_p (t : LST) (v : Int) : (stack_push t v).p = t.p := rfl

theorem stack_push_hIdx (t : LST) (v : Int) : (stack_push t v).hIdx = t.hIdx := rfl

theorem lst_flatten_fields (t : LST) (k : Nat) :
    (lst_flatten t k).capacity = t.capacity ∧ (lst_flatten t k).idx = t.idx ∧
    (lst_flatten t k).num_elements = t.num_elements ∧ (lst_flatten t k).p = t.p ∧
    (lst_flatten t k).hIdx = t.hIdx ∧ (lst_flatten t k).sdata = t.sdata ∧
    (lst_flatten t k).sdepth = k :=
  ⟨rfl, rfl, rfl, rfl, rfl, rfl, rfl⟩

lemma Inv.cap_pos {cmp : Nat → Nat → Int} {t : LST} (h : Inv cmp t) : 0 < t.capacity := by
  obtain ⟨k, hk⟩ := h.cap_pow
  rw [hk]
  positivity

lemma Inv.s_le {cmp : Nat → Nat → Int} {t : LST} (h : Inv cmp t) :
    ∀ i j : Nat, i ≤ j → j < t.sdepth → t.sdata j ≤ t.sdata i := by
  intro i j hij hj
  induction j with
  | zero => cases Nat.le_zero.mp hij; exact le_refl _
  | succ j ih =>
    rcases Nat.lt_or_ge i (j + 1) with hlt | hge
    · have h1 : t.sdata (j + 1) < t.sdata j := h.s_mono j (by omega)
      have h2 := ih (by omega) (by omega)
      omega
    · have : i = j + 1 := by omega
      rw [this]

lemma Inv.s_ub {cmp : Nat → Nat → Int} {t : LST} (h : Inv cmp t) :
    ∀ i : Nat, 1 ≤ i → i < t.sdepth → t.sdata i < t.idx + t.num_elements := by
  intro i h1 h2
  have ha : t.sdata i ≤ t.sdata 1 := h.s_le 1 i h1 h2
  have hb : t.sdata 1 < t.sdata 0 := h.s_mono 0 (by omega)
  have hc := h.s_zero
  omega

lemma Inv.size_eq {cmp : Nat → Nat → Int} {t : LST} (h : Inv cmp t) :
    ∀ k : Nat, 1 ≤ k → k < t.sdepth → lst_size t k = t.sdata k - t.idx := by
  intro k h1 h2
  have hC := h.cap_pos
  have hlb : t.idx ≤ t.sdata k := h.s_lb k h2
  have hub : t.sdata k < t.idx + t.num_elements := h.s_ub k h1 h2
  have hidx : reduce t t.idx = t.idx := reduce_eq_of_bounds t h.idx_lb h.idx_ub
  have hne := h.ne_ub
  unfold lst_size
  rw [if_neg (by omega)]
  simp only [stack_item]
  rcases lt_or_ge (t.sdata k) t.capacity with hcase | hcase
  · have hr : reduce t (t.sdata k) = t.sdata k :=
      reduce_eq_of_bounds t (by have := h.idx_lb; omega) hcase
    rw [hr, hidx, if_pos (by omega)]
  · have hr1 : reduce t (t.sdata k) = t.sdata k - t.capacity := by
      have h4 : reduce t (t.sdata k - t.capacity) = t.sdata k - t.capacity :=
        reduce_eq_of_bounds t (by omega) (by have := h.idx_ub; omega)
      have h5 := reduce_add_cap t (t.sdata k - t.capacity)
      rw [show t.sdata k - t.capacity + t.capacity = t.sdata k by ring] at h5
      omega
    rw [hr1, hidx, if_neg (by have := h.idx_ub; omega)]
    ring

lemma Inv.size_zero {cmp : Nat → Nat → Int} {t : LST} (h : Inv cmp t) :
    ∀ k : Nat, 1 ≤ k → k < t.sdepth → lst_size t k = 0 → t.sdata k = t.idx := by
  intro k h1 h2 h3
  have := h.size_eq k h1 h2
  omega

lemma Inv.inj {cmp : Nat → Nat → Int} {t : LST} (h : Inv cmp t) {k l : Nat}
    (hk : k < t.num_elements.toNat) (hl : l < t.num_elements.toNat) (hne : k ≠ l) :
    item t (t.idx + (k : Int)) ≠ item t (t.idx + (l : Int)) := by
  intro heq
  have h1 := h.handles k hk
  have h2 := h.handles l hl
  rw [heq] at h1
  have h3 : reduce t (t.idx + (k : Int)) = reduce t (t.idx + (l : Int)) := by
    rw [← h1, ← h2]
  have hC := h.cap_pos
  have hn : (t.num_elements.toNat : Int) = t.num_elements := Int.toNat_of_nonneg h.ne_lb
  have hkx : (k : Int) < t.num_elements := by omega
  have hlx : (l : Int) < t.num_elements := by omega
  have hcap := h.ne_ub
  have := reduce_inj_window t hC h3 (by omega) (by omega)
  omega

lemma EqShape.refl (t : LST) : EqShape t t :=
  ⟨rfl, rfl, rfl, rfl, fun _ => rfl⟩

lemma EqShape.trans {a b c : LST} (h1 : EqShape a b) (h2 : EqShape b c) : EqShape a c := by
  obtain ⟨x1, x2, x3, x4, x5⟩ := h1
  obtain ⟨y1, y2, y3, y4, y5⟩ := h2
  exact ⟨y1.trans x1, y2.trans x2, y3.trans x3, y4.trans x4, fun j => (y5 j).trans (x5 j)⟩

lemma lst_move_shape (t : LST) (l : Int) (d : Nat) : EqShape t (lst_move t l d) :=
  ⟨rfl, rfl, rfl, rfl, fun _ => rfl⟩

lemma hoare_shape {cmp : Nat → Nat → Int} {pivot : Nat} :
    ∀ {f : Nat} {t : LST} {l h : Int} {t2 : LST} {h0 : Int},
      hoareLoop cmp pivot f t l h = some (t2, h0) → EqShape t t2 := by
  intro f
  induction f with
  | zero => intro t l h t2 h0 hrun; simp [hoareLoop] at hrun
  | succ f ih =>
    intro t l h t2 h0 hrun
    rw [hoareLoop] at hrun
    split at hrun
    · exact absurd hrun (by simp)
    · split at hrun
      · exact absurd hrun (by simp)
      · split at hrun
        · cases hrun
          exact EqShape.refl t
        · exact ((lst_move_shape _ _ _).trans (lst_move_shape _ _ _)).trans (ih hrun)

lemma partition_preswap_shape (t : LST) (pi low : Int) (pv : Nat) :
    EqShape t (partition_preswap t pi low pv) := by
  unfold partition_preswap
  split
  · exact (lst_move_shape _ _ _).trans (lst_move_shape _ _ _)
  · exact EqShape.refl t

lemma partition_place_shape (t2 : LST) (h0 pi1 : Int) (pv : Nat) :
    EqShape t2 (partition_place t2 h0 pi1 pv).1 := by
  unfold partition_place
  split
  · split
    · exact ((lst_move_shape _ _ _).trans (lst_move_shape _ _ _)).trans
        ((lst_move_shape _ _ _).trans (lst_move_shape _ _ _))
    · exact (lst_move_shape _ _ _).trans (lst_move_shape _ _ _)
  · split
    · exact (lst_move_shape _ _ _).trans (lst_move_shape _ _ _)
    · exact EqShape.refl t2

lemma partition_shape {cmp : Nat → Nat → Int} {t : LST} {k : Nat} {rs : List Nat}
    {t' : LST} {rs' : List Nat} (hrun : partition cmp t k rs = some (t', rs')) :
    t'.capacity = t.capacity ∧ t'.idx = t.idx ∧ t'.num_elements = t.num_elements ∧
    t'.sdepth = t.sdepth + 1 ∧ ∀ j, j ≠ t.sdepth → t'.sdata j = t.sdata j := by
  have hpush : ∀ (u : LST) (v : Int), EqShape t u →
      (stack_push u v).capacity = t.capacity ∧ (stack_push u v).idx = t.idx ∧
      (stack_push u v).num_elements = t.num_elements ∧
      (stack_push u v).sdepth = t.sdepth + 1 ∧
      ∀ j, j ≠ t.sdepth → (stack_push u v).sdata j = t.sdata j := by
    intro u v hu
    obtain ⟨h1, h2, h3, h4, h5⟩ := hu
    refine ⟨h1, h2, h3, by simp [stack_push, h4], ?_⟩
    intro j hj
    have : j ≠ u.sdepth := by rw [h4]; exact hj
    simp [stack_push, fupd, this]
    exact h5 j
  simp only [partition] at hrun
  split at hrun
  · cases hrun
    exact hpush t _ (EqShape.refl t)
  · split at hrun
    · exact absurd hrun (by simp)
    all_goals
      cases hrun
      rename_i heq
      exact hpush _ _ ((partition_preswap_shape t _ _ _).trans
        ((hoare_shape heq).trans (partition_place_shape _ _ _ _)))

lemma pze_of_shape {a b : LST} (h : EqShape a b) (hp : PivotZeroEq a) : PivotZeroEq b := by
  obtain ⟨_, h2, h3, _, h5⟩ := h
  unfold PivotZeroEq at *
  rw [h2, h3, h5 0]
  exact hp

lemma foldl_shape {f : LST → Nat → LST} (hf : ∀ u i, EqShape u (f u i)) :
    ∀ (L : List Nat) (u : LST), EqShape u (L.foldl f u) := by
  intro L
  induction L with
  | nil => intro u; exact EqShape.refl u
  | cons a L ih => intro u; exact (hf u a).trans (ih (f u a))

lemma bucket_add_step_fields (t : LST) (r : Nat) :
    (bucket_add_step t r).capacity = t.capacity ∧ (bucket_add_step t r).idx = t.idx ∧
    (bucket_add_step t r).num_elements = t.num_elements ∧
    (bucket_add_step t r).sdepth = t.sdepth := by
  simp only [bucket_add_step]
  split <;> exact ⟨rfl, rfl, rfl, rfl⟩

lemma bucket_add_step_sdata (t : LST) (r : Nat) :
    (bucket_add_step t r).sdata = fupd t.sdata r (t.sdata r + 1) := by
  simp only [bucket_add_step]
  split <;> rfl

lemma bucket_add_loop_fields (t : LST) (K : Nat) :
    (((List.range K).foldl bucket_add_step t).capacity = t.capacity) ∧
    (((List.range K).foldl bucket_add_step t).idx = t.idx) ∧
    (((List.range K).foldl bucket_add_step t).num_elements = t.num_elements) ∧
    (((List.range K).foldl bucket_add_step t).sdepth = t.sdepth) := by
  induction K with
  | zero => exact ⟨rfl, rfl, rfl, rfl⟩
  | succ K ih =>
    rw [List.range_succ, List.foldl_append]
    obtain ⟨i1, i2, i3, i4⟩ := ih
    have hf := bucket_add_step_fields ((List.range K).foldl bucket_add_step t) K
    simp only [List.foldl]
    exact ⟨hf.1.trans i1, hf.2.1.trans i2, hf.2.2.1.trans i3, hf.2.2.2.trans i4⟩

lemma bucket_add_loop_sdata (t : LST) (K : Nat) :
    ∀ j, ((List.range K).foldl bucket_add_step t).sdata j =
      if j < K then t.sdata j + 1 else t.sdata j := by
  induction K with
  | zero => intro j; simp
  | succ K ih =>
    intro j
    rw [List.range_succ, List.foldl_append]
    simp only [List.foldl]
    rw [bucket_add_step_sdata]
    by_cases hj : j = K
    · subst hj
      rw [fupd_self, ih j]
      simp
    · rw [fupd_ne _ _ _ hj, ih j]
      rcases Nat.lt_or_ge j K with h | h
      · rw [if_pos h, if_pos (by omega)]
      · rw [if_neg (by omega), if_neg (by omega)]

lemma bucket_add_fields (t : LST) (K : Nat) (d : Nat) :
    (bucket_add t K d).capacity = t.capacity ∧ (bucket_add t K d).idx = t.idx ∧
    (bucket_add t K d).num_elements = t.num_elements + 1 ∧
    (bucket_add t K d).sdepth = t.sdepth := by
  have h := bucket_add_loop_fields t K
  exact ⟨h.1, h.2.1, by simp [bucket_add, lst_move, stack_set, h.2.2.1], h.2.2.2⟩

lemma bucket_add_sdata (t : LST) (K : Nat) (d : Nat) :
    ∀ j, (bucket_add t K d).sdata j = if j ≤ K then t.sdata j + 1 else t.sdata j := by
  intro j
  have hl := bucket_add_loop_sdata t K
  show (fupd ((List.range K).foldl bucket_add_step t).sdata K
      (stack_item ((List.range K).foldl bucket_add_step t) K + 1)) j = _
  by_cases hj : j = K
  · rw [hj, fupd_self]
    show ((List.range K).foldl bucket_add_step t).sdata K + 1 = _
    rw [hl K, if_neg (by omega), if_pos (by omega)]
  · rw [fupd_ne _ _ _ hj, hl j]
    rcases Nat.lt_or_ge j K with h | h
    · rw [if_pos h, if_pos (by omega)]
    · rw [if_neg (by omega), if_neg (by omega)]

lemma bucket_add_pze {t : LST} (h : PivotZeroEq t) (K : Nat) (d : Nat) :
    PivotZeroEq (bucket_add t K d) := by
  have hf := bucket_add_fields t K d
  have hs := bucket_add_sdata t K d 0
  rw [if_pos (by omega)] at hs
  unfold PivotZeroEq
  rw [hs, hf.2.1, hf.2.2.1, h]
  ring

lemma lst_indices_reduce_fields (t : LST) :
    (lst_indices_reduce t).capacity = t.capacity ∧
    (lst_indices_reduce t).num_elements = t.num_elements ∧
    (lst_indices_reduce t).p = t.p ∧ (lst_indices_reduce t).hIdx = t.hIdx ∧
    (lst_indices_reduce t).sdepth = t.sdepth ∧
    (lst_indices_reduce t).idx = reduce t t.idx ∧
    ∀ j, (lst_indices_reduce t).sdata j =
      if j < t.sdepth then reduce t t.idx + t.sdata j - t.idx else t.sdata j :=
  ⟨rfl, rfl, rfl, rfl, rfl, rfl, fun _ => rfl⟩

lemma lst_indices_reduce_pze {t : LST} (hd : 0 < t.sdepth) (h : PivotZeroEq t) :
    PivotZeroEq (lst_indices_reduce t) := by
  unfold PivotZeroEq
  have hs := (lst_indices_reduce_fields t).2.2.2.2.2.2 0
  rw [if_pos hd] at hs
  rw [hs, (lst_indices_reduce_fields t).2.2.2.2.2.1, (lst_indices_reduce_fields t).2.1, h]
  ring

lemma bucket_delete_shift_fields (t : LST) (loc : Int) (k : Nat) :
    (bucket_delete_shift t loc k).capacity = t.capacity ∧
    (bucket_delete_shift t loc k).idx = t.idx ∧
    (bucket_delete_shift t loc k).num_elements = t.num_elements ∧
    (bucket_delete_shift t loc k).sdepth = t.sdepth := by
  simp only [bucket_delete_shift]
  split <;> exact ⟨rfl, rfl, rfl, rfl⟩

lemma bucket_delete_shift_sdata (t : LST) (loc : Int) (k : Nat) :
    (bucket_delete_shift t loc k).sdata = fupd t.sdata k (t.sdata k - 1) := by
  simp only [bucket_delete_shift]
  split <;> rfl

lemma bucket_delete_loop_spec :
    ∀ (K : Nat) (t : LST) (loc : Int),
      (bucket_delete_loop t loc K).capacity = t.capacity ∧
      (bucket_delete_loop t loc K).idx = t.idx ∧
      (bucket_delete_loop t loc K).num_elements = t.num_elements ∧
      (bucket_delete_loop t loc K).sdepth = t.sdepth ∧
      (bucket_delete_loop t loc K).sdata 0 = t.sdata 0 - 1 := by
  intro K
  induction K with
  | zero =>
    intro t loc
    have hf := bucket_delete_shift_fields t loc 0
    refine ⟨hf.1, hf.2.1, hf.2.2.1, hf.2.2.2, ?_⟩
    show (bucket_delete_shift t loc 0).sdata 0 = _
    rw [bucket_delete_shift_sdata, fupd_self]
  | succ K ih =>
    intro t loc
    have hunf : bucket_delete_loop t loc (K + 1) =
        bucket_delete_loop
          (lst_move (bucket_delete_shift t loc (K + 1)) (bucket_upb t (K + 1))
            (item (bucket_delete_shift t loc (K + 1)) (bucket_upb t (K + 1) + 1)))
          (bucket_upb t (K + 1) + 1) K := rfl
    rw [hunf]
    have hf := bucket_delete_shift_fields t loc (K + 1)
    have hm := ih (lst_move (bucket_delete_shift t loc (K + 1)) (bucket_upb t (K + 1))
        (item (bucket_delete_shift t loc (K + 1)) (bucket_upb t (K + 1) + 1)))
        (bucket_upb t (K + 1) + 1)
    obtain ⟨m1, m2, m3, m4, m5⟩ := hm
    refine ⟨m1.trans hf.1, m2.trans hf.2.1, m3.trans hf.2.2.1, m4.trans hf.2.2.2, ?_⟩
    rw [m5, lst_move_sdata, bucket_delete_shift_sdata,
      fupd_ne _ _ _ (show (0 : Nat) ≠ K + 1 by omega)]

lemma bucket_delete_pze {t : LST} (hd : 0 < t.sdepth) (h : PivotZeroEq t)
    (K : Nat) (d : Nat) :
    PivotZeroEq (bucket_delete t K d) ∧
    (bucket_delete t K d).num_elements = t.num_elements - 1 ∧
    (bucket_delete t K d).capacity = t.capacity := by
  simp only [bucket_delete]
  split
  · split
    · rename_i h1 h2
      have hf := lst_indices_reduce_fields { t with idx := t.idx + 1 }
      have hs := hf.2.2.2.2.2.2 0
      rw [if_pos (by exact hd)] at hs
      refine ⟨?_, by simp [hf.2.1], by simp [hf.1]⟩
      show (lst_indices_reduce { t with idx := t.idx + 1 }).sdata 0 = _
      rw [hs]
      show reduce t (t.idx + 1) + t.sdata 0 - (t.idx + 1) =
        (lst_indices_reduce { t with idx := t.idx + 1 }).idx +
        ((lst_indices_reduce { t with idx := t.idx + 1 }).num_elements - 1)
      rw [hf.2.2.2.2.2.1]
      show _ = reduce t (t.idx + 1) + (t.num_elements - 1)
      rw [h]
      ring
    · refine ⟨?_, rfl, rfl⟩
      show t.sdata 0 = t.idx + 1 + (t.num_elements - 1)
      rw [h]
      ring
  · have hl := bucket_delete_loop_spec K t (t.hIdx d)
    refine ⟨?_, by simp [hl.2.2.1], by simp [hl.1]⟩
    show (bucket_delete_loop t (t.hIdx d) K).sdata 0 =
      (bucket_delete_loop t (t.hIdx d) K).idx +
      ((bucket_delete_loop t (t.hIdx d) K).num_elements - 1)
    rw [hl.2.2.2.2, hl.2.1, hl.2.2.1, h]
    ring

lemma lst_flatten_pze {t : LST} (h : PivotZeroEq t) (k : Nat) :
    PivotZeroEq (lst_flatten t k) := h

lemma lst_expand_pze {t : LST} (hd : 0 < t.sdepth) (h : PivotZeroEq t) :
    PivotZeroEq (lst_expand t) := by
  unfold lst_expand
  refine pze_of_shape (foldl_shape (fun u i => lst_move_shape u _ _) _ _) ?_
  exact lst_indices_reduce_pze (t := { t with capacity := 2 * t.capacity }) hd h

lemma partition_pze {cmp : Nat → Nat → Int} {t : LST} {k : Nat} {rs : List Nat}
    {t' : LST} {rs' : List Nat} (hd : 1 ≤ t.sdepth) (hp : PivotZeroEq t)
    (hrun : partition cmp t k rs = some (t', rs')) :
    PivotZeroEq t' ∧ 1 ≤ t'.sdepth := by
  obtain ⟨c1, c2, c3, c4, c5⟩ := partition_shape hrun
  refine ⟨?_, by omega⟩
  unfold PivotZeroEq
  rw [c2, c3, c5 0 (by omega)]
  exact hp

lemma insert_go_pze {cmp : Nat → Nat → Int} {d : Nat} :
    ∀ {fuel : Nat} {t : LST} {k : Nat} {rs : List Nat} {t' : LST} {rs' : List Nat},
      PivotZeroEq t → insert_go cmp fuel t k d rs = some (t', rs') → PivotZeroEq t' := by
  intro fuel
  induction fuel with
  | zero => intro t k rs t' rs' hp hrun; simp [insert_go] at hrun
  | succ fuel ih =>
    intro t k rs t' rs' hp hrun
    simp only [insert_go] at hrun
    split at hrun
    · cases hrun
      exact bucket_add_pze hp _ _
    · split at hrun
      · split at hrun
        · exact ih hp hrun
        · cases hrun
          exact bucket_add_pze hp _ _
      · cases hrun
        exact bucket_add_pze (t := lst_flatten t (k + 1)) hp _ _

lemma pop_go_pze {cmp : Nat → Nat → Int} :
    ∀ {fuel : Nat} {t : LST} {k : Nat} {rs : List Nat} {x : Nat} {t' : LST}
      {rs' : List Nat},
      PivotZeroEq t → 1 ≤ t.sdepth →
      pop_go cmp fuel t k rs = some (x, t', rs') → PivotZeroEq t' := by
  intro fuel
  induction fuel with
  | zero => intro t k rs x t' rs' hp hd hrun; simp [pop_go] at hrun
  | succ fuel ih =>
    intro t k rs x t' rs' hp hd hrun
    simp only [pop_go] at hrun
    rw [Option.bind_eq_some] at hrun
    obtain ⟨⟨t1, rs1⟩, heq, hrun⟩ := hrun
    have hstate : PivotZeroEq t1 ∧ 1 ≤ t1.sdepth := by
      split at heq
      · exact partition_pze hd hp heq
      · cases heq
        exact ⟨hp, hd⟩
    simp only at hrun
    split at hrun
    · cases hrun
      exact (bucket_delete_pze (t := lst_flatten t1 (k + 1)) (Nat.succ_pos k)
        hstate.1 _ _).1
    · exact ih hstate.1 (by omega) hrun

lemma peek_go_pze {cmp : Nat → Nat → Int} :
    ∀ {fuel : Nat} {t : LST} {k : Nat} {rs : List Nat} {x : Nat} {t' : LST}
      {rs' : List Nat},
      PivotZeroEq t → 1 ≤ t.sdepth →
      peek_go cmp fuel t k rs = some (x, t', rs') → PivotZeroEq t' := by
  intro fuel
  induction fuel with
  | zero => intro t k rs x t' rs' hp hd hrun; simp [peek_go] at hrun
  | succ fuel ih =>
    intro t k rs x t' rs' hp hd hrun
    simp only [peek_go] at hrun
    rw [Option.bind_eq_some] at hrun
    obtain ⟨⟨t1, rs1⟩, heq, hrun⟩ := hrun
    have hstate : PivotZeroEq t1 ∧ 1 ≤ t1.sdepth := by
      split at heq
      · exact partition_pze hd hp heq
      · cases heq
        exact ⟨hp, hd⟩
    simp only at hrun
    split at hrun
    · cases hrun
      exact hstate.1
    · exact ih hstate.1 (by omega) hrun

lemma extract_go_pze {cmp : Nat → Nat → Int} {d : Nat} :
    ∀ {fuel : Nat} {t : LST} {k : Nat} {t' : LST},
      PivotZeroEq t → 1 ≤ t.sdepth →
      extract_go cmp fuel t k d = some t' → PivotZeroEq t' := by
  intro fuel
  induction fuel with
  | zero => intro t k t' hp hd hrun; simp [extract_go] at hrun
  | succ fuel ih =>
    intro t k t' hp hd hrun
    simp only [extract_go] at hrun
    split at hrun
    · cases hrun
      exact (bucket_delete_pze (by omega) hp _ _).1
    · split at hrun
      · exact ih hp hd hrun
      · split at hrun
        · cases hrun
          exact (bucket_delete_pze (by omega) hp _ _).1
        · cases hrun
          exact (bucket_delete_pze (t := lst_flatten t (k + 1)) (Nat.succ_pos k)
            hp _ _).1

lemma lst_insert_pze {cmp : Nat → Nat → Int} {t : LST} {x : Nat} {rs : List Nat}
    (hInv : Inv cmp t) : ∀ u ∈ lst_insert cmp t x rs, PivotZeroEq u.2.1 := by
  intro u hu
  rw [Option.mem_def] at hu
  simp only [lst_insert] at hu
  split at hu
  · have hp1 : PivotZeroEq (lst_expand t) :=
      lst_expand_pze (by have := hInv.depth_pos; omega) hInv.s_zero
    split at hu
    · cases hu
      exact hp1
    · rw [Option.map_eq_some'] at hu
      obtain ⟨⟨t2, rs2⟩, ha, hfa⟩ := hu
      cases hfa
      exact insert_go_pze hp1 ha
  · have hp1 : PivotZeroEq t := hInv.s_zero
    split at hu
    · cases hu
      exact hp1
    · rw [Option.map_eq_some'] at hu
      obtain ⟨⟨t2, rs2⟩, ha, hfa⟩ := hu
      cases hfa
      exact insert_go_pze hp1 ha

lemma lst_pop_pze {cmp : Nat → Nat → Int} {t : LST} {rs : List Nat}
    (hInv : Inv cmp t) : ∀ u ∈ lst_pop cmp t rs, PivotZeroEq u.2.1 := by
  intro u hu
  rw [Option.mem_def] at hu
  obtain ⟨x, t', rs'⟩ := u
  unfold lst_pop at hu
  split at hu
  · exact absurd hu (by simp)
  · exact pop_go_pze hInv.s_zero hInv.depth_pos hu

lemma lst_peek_pze {cmp : Nat → Nat → Int} {t : LST} {rs : List Nat}
    (hInv : Inv cmp t) : ∀ u ∈ lst_peek cmp t rs, PivotZeroEq u.2.1 := by
  intro u hu
  rw [Option.mem_def] at hu
  obtain ⟨x, t', rs'⟩ := u
  unfold lst_peek at hu
  split at hu
  · exact absurd hu (by simp)
  · exact peek_go_pze hInv.s_zero hInv.depth_pos hu

lemma lst_extract_pze {cmp : Nat → Nat → Int} {t : LST} {x : Nat}
    (hInv : Inv cmp t) : ∀ u ∈ lst_extract cmp t x, PivotZeroEq u.2 := by
  intro u hu
  rw [Option.mem_def] at hu
  unfold lst_extract at hu
  split at hu
  · cases hu
    exact hInv.s_zero
  · rw [Option.map_eq_some'] at hu
    obtain ⟨a, ha, hfa⟩ := hu
    cases hfa
    exact extract_go_pze hInv.s_zero hInv.depth_pos ha

lemma inv_initial : Inv cmpId initialLST := by
  refine ⟨⟨11, by decide⟩, ?_, ?_, ?_, ?_, ?_, ?_, ?_, ?_, ?_, ?_, ?_⟩ <;> decide

lemma inv_tC4 : Inv cmpId tC4 := by
  refine ⟨⟨11, by decide⟩, ?_, ?_, ?_, ?_, ?_, ?_, ?_, ?_, ?_, ?_, ?_⟩ <;> decide

lemma inv_tC5 : Inv cmpId tC5 := by
  refine ⟨⟨1, by decide⟩, ?_, ?_, ?_, ?_, ?_, ?_, ?_, ?_, ?_, ?_, ?_⟩ <;> decide

lemma inv_tC6 : Inv cmpId tC6 := by
  refine ⟨⟨1, by decide⟩, ?_, ?_, ?_, ?_, ?_, ?_, ?_, ?_, ?_, ?_, ?_⟩ <;> decide

/-- C3: the equality `s[0] = idx + num_elements` (as unreduced logical
indices, exactly) holds in the initial empty state and is preserved by every
public operation (`insert`, `pop`, `peek`, `extract`) and by the internal
`lst_expand` and `lst_indices_reduce`, on every state satisfying the
invariants. -/
theorem C3_spec :
    PivotZeroEq initialLST ∧
    (∀ (cmp : Nat → Nat → Int) (t : LST) (x : Nat) (rs : List Nat), Inv cmp t →
      ∀ u ∈ lst_insert cmp t x rs, PivotZeroEq u.2.1) ∧
    (∀ (cmp : Nat → Nat → Int) (t : LST) (rs : List Nat), Inv cmp t →
      ∀ u ∈ lst_pop cmp t rs, PivotZeroEq u.2.1) ∧
    (∀ (cmp : Nat → Nat → Int) (t : LST) (rs : List Nat), Inv cmp t →
      ∀ u ∈ lst_peek cmp t rs, PivotZeroEq u.2.1) ∧
    (∀ (cmp : Nat → Nat → Int) (t : LST) (x : Nat), Inv cmp t →
      ∀ u ∈ lst_extract cmp t x, PivotZeroEq u.2) ∧
    (∀ (cmp : Nat → Nat → Int) (t : LST), Inv cmp t → PivotZeroEq (lst_expand t)) ∧
    (∀ (cmp : Nat → Nat → Int) (t : LST), Inv cmp t →
      PivotZeroEq (lst_indices_reduce t)) :=
  ⟨rfl,
   fun _ _ _ _ hInv => lst_insert_pze hInv,
   fun _ _ _ hInv => lst_pop_pze hInv,
   fun _ _ _ hInv => lst_peek_pze hInv,
   fun _ _ _ hInv => lst_extract_pze hInv,
   fun _ _ hInv => lst_expand_pze (by have := hInv.depth_pos; omega) hInv.s_zero,
   fun _ _ hInv => lst_indices_reduce_pze (by have := hInv.depth_pos; omega) hInv.s_zero⟩

/-- Witness for C3 at concrete inputs. -/
theorem C3_witness :
    Inv cmpId initialLST ∧ Inv cmpId tC6 ∧ Inv cmpId tC5 ∧
    (∀ u ∈ lst_insert cmpId initialLST 1 [], PivotZeroEq u.2.1) ∧
    (∀ u ∈ lst_pop cmpId tC6 [], PivotZeroEq u.2.1) ∧
    (∀ u ∈ lst_peek cmpId tC6 [], PivotZeroEq u.2.1) ∧
    (∀ u ∈ lst_extract cmpId tC6 1, PivotZeroEq u.2) ∧
    PivotZeroEq (lst_expand tC5) ∧ PivotZeroEq (lst_indices_reduce tC6) :=
  ⟨inv_initial, inv_tC6, inv_tC5,
   C3_spec.2.1 cmpId initialLST 1 [] inv_initial,
   C3_spec.2.2.1 cmpId tC6 [] inv_tC6,
   C3_spec.2.2.2.1 cmpId tC6 [] inv_tC6,
   C3_spec.2.2.2.2.1 cmpId tC6 1 inv_tC6,
   C3_spec.2.2.2.2.2.1 cmpId tC5 inv_tC5,
   C3_spec.2.2.2.2.2.2 cmpId tC6 inv_tC6⟩

/-- C4 counterexample: record 1 has handle field `-1` (nonzero), the state
satisfies the invariants, yet `lst_insert` accepts it and returns success. -/
theorem C4_counterexample :
    Inv cmpId tC4 ∧ tC4.hIdx 1 = -1 ∧
    (lst_insert cmpId tC4 1 []).map (fun r => r.1) = some 1 :=
  ⟨inv_tC4, by decide, by decide⟩

/-- C4 (amended): `lst_insert` rejects a record exactly when, on the state
obtained after the possible capacity expansion, the record's handle field is
positive, or it is zero while `num_elements > 0`, `idx = 0` and slot 0 holds
that very record.  In particular a record with a negative handle field is
not rejected. -/
theorem C4_spec (cmp : Nat → Nat → Int) (t : LST) (x : Nat) (rs : List Nat)
    (hInv : Inv cmp t) :
    ((lst_insert cmp t x rs).map (fun r => r.1) = some (-1) ↔
      (let t1 := if t.num_elements = t.capacity then lst_expand t else t
       0 < t1.hIdx x ∨
         (t1.hIdx x = 0 ∧ 0 < t1.num_elements ∧ t1.idx = 0 ∧ item t1 0 = x))) := by
  simp only [lst_insert]
  split
  all_goals
    split
    · rename_i hcond
      simp [hcond]
    · rename_i hcond
      constructor
      · intro hl
        exfalso
        rcases hgo : insert_go cmp _ _ 0 x rs with _ | a
        · rw [hgo] at hl
          simp at hl
        · rw [hgo] at hl
          simp at hl
      · intro hr
        exact absurd hr hcond

/-- Witness for C4 (amended) at a concrete input: on the invariant state
`tC6`, re-inserting the resident record 1 (handle 0, at slot 0) reports
failure, matching the stated condition. -/
theorem C4_witness :
    Inv cmpId tC6 ∧
    ((lst_insert cmpId tC6 1 []).map (fun r => r.1) = some (-1) ↔
      (let t1 := if tC6.num_elements = tC6.capacity then lst_expand tC6 else tC6
       0 < t1.hIdx 1 ∨
         (t1.hIdx 1 = 0 ∧ 0 < t1.num_elements ∧ t1.idx = 0 ∧ item t1 0 = 1))) :=
  ⟨inv_tC6, C4_spec cmpId tC6 1 [] inv_tC6⟩

/-- C5 counterexample: `tC5` is full (capacity 2) and satisfies the
invariants; record 1 is resident at slot 0 with handle 0, so inserting it is
rejected as already resident, yet the call changes the state: the capacity
becomes 4. -/
theorem C5_counterexample :
    Inv cmpId tC5 ∧ tC5.hIdx 1 = 0 ∧ tC5.idx = 0 ∧ item tC5 0 = 1 ∧
    tC5.capacity = 2 ∧
    (lst_insert cmpId tC5 1 []).map (fun r => (r.1, r.2.1.capacity)) = some (-1, 4) :=
  ⟨inv_tC5, by decide, by decide, by decide, by decide, by decide⟩

/-- C5 (amended): when `lst_insert` rejects a record as already resident and
the LST was not full, the call returns with the state entirely unchanged;
when the LST was full, the rejected call nevertheless performs the capacity
expansion first, and returns exactly the expanded state. -/
theorem C5_spec (cmp : Nat → Nat → Int) (t : LST) (x : Nat) (rs : List Nat)
    (hInv : Inv cmp t) :
    (t.num_elements < t.capacity →
      (0 < t.hIdx x ∨ (t.hIdx x = 0 ∧ 0 < t.num_elements ∧ t.idx = 0 ∧ item t 0 = x)) →
      lst_insert cmp t x rs = some (-1, t, rs)) ∧
    (t.num_elements = t.capacity →
      (0 < (lst_expand t).hIdx x ∨ ((lst_expand t).hIdx x = 0 ∧
        0 < (lst_expand t).num_elements ∧ (lst_expand t).idx = 0 ∧
        item (lst_expand t) 0 = x)) →
      lst_insert cmp t x rs = some (-1, lst_expand t, rs)) := by
  constructor
  · intro hlt hcond
    have hne : ¬(t.num_elements = t.capacity) := by omega
    simp only [lst_insert, if_neg hne, if_pos hcond]
  · intro heq hcond
    simp only [lst_insert, if_pos heq, if_pos hcond]

/-- Witness for C5 (amended) at concrete inputs. -/
theorem C5_witness :
    Inv cmpId tC6 ∧ Inv cmpId tC5 ∧
    lst_insert cmpId tC6 1 [] = some (-1, tC6, []) ∧
    lst_insert cmpId tC5 1 [] = some (-1, lst_expand tC5, []) :=
  ⟨inv_tC6, inv_tC5,
   (C5_spec cmpId tC6 1 [] inv_tC6).1 (by decide) (by decide),
   (C5_spec cmpId tC5 1 [] inv_tC5).2 (by decide) (by decide)⟩

lemma iter_next_none {cmp : Nat → Nat → Int} {t : LST} (hInv : Inv cmp t)
    {j : Nat} (hj : t.num_elements ≤ (j : Int) + 1) :
    lst_iter_next t (t.idx + (j : Int)) = none := by
  unfold lst_iter_next stack_item
  rw [hInv.s_zero, if_pos (by omega)]

lemma iter_next_some {cmp : Nat → Nat → Int} {t : LST} (hInv : Inv cmp t)
    {j : Nat} (hj : (j : Int) + 1 < t.num_elements) :
    lst_iter_next t (t.idx + (j : Int)) =
      some (t.idx + (j : Int) + 1, item t (t.idx + (j : Int) + 1)) := by
  unfold lst_iter_next stack_item
  rw [hInv.s_zero, if_neg (by omega)]

lemma iterTraceGo_eq {cmp : Nat → Nat → Int} {t : LST} (hInv : Inv cmp t) :
    ∀ (f j : Nat), t.num_elements.toNat ≤ j + 1 + f →
      iterTraceGo t f (t.idx + (j : Int)) =
        (List.range (t.num_elements.toNat - (j + 1))).map
          (fun i => item t (t.idx + ((j + 1 + i : Nat) : Int))) := by
  intro f
  induction f with
  | zero =>
    intro j hj
    rw [show t.num_elements.toNat - (j + 1) = 0 by omega]
    simp [iterTraceGo]
  | succ f ih =>
    intro j hj
    have hnn := hInv.ne_lb
    simp only [iterTraceGo]
    by_cases hc : t.num_elements ≤ (j : Int) + 1
    · rw [iter_next_none hInv hc]
      rw [show t.num_elements.toNat - (j + 1) = 0 by omega]
      simp
    · rw [iter_next_some hInv (by omega)]
      rw [show t.idx + (j : Int) + 1 = t.idx + ((j + 1 : Nat) : Int) by push_cast; ring]
      simp only
      rw [ih (j + 1) (by omega)]
      have hlt : j + 1 < t.num_elements.toNat := by omega
      refine List.ext_getElem ?_ ?_
      · simp
        omega
      · intro i h1 h2
        rcases i with _ | i <;> simp
        all_goals
          congr 1
          omega


lemma iterTrace_eq_residents {cmp : Nat → Nat → Int} {t : LST} (hInv : Inv cmp t) :
    iterTrace t = residents t := by
  unfold iterTrace residents
  by_cases h0 : t.num_elements = 0
  · rw [lst_iter_init, if_pos h0, h0]
    simp
  · have hnn := hInv.ne_lb
    have hpos : 0 < t.num_elements.toNat := by omega
    rw [lst_iter_init, if_neg h0]
    simp only
    have hgo := iterTraceGo_eq hInv t.num_elements.toNat 0 (by omega)
    rw [show t.idx + ((0 : Nat) : Int) = t.idx by simp] at hgo
    rw [hgo]
    refine List.ext_getElem ?_ ?_
    · simp
      omega
    · intro i h1 h2
      rcases i with _ | i
      · simp
      · simp
        congr 1
        omega

lemma residents_nodup {cmp : Nat → Nat → Int} {t : LST} (hInv : Inv cmp t) :
    (residents t).Nodup := by
  unfold residents
  refine List.Nodup.map_on ?_ (List.nodup_range _)
  intro a ha b hb hfab
  rw [List.mem_range] at ha hb
  by_contra hne
  exact Inv.inj hInv ha hb hne hfab

/-- C9: on an invariant state, `lst_iter_init` returns null exactly on the
empty LST and otherwise yields the element at `idx` with the iterator set to
`idx`; each `lst_iter_next` advances the iterator by one and returns the
element there until the position reaches `s[0]`, after which it returns
null; the full iteration visits exactly the resident elements, in physical
order, each exactly once. -/
theorem C9_spec (cmp : Nat → Nat → Int) (t : LST) (hInv : Inv cmp t) :
    (t.num_elements = 0 → lst_iter_init t = none) ∧
    (0 < t.num_elements → lst_iter_init t = some (t.idx, item t t.idx)) ∧
    (∀ j : Nat, (j : Int) + 1 < t.num_elements →
      lst_iter_next t (t.idx + (j : Int)) =
        some (t.idx + (j : Int) + 1, item t (t.idx + (j : Int) + 1))) ∧
    (∀ j : Nat, t.num_elements ≤ (j : Int) + 1 →
      lst_iter_next t (t.idx + (j : Int)) = none) ∧
    iterTrace t = residents t ∧ (iterTrace t).Nodup := by
  refine ⟨?_, ?_, ?_, ?_, iterTrace_eq_residents hInv, ?_⟩
  · intro h
    rw [lst_iter_init, if_pos h]
  · intro h
    rw [lst_iter_init, if_neg (by omega)]
  · intro j hj
    exact iter_next_some hInv hj
  · intro j hj
    exact iter_next_none hInv hj
  · rw [iterTrace_eq_residents hInv]
    exact residents_nodup hInv

/-- Witness for C9 at a concrete input. -/
theorem C9_witness :
    Inv cmpId tC6 ∧
    ((tC6.num_elements = 0 → lst_iter_init tC6 = none) ∧
     (0 < tC6.num_elements → lst_iter_init tC6 = some (tC6.idx, item tC6 tC6.idx)) ∧
     (∀ j : Nat, (j : Int) + 1 < tC6.num_elements →
       lst_iter_next tC6 (tC6.idx + (j : Int)) =
         some (tC6.idx + (j : Int) + 1, item tC6 (tC6.idx + (j : Int) + 1))) ∧
     (∀ j : Nat, tC6.num_elements ≤ (j : Int) + 1 →
       lst_iter_next tC6 (tC6.idx + (j : Int)) = none) ∧
     iterTrace tC6 = residents tC6 ∧ (iterTrace tC6).Nodup) :=
  ⟨inv_tC6, C9_spec cmpId tC6 inv_tC6⟩

lemma Inv.slot_handle {cmp : Nat → Nat → Int} {t : LST} (h : Inv cmp t)
    (hfull : t.num_elements = t.capacity) :
    ∀ s : Int, 0 ≤ s → s < t.capacity → t.hIdx (t.p s) = s := by
  intro s h0 h1
  have hC := h.cap_pos
  have hi0 := h.idx_lb
  have hi1 := h.idx_ub
  by_cases hcase : t.idx ≤ s
  · have hk2 : (s - t.idx).toNat < t.num_elements.toNat := by omega
    have hh := h.handles _ hk2
    have hcast : t.idx + (((s - t.idx).toNat : Nat) : Int) = s := by omega
    rw [hcast] at hh
    rw [show item t s = t.p (reduce t s) from rfl] at hh
    rw [reduce_eq_of_bounds t h0 h1] at hh
    exact hh
  · have hk2 : (s + t.capacity - t.idx).toNat < t.num_elements.toNat := by omega
    have hh := h.handles _ hk2
    have hcast : t.idx + (((s + t.capacity - t.idx).toNat : Nat) : Int) = s + t.capacity := by
      omega
    rw [hcast] at hh
    have hred : reduce t (s + t.capacity) = s := by
      rw [reduce_add_cap t s, reduce_eq_of_bounds t h0 h1]
    rw [show item t (s + t.capacity) = t.p (reduce t (s + t.capacity)) from rfl] at hh
    rw [hred] at hh
    exact hh

lemma Inv.slot_inj {cmp : Nat → Nat → Int} {t : LST} (h : Inv cmp t)
    (hfull : t.num_elements = t.capacity) {s1 s2 : Int}
    (h1 : 0 ≤ s1) (h2 : s1 < t.capacity) (h3 : 0 ≤ s2) (h4 : s2 < t.capacity)
    (heq : t.p s1 = t.p s2) : s1 = s2 := by
  have e1 := h.slot_handle hfull s1 h1 h2
  have e2 := h.slot_handle hfull s2 h3 h4
  rw [heq] at e1
  omega

lemma expand_t2_eq {t : LST} (h0 : 0 ≤ t.idx) (h1 : t.idx < t.capacity) :
    lst_indices_reduce { t with capacity := 2 * t.capacity } =
      { t with capacity := 2 * t.capacity } := by
  have hr : reduce { t with capacity := 2 * t.capacity } t.idx = t.idx :=
    reduce_eq_of_bounds _ h0 (by show t.idx < 2 * t.capacity; omega)
  unfold lst_indices_reduce
  simp only
  rw [hr]
  have hfun : (fun i => if i < t.sdepth then t.idx + t.sdata i - t.idx else t.sdata i) =
      t.sdata := by
    funext i
    split <;> ring
  rw [show ({ t with capacity := 2 * t.capacity } : LST).sdepth = t.sdepth from rfl,
    show ({ t with capacity := 2 * t.capacity } : LST).sdata = t.sdata from rfl,
    show ({ t with capacity := 2 * t.capacity } : LST).idx = t.idx from rfl, hfun]

lemma lst_expand_eq_loop {t : LST} (h0 : 0 ≤ t.idx) (h1 : t.idx < t.capacity) :
    lst_expand t = (List.range t.idx.toNat).foldl (expand_move t.capacity)
      { t with capacity := 2 * t.capacity } := by
  unfold lst_expand
  simp only
  rw [expand_t2_eq h0 h1]

lemma expand_loop_spec (t : LST) (hC : 0 < t.capacity)
    (hSlot : ∀ s : Int, 0 ≤ s → s < t.capacity → t.hIdx (t.p s) = s)
    (hidx0 : 0 ≤ t.idx) (hidxC : t.idx ≤ t.capacity) :
    ∀ m : Nat, (m : Int) ≤ t.idx →
      (((List.range m).foldl (expand_move t.capacity)
          { t with capacity := 2 * t.capacity }).capacity = 2 * t.capacity) ∧
      (((List.range m).foldl (expand_move t.capacity)
          { t with capacity := 2 * t.capacity }).idx = t.idx) ∧
      (((List.range m).foldl (expand_move t.capacity)
          { t with capacity := 2 * t.capacity }).num_elements = t.num_elements) ∧
      (((List.range m).foldl (expand_move t.capacity)
          { t with capacity := 2 * t.capacity }).sdepth = t.sdepth) ∧
      (((List.range m).foldl (expand_move t.capacity)
          { t with capacity := 2 * t.capacity }).sdata = t.sdata) ∧
      (∀ s : Int, (s < t.capacity ∨ t.capacity + (m : Int) ≤ s) →
        ((List.range m).foldl (expand_move t.capacity)
          { t with capacity := 2 * t.capacity }).p s = t.p s) ∧
      (∀ i : Nat, i < m →
        ((List.range m).foldl (expand_move t.capacity)
          { t with capacity := 2 * t.capacity }).p (t.capacity + (i : Int)) =
          t.p (i : Int)) ∧
      (∀ x : Nat, (∀ i : Nat, i < m → x ≠ t.p (i : Int)) →
        ((List.range m).foldl (expand_move t.capacity)
          { t with capacity := 2 * t.capacity }).hIdx x = t.hIdx x) ∧
      (∀ i : Nat, i < m →
        ((List.range m).foldl (expand_move t.capacity)
          { t with capacity := 2 * t.capacity }).hIdx (t.p (i : Int)) =
          (i : Int) + t.capacity) := by
  intro m
  induction m with
  | zero =>
    intro hm
    refine ⟨rfl, rfl, rfl, rfl, rfl, fun s hs => rfl, ?_, fun x hx => rfl, ?_⟩
    · intro i hi
      omega
    · intro i hi
      omega
  | succ m ih =>
    intro hm
    obtain ⟨u1, u2, u3, u4, u5, u6, u7, u8, u9⟩ := ih (by omega)
    rw [List.range_succ, List.foldl_append]
    simp only [List.foldl]
    set u := (List.range m).foldl (expand_move t.capacity)
      { t with capacity := 2 * t.capacity } with hu
    have hmC : (m : Int) < t.capacity := by omega
    have hredm : reduce u (m : Int) = (m : Int) := by
      unfold reduce
      rw [u1]
      exact Int.emod_eq_of_lt (by omega) (by omega)
    have hitem : item u (m : Int) = t.p (m : Int) := by
      unfold item
      rw [hredm]
      exact u6 (m : Int) (Or.inl hmC)
    have hpne : ∀ i : Nat, i < m → t.p ((m : Nat) : Int) ≠ t.p (i : Int) := by
      intro i hi heq
      have e1 := hSlot (m : Int) (by omega) hmC
      have e2 := hSlot (i : Int) (by omega) (by omega)
      rw [heq] at e1
      omega
    have hhm : u.hIdx (t.p (m : Int)) = (m : Int) := by
      rw [u8 _ (hpne)]
      exact hSlot (m : Int) (by omega) hmC
    have hstep : expand_move t.capacity u m =
        lst_move u ((m : Int) + t.capacity) (t.p (m : Int)) := by
      simp only [expand_move]
      rw [hitem, hhm]
    rw [hstep]
    have hredmc : reduce u ((m : Int) + t.capacity) = (m : Int) + t.capacity := by
      unfold reduce
      rw [u1]
      exact Int.emod_eq_of_lt (by omega) (by omega)
    refine ⟨u1, u2, u3, u4, u5, ?_, ?_, ?_, ?_⟩
    · intro s hs
      show fupd u.p (reduce u ((m : Int) + t.capacity)) (t.p (m : Int)) s = t.p s
      rw [hredmc]
      unfold fupd
      rw [if_neg (by omega)]
      exact u6 s (by omega)
    · intro i hi
      show fupd u.p (reduce u ((m : Int) + t.capacity)) (t.p (m : Int))
        (t.capacity + (i : Int)) = t.p (i : Int)
      rw [hredmc]
      unfold fupd
      by_cases hcase : i = m
      · rw [if_pos (by omega)]
        rw [hcase]
      · rw [if_neg (by omega)]
        exact u7 i (by omega)
    · intro x hx
      show fupd u.hIdx (t.p (m : Int)) (reduce u ((m : Int) + t.capacity)) x = t.hIdx x
      unfold fupd
      rw [if_neg (hx m (by omega))]
      exact u8 x (fun i hi => hx i (by omega))
    · intro i hi
      show fupd u.hIdx (t.p (m : Int)) (reduce u ((m : Int) + t.capacity))
        (t.p (i : Int)) = (i : Int) + t.capacity
      rw [hredmc]
      unfold fupd
      by_cases hcase : i = m
      · rw [if_pos (by rw [hcase])]
        omega
      · rw [if_neg ?_]
        · exact u9 i (by omega)
        · intro heq
          have e1 := hSlot (i : Int) (by omega) (by omega)
          have e2 := hSlot (m : Int) (by omega) (by omega)
          rw [heq] at e1
          omega

lemma lst_expand_spec {cmp : Nat → Nat → Int} {t : LST} (hInv : Inv cmp t)
    (hfull : t.num_elements = t.capacity) :
    (lst_expand t).capacity = 2 * t.capacity ∧
    (lst_expand t).idx = t.idx ∧
    (lst_expand t).num_elements = t.num_elements ∧
    (lst_expand t).sdepth = t.sdepth ∧
    (lst_expand t).sdata = t.sdata ∧
    (∀ k : Nat, k < t.num_elements.toNat →
      item (lst_expand t) (t.idx + (k : Int)) = item t (t.idx + (k : Int))) ∧
    (∀ k : Nat, k < t.num_elements.toNat →
      (lst_expand t).hIdx (item (lst_expand t) (t.idx + (k : Int))) =
        reduce (lst_expand t) (t.idx + (k : Int))) ∧
    (∀ x : Nat, ¬ Resident t x → (lst_expand t).hIdx x = t.hIdx x) := by
  have hC := hInv.cap_pos
  have hi0 := hInv.idx_lb
  have hi1 := hInv.idx_ub
  have hn0 := hInv.ne_lb
  have hSlot := hInv.slot_handle hfull
  have hL := expand_loop_spec t hC hSlot hi0 (by omega) t.idx.toNat (by omega)
  obtain ⟨u1, u2, u3, u4, u5, u6, u7, u8, u9⟩ := hL
  have hE := lst_expand_eq_loop hi0 hi1
  rw [hE]
  set E := (List.range t.idx.toNat).foldl (expand_move t.capacity)
    { t with capacity := 2 * t.capacity } with hEdef
  have hitem : ∀ k : Nat, k < t.num_elements.toNat →
      item E (t.idx + (k : Int)) = item t (t.idx + (k : Int)) := by
    intro k hk
    have hkc : (k : Int) < t.capacity := by omega
    have hredE : reduce E (t.idx + (k : Int)) = t.idx + (k : Int) := by
      unfold reduce
      rw [u1]
      exact Int.emod_eq_of_lt (by omega) (by omega)
    unfold item
    rw [hredE]
    by_cases hcase : t.idx + (k : Int) < t.capacity
    · rw [u6 _ (Or.inl hcase)]
      rw [reduce_eq_of_bounds t (by omega) hcase]
    · have hik : t.idx + (k : Int) - t.capacity < t.idx := by omega
      have hik0 : 0 ≤ t.idx + (k : Int) - t.capacity := by omega
      have h7 := u7 (t.idx + (k : Int) - t.capacity).toNat (by omega)
      rw [show (((t.idx + (k : Int) - t.capacity).toNat : Nat) : Int) =
        t.idx + (k : Int) - t.capacity by omega] at h7
      rw [show t.capacity + (t.idx + (k : Int) - t.capacity) = t.idx + (k : Int)
        by ring] at h7
      rw [h7]
      have hred : reduce t (t.idx + (k : Int)) = t.idx + (k : Int) - t.capacity := by
        have hrr := reduce_add_cap t (t.idx + (k : Int) - t.capacity)
        rw [show t.idx + (k : Int) - t.capacity + t.capacity = t.idx + (k : Int)
          by ring] at hrr
        rw [hrr]
        exact reduce_eq_of_bounds t hik0 (by omega)
      rw [hred]

  refine ⟨u1, u2, u3, u4, u5, hitem, ?_, ?_⟩
  · intro k hk
    have hkc : (k : Int) < t.capacity := by omega
    have hredE : reduce E (t.idx + (k : Int)) = t.idx + (k : Int) := by
      unfold reduce
      rw [u1]
      exact Int.emod_eq_of_lt (by omega) (by omega)
    rw [hitem k hk, hredE]
    by_cases hcase : t.idx + (k : Int) < t.capacity
    · have hs : item t (t.idx + (k : Int)) = t.p (t.idx + (k : Int)) := by
        unfold item
        rw [reduce_eq_of_bounds t (by omega) hcase]
      rw [hs]
      have hx : ∀ i : Nat, i < t.idx.toNat → t.p (t.idx + (k : Int)) ≠ t.p (i : Int) := by
        intro i hi heq
        have := hInv.slot_inj hfull (by omega) (by omega) (by omega)
          (by show (i : Int) < t.capacity; omega) heq
        omega
      rw [u8 _ hx]
      exact hSlot _ (by omega) hcase
    · have hik : t.idx + (k : Int) - t.capacity < t.idx := by omega
      have hik0 : 0 ≤ t.idx + (k : Int) - t.capacity := by omega
      have hs : item t (t.idx + (k : Int)) = t.p (t.idx + (k : Int) - t.capacity) := by
        unfold item
        have := reduce_add_cap t (t.idx + (k : Int) - t.capacity)
        rw [show t.idx + (k : Int) - t.capacity + t.capacity = t.idx + (k : Int)
          by ring] at this
        rw [this, reduce_eq_of_bounds t hik0 (by omega)]
      rw [hs]
      have h9 := u9 (t.idx + (k : Int) - t.capacity).toNat (by omega)
      rw [show (((t.idx + (k : Int) - t.capacity).toNat : Nat) : Int) =
        t.idx + (k : Int) - t.capacity by omega] at h9
      rw [h9]
      ring
  · intro x hx
    refine u8 x ?_
    intro i hi heq
    apply hx
    refine ⟨((i : Int) + t.capacity - t.idx).toNat, by omega, ?_⟩
    rw [show t.idx + ((((i : Int) + t.capacity - t.idx).toNat : Nat) : Int) =
      (i : Int) + t.capacity by omega]
    unfold item
    rw [reduce_add_cap t (i : Int), reduce_eq_of_bounds t (by omega)
      (by show (i : Int) < t.capacity; omega)]
    exact heq.symm

/-- C8: on an invariant state with `num_elements = capacity`, the internal
`lst_expand` invoked by `insert` doubles the capacity and preserves the
structure: `idx`, `num_elements` and the pivot stack are unchanged, the
element found at each live logical position `idx + k` is unchanged (so every
previously resident element is still resident and the elements again occupy
the contiguous circular range `[idx, idx + num_elements)`), and every
element's handle field equals the reduced index of its slot under the new
capacity. -/
theorem C8_spec (cmp : Nat → Nat → Int) (t : LST) (hInv : Inv cmp t)
    (hfull : t.num_elements = t.capacity) :
    (lst_expand t).capacity = 2 * t.capacity ∧
    (lst_expand t).idx = t.idx ∧
    (lst_expand t).num_elements = t.num_elements ∧
    (lst_expand t).sdepth = t.sdepth ∧
    (lst_expand t).sdata = t.sdata ∧
    (∀ k : Nat, k < t.num_elements.toNat →
      item (lst_expand t) (t.idx + (k : Int)) = item t (t.idx + (k : Int))) ∧
    (∀ x : Nat, Resident t x ↔ Resident (lst_expand t) x) ∧
    (∀ k : Nat, k < t.num_elements.toNat →
      (lst_expand t).hIdx (item (lst_expand t) (t.idx + (k : Int))) =
        reduce (lst_expand t) (t.idx + (k : Int))) := by
  obtain ⟨u1, u2, u3, u4, u5, hitem, hhandle, hframe⟩ := lst_expand_spec hInv hfull
  refine ⟨u1, u2, u3, u4, u5, hitem, ?_, hhandle⟩
  intro x
  constructor
  · rintro ⟨k, hk, hkx⟩
    exact ⟨k, by rw [u3]; exact hk, by rw [u2, hitem k hk]; exact hkx⟩
  · rintro ⟨k, hk, hkx⟩
    rw [u3] at hk
    rw [u2, hitem k hk] at hkx
    exact ⟨k, hk, hkx⟩

lemma inv_tC8 : Inv cmpId tC8 := by
  refine ⟨⟨1, by decide⟩, ?_, ?_, ?_, ?_, ?_, ?_, ?_, ?_, ?_, ?_, ?_⟩ <;> decide

/-- Witness for C8 at a concrete input: the full, wrapped, capacity-2 state
`tC8`. -/
theorem C8_witness :
    Inv cmpId tC8 ∧ tC8.num_elements = tC8.capacity ∧
    ((lst_expand tC8).capacity = 2 * tC8.capacity ∧
     (lst_expand tC8).idx = tC8.idx ∧
     (lst_expand tC8).num_elements = tC8.num_elements ∧
     (lst_expand tC8).sdepth = tC8.sdepth ∧
     (lst_expand tC8).sdata = tC8.sdata ∧
     (∀ k : Nat, k < tC8.num_elements.toNat →
       item (lst_expand tC8) (tC8.idx + (k : Int)) = item tC8 (tC8.idx + (k : Int))) ∧
     (∀ x : Nat, Resident tC8 x ↔ Resident (lst_expand tC8) x) ∧
     (∀ k : Nat, k < tC8.num_elements.toNat →
       (lst_expand tC8).hIdx (item (lst_expand tC8) (tC8.idx + (k : Int))) =
         reduce (lst_expand tC8) (tC8.idx + (k : Int)))) :=
  ⟨inv_tC8, by decide, C8_spec cmpId tC8 inv_tC8 (by decide)⟩

lemma reduce_congr {t0 t : LST} (h : t.capacity = t0.capacity) (x : Int) :
    reduce t x = reduce t0 x := by
  unfold reduce
  rw [h]

lemma PermFacts.base {t0 : LST} {low high : Int} (hHS : HS t0 low high) :
    PermFacts t0 t0 low high :=
  ⟨rfl, hHS, fun q h1 h2 => ⟨q, h1, h2, rfl⟩, fun _ _ => rfl, fun _ _ => rfl⟩

lemma PermFacts.compose {t0 t1 t2 : LST} {low high : Int}
    (h01 : PermFacts t0 t1 low high) (h12 : PermFacts t1 t2 low high) :
    PermFacts t0 t2 low high := by
  obtain ⟨c1, hs1, sr1, pf1, hf1⟩ := h01
  obtain ⟨c2, hs2, sr2, pf2, hf2⟩ := h12
  refine ⟨c2.trans c1, hs2, ?_, ?_, ?_⟩
  · intro q h1 h2
    obtain ⟨q', a1, a2, a3⟩ := sr2 q h1 h2
    obtain ⟨q'', b1, b2, b3⟩ := sr1 q' a1 a2
    exact ⟨q'', b1, b2, a3.trans b3⟩
  · intro s hs
    have hs' : ∀ q : Int, low ≤ q → q ≤ high → s ≠ reduce t1 q := by
      intro q h1 h2
      rw [reduce_congr c1 q]
      exact hs q h1 h2
    exact (pf2 s hs').trans (pf1 s hs)
  · intro x hx
    have hx' : ∀ q : Int, low ≤ q → q ≤ high → x ≠ item t1 q := by
      intro q h1 h2
      obtain ⟨q', a1, a2, a3⟩ := sr1 q h1 h2
      rw [a3]
      exact hx q' a1 a2
    exact (hf2 x hx').trans (hf1 x hx)

lemma HS.item_inj {t : LST} {low high : Int} (hHS : HS t low high) (hC : 0 < t.capacity)
    (hwin : high - low < t.capacity) {q1 q2 : Int}
    (h1 : low ≤ q1) (h2 : q1 ≤ high) (h3 : low ≤ q2) (h4 : q2 ≤ high)
    (heq : item t q1 = item t q2) : q1 = q2 := by
  have e1 := hHS q1 h1 h2
  have e2 := hHS q2 h3 h4
  rw [heq] at e1
  have : reduce t q2 = reduce t q1 := by rw [← e1, ← e2]
  exact (reduce_inj_window t hC this (by omega) (by omega)).symm

lemma window_inj {t : LST} {low high : Int} (hC : 0 < t.capacity)
    (hwin : high - low < t.capacity) {q1 q2 : Int}
    (h1 : low ≤ q1) (h2 : q1 ≤ high) (h3 : low ≤ q2) (h4 : q2 ≤ high)
    (heq : reduce t q1 = reduce t q2) : q1 = q2 :=
  reduce_inj_window t hC heq (by omega) (by omega)

lemma swap_spec (t : LST) {low high a b : Int} (hC : 0 < t.capacity)
    (hwin : high - low < t.capacity)
    (hla : low ≤ a) (hah : a ≤ high) (hlb : low ≤ b) (hbh : b ≤ high)
    (hHS : HS t low high) :
    PermFacts t (lst_move (lst_move t a (item t b)) b (item t a)) low high ∧
    item (lst_move (lst_move t a (item t b)) b (item t a)) b = item t a ∧
    (reduce t a ≠ reduce t b →
      item (lst_move (lst_move t a (item t b)) b (item t a)) a = item t b) ∧
    (∀ q : Int, reduce t q ≠ reduce t a → reduce t q ≠ reduce t b →
      item (lst_move (lst_move t a (item t b)) b (item t a)) q = item t q) := by
  set t' := lst_move (lst_move t a (item t b)) b (item t a) with ht'
  have hcap : t'.capacity = t.capacity := rfl
  have hred : ∀ x : Int, reduce t' x = reduce t x := fun _ => rfl
  have hp' : ∀ x : Int, item t' x =
      if reduce t x = reduce t b then item t a
      else if reduce t x = reduce t a then item t b else item t x := by
    intro x
    show fupd (fupd t.p (reduce t a) (item t b)) (reduce t b) (item t a)
      (reduce t x) = _
    unfold fupd
    by_cases e1 : reduce t x = reduce t b
    · simp [e1]
    · by_cases e2 : reduce t x = reduce t a
      · simp [e1, e2]
      · simp only [if_neg e1, if_neg e2]
        rfl
  have hdist : item t a = item t b → reduce t a = reduce t b := by
    intro heq
    have e1 := hHS a hla hah
    have e2 := hHS b hlb hbh
    rw [heq] at e1
    rw [← e1, ← e2]
  have hh' : ∀ x : Nat, t'.hIdx x =
      if x = item t a then reduce t b
      else if x = item t b then reduce t a else t.hIdx x := by
    intro x
    show fupd (fupd t.hIdx (item t b) (reduce t a)) (item t a) (reduce t b) x = _
    unfold fupd
    by_cases e1 : x = item t a
    · simp [e1]
    · by_cases e2 : x = item t b
      · simp [e1, e2]
      · simp [e1, e2]
  have hitemb : item t' b = item t a := by
    rw [hp' b, if_pos rfl]
  have hitema : reduce t a ≠ reduce t b → item t' a = item t b := by
    intro hne
    rw [hp' a, if_neg hne, if_pos rfl]
  have hframe : ∀ q : Int, reduce t q ≠ reduce t a → reduce t q ≠ reduce t b →
      item t' q = item t q := by
    intro q hqa hqb
    rw [hp' q, if_neg hqb, if_neg hqa]
  have hHS' : HS t' low high := by
    intro q hq1 hq2
    rw [hred q]
    by_cases e1 : reduce t q = reduce t b
    · rw [hp' q, if_pos e1]
      rw [hh' _, if_pos rfl]
      rw [e1]
    · by_cases e2 : reduce t q = reduce t a
      · rw [hp' q, if_neg e1, if_pos e2]
        have hba : item t b ≠ item t a := by
          intro heq
          exact e1 (e2.trans (hdist heq.symm))
        rw [hh' _, if_neg hba, if_pos rfl]
        rw [e2]
      · rw [hp' q, if_neg e1, if_neg e2]
        have hqa : item t q ≠ item t a := by
          intro heq
          have := HS.item_inj hHS hC hwin hq1 hq2 hla hah heq
          rw [this] at e2
          exact e2 rfl
        have hqb : item t q ≠ item t b := by
          intro heq
          have := HS.item_inj hHS hC hwin hq1 hq2 hlb hbh heq
          rw [this] at e1
          exact e1 rfl
        rw [hh' _, if_neg hqa, if_neg hqb]
        exact hHS q hq1 hq2
  refine ⟨⟨hcap, hHS', ?_, ?_, ?_⟩, hitemb, hitema, hframe⟩
  · intro q hq1 hq2
    by_cases e1 : reduce t q = reduce t b
    · refine ⟨a, hla, hah, ?_⟩
      rw [hp' q, if_pos e1]
    · by_cases e2 : reduce t q = reduce t a
      · refine ⟨b, hlb, hbh, ?_⟩
        rw [hp' q, if_neg e1, if_pos e2]
      · refine ⟨q, hq1, hq2, ?_⟩
        rw [hp' q, if_neg e1, if_neg e2]
  · intro s hs
    show fupd (fupd t.p (reduce t a) (item t b)) (reduce t b) (item t a) s = t.p s
    unfold fupd
    rw [if_neg (hs b hlb hbh), if_neg (hs a hla hah)]
  · intro x hx
    rw [hh' x, if_neg (hx a hla hah), if_neg (hx b hlb hbh)]

lemma scanDown_spec (cmp : Nat → Nat → Int) (t : LST) (pivot : Nat) :
    ∀ (f : Nat) (h stop : Int), stop ≤ h - 1 →
    cmp (item t stop) pivot ≤ 0 → (h - stop).toNat ≤ f →
    ∃ h1 : Int, scanDown cmp t pivot f h = some h1 ∧ stop ≤ h1 ∧ h1 ≤ h - 1 ∧
      cmp (item t h1) pivot ≤ 0 ∧
      ∀ q : Int, h1 < q → q ≤ h - 1 → 0 < cmp (item t q) pivot := by
  intro f
  induction f with
  | zero => intro h stop h1 h2 h3; exfalso; omega
  | succ f ih =>
    intro h stop hs1 hs2 hf
    have hunf : scanDown cmp t pivot (f + 1) h =
        if 0 < cmp (item t (h - 1)) pivot then scanDown cmp t pivot f (h - 1)
        else some (h - 1) := rfl
    by_cases hc : 0 < cmp (item t (h - 1)) pivot
    · have hne : stop ≠ h - 1 := by
        intro e; rw [e] at hs2; omega
      obtain ⟨h1, heq, p1, p2, p3, p4⟩ := ih (h - 1) stop (by omega) hs2 (by omega)
      refine ⟨h1, ?_, p1, by omega, p3, ?_⟩
      · rw [hunf, if_pos hc]; exact heq
      · intro q hq1 hq2
        by_cases hq3 : q ≤ h - 1 - 1
        · exact p4 q hq1 hq3
        · have hqe : q = h - 1 := by omega
          rw [hqe]; exact hc
    · refine ⟨h - 1, ?_, by omega, le_refl _, by omega, by intro q h1 h2; exfalso; omega⟩
      rw [hunf, if_neg hc]

lemma scanUp_spec (cmp : Nat → Nat → Int) (t : LST) (pivot : Nat) :
    ∀ (f : Nat) (l stop : Int), l + 1 ≤ stop →
    0 ≤ cmp (item t stop) pivot → (stop - l).toNat ≤ f →
    ∃ l1 : Int, scanUp cmp t pivot f l = some l1 ∧ l + 1 ≤ l1 ∧ l1 ≤ stop ∧
      0 ≤ cmp (item t l1) pivot ∧
      ∀ q : Int, l + 1 ≤ q → q < l1 → cmp (item t q) pivot < 0 := by
  intro f
  induction f with
  | zero => intro l stop h1 h2 h3; exfalso; omega
  | succ f ih =>
    intro l stop hs1 hs2 hf
    have hunf : scanUp cmp t pivot (f + 1) l =
        if cmp (item t (l + 1)) pivot < 0 then scanUp cmp t pivot f (l + 1)
        else some (l + 1) := rfl
    by_cases hc : cmp (item t (l + 1)) pivot < 0
    · have hne : stop ≠ l + 1 := by
        intro e; rw [e] at hs2; omega
      obtain ⟨l1, heq, p1, p2, p3, p4⟩ := ih (l + 1) stop (by omega) hs2 (by omega)
      refine ⟨l1, ?_, by omega, p2, p3, ?_⟩
      · rw [hunf, if_pos hc]; exact heq
      · intro q hq1 hq2
        by_cases hq3 : l + 1 + 1 ≤ q
        · exact p4 q hq3 hq2
        · have hqe : q = l + 1 := by omega
          rw [hqe]; exact hc
    · refine ⟨l + 1, ?_, le_refl _, hs1, by omega, by intro q h1 h2; exfalso; omega⟩
      rw [hunf, if_neg hc]

lemma hoareLoop_spec {cmp : Nat → Nat → Int} {pivot : Nat} {t0 : LST} {low high : Int}
    (hC : 0 < t0.capacity) (hwin : high - low < t0.capacity) :
    ∀ (f : Nat) (t : LST) (l h : Int),
    PermFacts t0 t low high →
    low - 1 ≤ l → l < h → h ≤ high + 1 →
    (∀ q : Int, low ≤ q → q ≤ l → cmp (item t q) pivot ≤ 0) →
    (∀ q : Int, h ≤ q → q ≤ high → 0 ≤ cmp (item t q) pivot) →
    (∃ qd : Int, l ≤ qd ∧ low ≤ qd ∧ qd ≤ h - 1 ∧ cmp (item t qd) pivot ≤ 0) →
    (∃ qu : Int, l + 1 ≤ qu ∧ qu ≤ h ∧ 0 ≤ cmp (item t qu) pivot) →
    (∃ jp : Int, low ≤ jp ∧ jp ≤ high ∧ item t jp = pivot) →
    (h - l).toNat ≤ 2 * f →
    ∃ p : LST × Int, hoareLoop cmp pivot f t l h = some p ∧
      PermFacts t0 p.1 low high ∧ low ≤ p.2 ∧ p.2 ≤ high ∧
      (∀ q : Int, low ≤ q → q ≤ p.2 → cmp (item p.1 q) pivot ≤ 0) ∧
      (∀ q : Int, p.2 < q → q ≤ high → 0 ≤ cmp (item p.1 q) pivot) ∧
      (∃ jp : Int, low ≤ jp ∧ jp ≤ high ∧ item p.1 jp = pivot) := by
  intro f
  induction f with
  | zero => intro t l h _ _ hlh _ _ _ _ _ _ hf; exfalso; omega
  | succ f ih =>
    intro t l h hPF hll hlh hhh hW2 hW3 hqd hqu hpres hf
    obtain ⟨qd, hqd1, hqd2, hqd3, hqd4⟩ := hqd
    obtain ⟨qu, hqu1, hqu2, hqu3⟩ := hqu
    obtain ⟨h1, hdeq, hd1, hd2, hd3, hd4⟩ :=
      scanDown_spec cmp t pivot ((h - l).toNat + 1) h qd hqd3 hqd4 (by omega)
    obtain ⟨l1, hueq, hu1, hu2, hu3, hu4⟩ :=
      scanUp_spec cmp t pivot ((h - l).toNat + 1) l qu hqu1 hqu3 (by omega)
    have hcapt : t.capacity = t0.capacity := hPF.1
    have hHS : HS t low high := hPF.2.1
    by_cases hbr : h1 ≤ l1
    · refine ⟨(t, h1), ?_, hPF, by omega, by omega, ?_, ?_, hpres⟩
      · simp only [hoareLoop, hdeq, hueq]
        rw [if_pos hbr]
      · intro q hq1 hq2
        by_cases hc1 : q ≤ l
        · exact hW2 q hq1 hc1
        · by_cases hc2 : q < l1
          · exact le_of_lt (hu4 q (by omega) hc2)
          · have hqe : q = h1 := by omega
            rw [hqe]; exact hd3
      · intro q hq1 hq2
        by_cases hc1 : q ≤ h - 1
        · exact le_of_lt (hd4 q hq1 hc1)
        · exact hW3 q (by omega) hq2
    · push_neg at hbr
      have hl1low : low ≤ l1 := by omega
      have hl1high : l1 ≤ high := by omega
      have hh1low : low ≤ h1 := by omega
      have hh1high : h1 ≤ high := by omega
      have hCt : 0 < t.capacity := by rw [hcapt]; exact hC
      have hwint : high - low < t.capacity := by rw [hcapt]; exact hwin
      obtain ⟨hPF2, hitemb, hitema, hframe⟩ :=
        swap_spec t hCt hwint hl1low hl1high hh1low hh1high hHS
      have hne : reduce t l1 ≠ reduce t h1 := by
        intro e
        have := window_inj hCt hwint hl1low hl1high hh1low hh1high e
        omega
      have hit_a := hitema hne
      set t' := lst_move (lst_move t l1 (item t h1)) h1 (item t l1) with ht'
      have hfr : ∀ q : Int, low ≤ q → q ≤ high → q ≠ l1 → q ≠ h1 →
          item t' q = item t q := by
        intro q hA hB hnl hnh
        refine hframe q ?_ ?_
        · intro e; exact hnl (window_inj hCt hwint hA hB hl1low hl1high e)
        · intro e; exact hnh (window_inj hCt hwint hA hB hh1low hh1high e)
      have hW2' : ∀ q : Int, low ≤ q → q ≤ l1 → cmp (item t' q) pivot ≤ 0 := by
        intro q hA hB
        by_cases e : q = l1
        · rw [e, hit_a]; exact hd3
        · rw [hfr q hA (by omega) e (by omega)]
          by_cases e2 : q ≤ l
          · exact hW2 q hA e2
          · exact le_of_lt (hu4 q (by omega) (by omega))
      have hW3' : ∀ q : Int, h1 ≤ q → q ≤ high → 0 ≤ cmp (item t' q) pivot := by
        intro q hA hB
        by_cases e : q = h1
        · rw [e, hitemb]; exact hu3
        · rw [hfr q (by omega) hB (by omega) e]
          by_cases e2 : q ≤ h - 1
          · exact le_of_lt (hd4 q (by omega) e2)
          · exact hW3 q (by omega) hB
      have hpres' : ∃ jp : Int, low ≤ jp ∧ jp ≤ high ∧ item t' jp = pivot := by
        obtain ⟨jp, hj1, hj2, hj3⟩ := hpres
        by_cases ejl : jp = l1
        · refine ⟨h1, hh1low, hh1high, ?_⟩
          rw [hitemb, ← ejl]; exact hj3
        · by_cases ejh : jp = h1
          · refine ⟨l1, hl1low, hl1high, ?_⟩
            rw [hit_a, ← ejh]; exact hj3
          · exact ⟨jp, hj1, hj2, by rw [hfr jp hj1 hj2 ejl ejh]; exact hj3⟩
      obtain ⟨p, hpeq, hp1, hp2, hp3, hp4, hp5, hp6⟩ :=
        ih t' l1 h1 (PermFacts.compose hPF hPF2) (by omega) hbr (by omega)
          hW2' hW3'
          ⟨l1, le_refl _, hl1low, by omega, by rw [hit_a]; exact hd3⟩
          ⟨h1, by omega, le_refl _, by rw [hitemb]; exact hu3⟩
          hpres' (by omega)
      refine ⟨p, ?_, hp1, hp2, hp3, hp4, hp5, hp6⟩
      simp only [hoareLoop, hdeq, hueq]
      rw [if_neg (not_le.mpr hbr)]
      exact hpeq

lemma reduce_shift (t : LST) (a b d : Int) (h : reduce t a = reduce t b) :
    reduce t (a + d) = reduce t (b + d) := by
  rw [reduce_eq_reduce_iff] at h ⊢
  have he : a + d - (b + d) = a - b := by ring
  rw [he]; exact h

lemma reduce_sub_cases (t : LST) (hC : 0 < t.capacity) {a b : Int}
    (h0 : 0 ≤ b - a) (h1 : b - a < t.capacity) :
    reduce t b - reduce t a = b - a ∨
    reduce t b - reduce t a = b - a - t.capacity := by
  have hr : 0 ≤ reduce t a := reduce_nonneg t hC a
  have hr2 : reduce t a < t.capacity := reduce_lt_cap t hC a
  have hra : reduce t (reduce t a) = reduce t a := reduce_eq_of_bounds t hr hr2
  have hb : reduce t b = reduce t (reduce t a + (b - a)) := by
    have h2 : reduce t (a + (b - a)) = reduce t (reduce t a + (b - a)) :=
      reduce_shift t a (reduce t a) (b - a) hra.symm
    have h3 : a + (b - a) = b := by ring
    rw [h3] at h2; exact h2
  by_cases hcase : reduce t a + (b - a) < t.capacity
  · left
    rw [hb, reduce_eq_of_bounds t (by omega) hcase]; ring
  · right
    have h4 : reduce t (reduce t a + (b - a) - t.capacity) =
        reduce t (reduce t a + (b - a)) := by
      have h5 := reduce_add_cap t (reduce t a + (b - a) - t.capacity)
      rw [show reduce t a + (b - a) - t.capacity + t.capacity =
        reduce t a + (b - a) by ring] at h5
      exact h5.symm
    rw [hb, ← h4, reduce_eq_of_bounds t (by omega) (by omega)]; ring

lemma partition_recover_spec (t2 : LST) {low high jp : Int} {pivot : Nat}
    (hC : 0 < t2.capacity) (hwin : high - low < t2.capacity)
    (hjp1 : low ≤ jp) (hjp2 : jp ≤ high)
    (hHS : HS t2 low high) (hitem : item t2 jp = pivot) :
    partition_recover t2 low high pivot = jp := by
  have hidx : t2.hIdx pivot = reduce t2 jp := by
    rw [← hitem]; exact hHS jp hjp1 hjp2
  simp only [partition_recover, hidx]
  rcases reduce_sub_cases t2 hC (a := low) (b := jp) (by omega) (by omega) with hA | hA
  · rw [if_pos (by omega)]; omega
  · rw [if_neg (by omega)]
    rcases reduce_sub_cases t2 hC (a := jp) (b := high) (by omega) (by omega) with hB | hB
    · omega
    · have hn := reduce_nonneg t2 hC high
      have hl := reduce_lt_cap t2 hC low
      omega

lemma partition_place_spec {cmp : Nat → Nat → Int} {t2 : LST} {low high h0 jp : Int}
    {pivot : Nat}
    (hC : 0 < t2.capacity) (hwin : high - low < t2.capacity)
    (hHS : HS t2 low high)
    (hh0a : low ≤ h0) (hh0b : h0 ≤ high)
    (hjpa : low ≤ jp) (hjpb : jp ≤ high)
    (hpiv : item t2 jp = pivot)
    (hW2 : ∀ q : Int, low ≤ q → q ≤ h0 → cmp (item t2 q) pivot ≤ 0)
    (hW3 : ∀ q : Int, h0 < q → q ≤ high → 0 ≤ cmp (item t2 q) pivot) :
    ∃ t4 : LST, ∃ h1 : Int, partition_place t2 h0 jp pivot = (t4, h1) ∧
      PermFacts t2 t4 low high ∧ low ≤ h1 ∧ h1 ≤ high ∧ item t4 h1 = pivot ∧
      (∀ q : Int, low ≤ q → q < h1 → cmp (item t4 q) pivot ≤ 0) ∧
      (∀ q : Int, h1 < q → q ≤ high → 0 ≤ cmp (item t4 q) pivot) := by
  rcases lt_trichotomy jp h0 with hlt | heq | hgt
  · -- pivot sits below h0: swap it up to h0
    have hform : partition_place t2 h0 jp pivot =
        (lst_move (lst_move t2 jp (item t2 h0)) h0 (item t2 jp), h0) := by
      simp only [partition_place]
      rw [if_pos hlt, if_neg (by omega), if_neg (by omega), ← hpiv]
    obtain ⟨hPF, hitemb, hitema, hframe⟩ :=
      swap_spec t2 hC hwin hjpa hjpb hh0a hh0b hHS
    set t4 := lst_move (lst_move t2 jp (item t2 h0)) h0 (item t2 jp) with ht4
    have hfr : ∀ q : Int, low ≤ q → q ≤ high → q ≠ jp → q ≠ h0 →
        item t4 q = item t2 q := by
      intro q hA hB hnj hnh
      refine hframe q ?_ ?_
      · intro e; exact hnj (window_inj hC hwin hA hB hjpa hjpb e)
      · intro e; exact hnh (window_inj hC hwin hA hB hh0a hh0b e)
    have hnjh : reduce t2 jp ≠ reduce t2 h0 := by
      intro e
      have := window_inj hC hwin hjpa hjpb hh0a hh0b e
      omega
    refine ⟨t4, h0, hform, hPF, hh0a, hh0b, by rw [hitemb]; exact hpiv, ?_, ?_⟩
    · intro q hA hB
      by_cases e : q = jp
      · rw [e, hitema hnjh]
        exact hW2 h0 hh0a (le_refl _)
      · rw [hfr q hA (by omega) e (by omega)]
        exact hW2 q hA (by omega)
    · intro q hA hB
      rw [hfr q (by omega) hB (by omega) (by omega)]
      exact hW3 q hA hB
  · -- pivot already at h0
    have hform : partition_place t2 h0 jp pivot = (t2, h0) := by
      simp only [partition_place]
      rw [if_neg (by omega), if_neg (by omega), if_neg (by omega)]
    refine ⟨t2, h0, hform, PermFacts.base hHS, hh0a, hh0b, by rw [← heq]; exact hpiv,
      ?_, ?_⟩
    · intro q hA hB
      exact hW2 q hA (by omega)
    · intro q hA hB
      exact hW3 q hA hB
  · -- pivot sits above h0: bump h0 and swap the pivot down to it
    have hh1b : h0 + 1 ≤ high := by omega
    have hh1a : low ≤ h0 + 1 := by omega
    have hform : partition_place t2 h0 jp pivot =
        (lst_move (lst_move t2 jp (item t2 (h0 + 1))) (h0 + 1) (item t2 jp),
          h0 + 1) := by
      simp only [partition_place]
      rw [if_pos hgt, if_pos hgt, if_neg (by omega), ← hpiv]
    obtain ⟨hPF, hitemb, hitema, hframe⟩ :=
      swap_spec t2 hC hwin hjpa hjpb hh1a hh1b hHS
    set t4 := lst_move (lst_move t2 jp (item t2 (h0 + 1))) (h0 + 1) (item t2 jp)
      with ht4
    have hfr : ∀ q : Int, low ≤ q → q ≤ high → q ≠ jp → q ≠ h0 + 1 →
        item t4 q = item t2 q := by
      intro q hA hB hnj hnh
      refine hframe q ?_ ?_
      · intro e; exact hnj (window_inj hC hwin hA hB hjpa hjpb e)
      · intro e; exact hnh (window_inj hC hwin hA hB hh1a hh1b e)
    refine ⟨t4, h0 + 1, hform, hPF, hh1a, hh1b, by rw [hitemb]; exact hpiv, ?_, ?_⟩
    · intro q hA hB
      rw [hfr q hA (by omega) (by omega) (by omega)]
      exact hW2 q hA (by omega)
    · intro q hA hB
      by_cases e : q = jp
      · have hnjh : reduce t2 jp ≠ reduce t2 (h0 + 1) := by
          intro e2
          have := window_inj hC hwin hjpa hjpb hh1a hh1b e2
          omega
        rw [e, hitema hnjh]
        exact hW3 (h0 + 1) (by omega) hh1b
      · rw [hfr q (by omega) hB e (by omega)]
        exact hW3 q (by omega) hB

lemma partition_spec_aux {cmp : Nat → Nat → Int} {t : LST} {k : Nat} {low high : Int}
    (rs : List Nat)
    (hlow : bucket_lwb t k = low) (hhigh : bucket_upb t k = high)
    (hC : 0 < t.capacity)
    (hrefl : ∀ a, cmp a a = 0)
    (hlh : low ≤ high)
    (hwin : high - low < t.capacity)
    (hHS : HS t low high) :
    ∃ t4 : LST, ∃ h1 : Int, ∃ rs1 : List Nat,
      partition cmp t k rs = some (stack_push t4 h1, rs1) ∧
      (rs1 = rs ∨ rs1 = rs.tail) ∧
      low ≤ h1 ∧ h1 ≤ high ∧
      EqShape t t4 ∧
      PermFacts t t4 low high ∧
      (∀ q : Int, low ≤ q → q < h1 → cmp (item t4 q) (item t4 h1) ≤ 0) ∧
      (∀ q : Int, h1 < q → q ≤ high → 0 ≤ cmp (item t4 q) (item t4 h1)) := by
  by_cases heqv : is_equivalent t low high
  · have hle : low = high := by
      have h0 : reduce t (low - high) = 0 := heqv
      have hz : reduce t (0 : Int) = 0 := Int.zero_emod _
      have := reduce_inj_window t hC (a := low - high) (b := 0)
        (h0.trans hz.symm) (by omega) (by omega)
      omega
    have hres : partition cmp t k rs = some (stack_push t low, rs) := by
      simp only [partition]
      rw [hlow, hhigh, if_pos heqv]
    refine ⟨t, low, rs, hres, Or.inl rfl, le_refl _, by omega, EqShape.refl t,
      PermFacts.base hHS, ?_, ?_⟩
    · intro q hA hB; exfalso; omega
    · intro q hA hB; exfalso; omega
  · have hlt : low < high := by
      rcases lt_or_eq_of_le hlh with h | h
      · exact h
      · exfalso
        apply heqv
        rw [h]
        show reduce t (high - high) = 0
        rw [show high - high = (0 : Int) by ring]
        exact Int.zero_emod _
    set pivot_index : Int := low + ((rs.headD 0 : Nat) : Int) % (high + 1 - low)
      with hpidef
    have hmodpos : (0 : Int) < high + 1 - low := by omega
    have hpia : low ≤ pivot_index := by
      have := Int.emod_nonneg ((rs.headD 0 : Nat) : Int)
        (by omega : high + 1 - low ≠ 0)
      omega
    have hpib : pivot_index ≤ high := by
      have := Int.emod_lt_of_pos ((rs.headD 0 : Nat) : Int) hmodpos
      omega
    set pivot : Nat := item t pivot_index with hpivdef
    set t1 : LST := partition_preswap t pivot_index low pivot with ht1def
    have hpre : PermFacts t t1 low high ∧ item t1 low = pivot := by
      by_cases hpl : pivot_index = low
      · have he : t1 = t := by
          rw [ht1def]
          unfold partition_preswap
          rw [if_neg (not_not_intro hpl)]
        constructor
        · rw [he]; exact PermFacts.base hHS
        · rw [he, hpivdef, hpl]
      · obtain ⟨hPF', hitemb', _, _⟩ :=
          swap_spec t hC hwin hpia hpib (le_refl low) hlh hHS
        have he : t1 = lst_move (lst_move t pivot_index (item t low)) low
            (item t pivot_index) := by
          rw [ht1def]
          unfold partition_preswap
          rw [if_pos hpl, hpivdef]
        constructor
        · rw [he]; exact hPF'
        · rw [he, hpivdef]; exact hitemb'
    obtain ⟨hPF1, hlowpiv⟩ := hpre
    obtain ⟨⟨t2, h0⟩, hploop, hPF2, hh0a, hh0b, hW2, hW3, jp, hjpa, hjpb, hjpitem⟩ :=
      @hoareLoop_spec cmp pivot t low high hC hwin
        ((high - low).toNat + 1) t1 (low - 1) (high + 1)
        hPF1 (by omega) (by omega) (by omega)
        (by intro q hA hB; exfalso; omega)
        (by intro q hA hB; exfalso; omega)
        ⟨low, by omega, le_refl _, by omega, by rw [hlowpiv, hrefl pivot]⟩
        ⟨low, by omega, by omega, by rw [hlowpiv, hrefl pivot]⟩
        ⟨low, le_refl _, by omega, hlowpiv⟩
        (by omega)
    have hcap2 : t2.capacity = t.capacity := hPF2.1
    have hC2 : 0 < t2.capacity := by rw [hcap2]; exact hC
    have hwin2 : high - low < t2.capacity := by rw [hcap2]; exact hwin
    have hHS2 : HS t2 low high := hPF2.2.1
    have hrec : partition_recover t2 low high pivot = jp :=
      partition_recover_spec t2 hC2 hwin2 hjpa hjpb hHS2 hjpitem
    obtain ⟨t4, h1, hplace, hPF3, hh1a, hh1b, hpivh1, hO2, hO3⟩ :=
      partition_place_spec hC2 hwin2 hHS2 hh0a hh0b hjpa hjpb hjpitem hW2 hW3
    have hPF : PermFacts t t4 low high := PermFacts.compose hPF2 hPF3
    have hshape : EqShape t t4 := by
      have h1' : EqShape t t1 := by
        rw [ht1def]; exact partition_preswap_shape t pivot_index low pivot
      have h2' : EqShape t1 t2 := hoare_shape hploop
      have h3' : EqShape t2 t4 := by
        have h4' := partition_place_shape t2 h0 jp pivot
        rw [hplace] at h4'
        exact h4'
      exact (h1'.trans h2').trans h3'
    have hresult : partition cmp t k rs = some (stack_push t4 h1, rs.tail) := by
      simp only [partition, hlow, hhigh, if_neg heqv, ← hpidef, ← hpivdef,
        ← ht1def, hploop, hrec, hplace]
    refine ⟨t4, h1, rs.tail, hresult, Or.inr rfl, hh1a, hh1b, hshape, hPF, ?_, ?_⟩
    · intro q hA hB
      rw [hpivh1]
      exact hO2 q hA hB
    · intro q hA hB
      rw [hpivh1]
      exact hO3 q hA hB

lemma cmpId_total : IsTotalCmp cmpId := by
  refine ⟨?_, ?_, ?_⟩
  · intro a; unfold cmpId; omega
  · intro a b; unfold cmpId; omega
  · intro a b c; unfold cmpId; omega

lemma HS_mono {t : LST} {low high low' high' : Int} (h : HS t low high)
    (h1 : low ≤ low') (h2 : high' ≤ high) : HS t low' high' :=
  fun q a b => h q (by omega) (by omega)

lemma Inv.hs_live {cmp : Nat → Nat → Int} {t : LST} (h : Inv cmp t) :
    HS t t.idx (t.idx + t.num_elements - 1) := by
  intro q hq1 hq2
  have hn : (t.num_elements.toNat : Int) = t.num_elements :=
    Int.toNat_of_nonneg h.ne_lb
  have hj : ((q - t.idx).toNat : Int) = q - t.idx := Int.toNat_of_nonneg (by omega)
  have hjlt : (q - t.idx).toNat < t.num_elements.toNat := by omega
  have hh := h.handles (q - t.idx).toNat hjlt
  rw [show t.idx + ((q - t.idx).toNat : Int) = q by omega] at hh
  exact hh

/-- C2: on an invariant-satisfying state whose stack-index-`k` subtree is a
single nonempty bucket with bounds `lwb`/`upb`, `partition` succeeds for any
random draws, pushes one new stack entry `h1` with `lwb ≤ h1 ≤ upb`, and in
the resulting state every element at a logical index in `[lwb, h1)` compares
not greater than the pivot element stored at `h1`, and every element at a
logical index in `(h1, upb]` compares not less than it. -/
theorem C2_spec {cmp : Nat → Nat → Int} {t : LST} {k : Nat} (rs : List Nat)
    (hinv : Inv cmp t) (hcmp : IsTotalCmp cmp)
    (hbkt : is_bucket t k) (hsz : 0 < lst_size t k) :
    ∃ t4 : LST, ∃ h1 : Int, ∃ rs1 : List Nat,
      partition cmp t k rs = some (stack_push t4 h1, rs1) ∧
      bucket_lwb t k ≤ h1 ∧ h1 ≤ bucket_upb t k ∧
      (stack_push t4 h1).sdepth = t.sdepth + 1 ∧
      (stack_push t4 h1).sdata t.sdepth = h1 ∧
      (∀ q : Int, bucket_lwb t k ≤ q → q < h1 →
        cmp (item (stack_push t4 h1) q) (item (stack_push t4 h1) h1) ≤ 0) ∧
      (∀ q : Int, h1 < q → q ≤ bucket_upb t k →
        0 ≤ cmp (item (stack_push t4 h1) q) (item (stack_push t4 h1) h1)) := by
  have hC := hinv.cap_pos
  have hdep := hinv.depth_pos
  have hkdep : k < t.sdepth := by
    have hl : lst_length t k = 1 := hbkt
    unfold lst_length at hl
    omega
  have hlwb : bucket_lwb t k = t.idx := by
    unfold bucket_lwb; rw [if_pos hbkt]
  have hupb : bucket_upb t k = t.sdata k - 1 := rfl
  have hslb : t.idx < t.sdata k := by
    by_cases hk0 : k = 0
    · have hz := hinv.s_zero
      subst hk0
      unfold lst_size at hsz
      rw [if_pos rfl] at hsz
      omega
    · have hge : 1 ≤ k := by omega
      have := hinv.size_eq k hge hkdep
      omega
  have hsub : t.sdata k ≤ t.idx + t.num_elements := by
    by_cases hk0 : k = 0
    · subst hk0; rw [hinv.s_zero]
    · have := hinv.s_ub k (by omega) hkdep
      omega
  have hwin : bucket_upb t k - bucket_lwb t k < t.capacity := by
    rw [hlwb, hupb]
    have := hinv.ne_ub
    omega
  have hlh : bucket_lwb t k ≤ bucket_upb t k := by rw [hlwb, hupb]; omega
  have hHS : HS t (bucket_lwb t k) (bucket_upb t k) := by
    rw [hlwb, hupb]
    exact HS_mono hinv.hs_live (le_refl _) (by omega)
  obtain ⟨t4, h1, rs1, hres, _, hh1a, hh1b, hshape, hPF, hO2, hO3⟩ :=
    partition_spec_aux rs rfl rfl hC hcmp.refl hlh hwin hHS
  refine ⟨t4, h1, rs1, hres, hh1a, hh1b, ?_, ?_, ?_, ?_⟩
  · show t4.sdepth + 1 = t.sdepth + 1
    rw [hshape.2.2.2.1]
  · show fupd t4.sdata t4.sdepth h1 t.sdepth = h1
    unfold fupd
    rw [if_pos hshape.2.2.2.1.symm]
  · intro q hA hB
    show cmp (item t4 q) (item t4 h1) ≤ 0
    exact hO2 q hA hB
  · intro q hA hB
    show 0 ≤ cmp (item t4 q) (item t4 h1)
    exact hO3 q hA hB

/-- Witness for C2 at the concrete full capacity-2 state `tC5`, stack index 0
and random draw 0. -/
theorem C2_witness :
    (Inv cmpId tC5 ∧ IsTotalCmp cmpId ∧ is_bucket tC5 0 ∧ 0 < lst_size tC5 0) ∧
    (∃ t4 : LST, ∃ h1 : Int, ∃ rs1 : List Nat,
      partition cmpId tC5 0 [0] = some (stack_push t4 h1, rs1) ∧
      bucket_lwb tC5 0 ≤ h1 ∧ h1 ≤ bucket_upb tC5 0 ∧
      (stack_push t4 h1).sdepth = tC5.sdepth + 1 ∧
      (stack_push t4 h1).sdata tC5.sdepth = h1 ∧
      (∀ q : Int, bucket_lwb tC5 0 ≤ q → q < h1 →
        cmpId (item (stack_push t4 h1) q) (item (stack_push t4 h1) h1) ≤ 0) ∧
      (∀ q : Int, h1 < q → q ≤ bucket_upb tC5 0 →
        0 ≤ cmpId (item (stack_push t4 h1) q) (item (stack_push t4 h1) h1))) :=
  ⟨⟨inv_tC5, cmpId_total, by decide, by decide⟩,
    C2_spec [0] inv_tC5 cmpId_total (by decide) (by decide)⟩

lemma Inv_flatten {cmp : Nat → Nat → Int} {t : LST} (h : Inv cmp t) {m : Nat}
    (hm1 : 1 ≤ m) (hm2 : m ≤ t.sdepth) : Inv cmp (lst_flatten t m) := by
  have hsd : (lst_flatten t m).sdepth = m := rfl
  refine ⟨h.cap_pow, h.idx_lb, h.idx_ub, h.ne_lb, h.ne_ub, ?_, h.s_zero, ?_, ?_,
    h.handles, ?_, ?_⟩
  · rw [hsd]; exact hm1
  · intro i hi
    rw [hsd] at hi
    exact h.s_mono i (by omega)
  · intro i hi
    rw [hsd] at hi
    exact h.s_lb i (by omega)
  · intro i hi
    rw [hsd] at hi
    exact h.ord_le i (by omega)
  · intro i hi
    rw [hsd] at hi
    exact h.ord_ge i (by omega)

lemma mem_residents {t : LST} {y : Nat} : y ∈ residents t ↔ Resident t y := by
  unfold residents Resident
  rw [List.mem_map]
  constructor
  · rintro ⟨i, hi, he⟩
    exact ⟨i, List.mem_range.mp hi, he⟩
  · rintro ⟨i, hi, he⟩
    exact ⟨i, List.mem_range.mpr hi, he⟩

lemma windowList_nodup {t : LST} {low high : Int} (hC : 0 < t.capacity)
    (hwin : high - low < t.capacity) (hHS : HS t low high) :
    ((List.range (high + 1 - low).toNat).map
      (fun (i : Nat) => item t (low + (i : Int)))).Nodup := by
  refine List.Nodup.map_on ?_ (List.nodup_range _)
  intro i hi j hj heq
  rw [List.mem_range] at hi hj
  have h1 : low ≤ low + (i : Int) := by omega
  have h2 : low + (i : Int) ≤ high := by omega
  have h3 : low ≤ low + (j : Int) := by omega
  have h4 : low + (j : Int) ≤ high := by omega
  have := HS.item_inj hHS hC hwin h1 h2 h3 h4 heq
  omega

lemma window_items_perm {t t4 : LST} {low high : Int}
    (hC : 0 < t.capacity) (hwin : high - low < t.capacity)
    (hHS : HS t low high) (hPF : PermFacts t t4 low high) :
    ((List.range (high + 1 - low).toNat).map
      (fun (i : Nat) => item t4 (low + (i : Int)))).Perm
    ((List.range (high + 1 - low).toNat).map
      (fun (i : Nat) => item t (low + (i : Int)))) := by
  obtain ⟨hcap, hHS4, hSrc, _, _⟩ := hPF
  have hC4 : 0 < t4.capacity := by rw [hcap]; exact hC
  have hwin4 : high - low < t4.capacity := by rw [hcap]; exact hwin
  have hA := windowList_nodup hC4 hwin4 hHS4
  have hsub : ((List.range (high + 1 - low).toNat).map
      (fun (i : Nat) => item t4 (low + (i : Int)))) ⊆
      ((List.range (high + 1 - low).toNat).map
        (fun (i : Nat) => item t (low + (i : Int)))) := by
    intro a ha
    rw [List.mem_map] at ha
    obtain ⟨i, hi, hia⟩ := ha
    rw [List.mem_range] at hi
    obtain ⟨q', hq1, hq2, hq3⟩ := hSrc (low + (i : Int)) (by omega) (by omega)
    rw [List.mem_map]
    refine ⟨(q' - low).toNat, List.mem_range.mpr (by omega), ?_⟩
    rw [show low + (((q' - low).toNat : Nat) : Int) = q' by omega]
    rw [← hq3, hia]
  have hsp := hA.subperm hsub
  refine hsp.perm_of_length_le ?_
  simp

lemma residents_split (u : LST) {n W : Nat} (hn : u.num_elements.toNat = n)
    {base : Int} (hb : u.idx = base) (hW : W ≤ n) :
    residents u =
      (List.range W).map (fun (i : Nat) => item u (base + (i : Int))) ++
      (List.range (n - W)).map
        (fun (i : Nat) => item u (base + ((W + i : Nat) : Int))) := by
  unfold residents
  rw [hn, hb, show n = W + (n - W) by omega, List.range_add, List.map_append,
    List.map_map]
  congr 1
  · rw [show W + (n - W) - W = n - W by omega]
    rfl

lemma residents_perm_of_permFacts {cmp : Nat → Nat → Int} {t t4 : LST}
    (hinv : Inv cmp t) {high : Int}
    (hh1 : t.idx - 1 ≤ high) (hh2 : high ≤ t.idx + t.num_elements - 1)
    (hPF : PermFacts t t4 t.idx high)
    (hshape : EqShape t t4) :
    (residents t4).Perm (residents t) := by
  have hC := hinv.cap_pos
  have hnC := hinv.ne_ub
  have hn0 := hinv.ne_lb
  have hcap4 : t4.capacity = t.capacity := hshape.1
  have hidx4 : t4.idx = t.idx := hshape.2.1
  have hnum4 : t4.num_elements = t.num_elements := hshape.2.2.1
  have hWn : (high + 1 - t.idx).toNat ≤ t.num_elements.toNat := by omega
  rw [residents_split t4
      (show t4.num_elements.toNat = t.num_elements.toNat by rw [hnum4])
      hidx4 hWn,
    residents_split t rfl rfl hWn]
  refine List.Perm.append ?_ ?_
  · have hHS : HS t t.idx high := HS_mono hinv.hs_live (le_refl _) hh2
    exact window_items_perm hC (by omega) hHS hPF
  · have heq2 : ∀ i ∈ List.range (t.num_elements.toNat - (high + 1 - t.idx).toNat),
        item t4 (t.idx + (((high + 1 - t.idx).toNat + i : Nat) : Int)) =
        item t (t.idx + (((high + 1 - t.idx).toNat + i : Nat) : Int)) := by
      intro i hi
      rw [List.mem_range] at hi
      set q : Int := t.idx + (((high + 1 - t.idx).toNat + i : Nat) : Int) with hq
      have hq1 : high < q := by omega
      have hq2 : q ≤ t.idx + t.num_elements - 1 := by omega
      show t4.p (reduce t4 q) = item t q
      rw [reduce_congr hcap4 q]
      rw [hPF.2.2.2.1 (reduce t q) ?_]
      · rfl
      · intro q' hA hB heq
        have := reduce_inj_window t hC heq.symm (by omega) (by omega)
        omega
    rw [List.map_congr_left heq2]

lemma partition_inv {cmp : Nat → Nat → Int} {t : LST} {k : Nat} (rs : List Nat)
    (hcmp : IsTotalCmp cmp) (hinv : Inv cmp t)
    (hbkt : is_bucket t k) (hsz : 0 < lst_size t k) :
    ∃ t4 : LST, ∃ h1 : Int, ∃ rs1 : List Nat,
      partition cmp t k rs = some (stack_push t4 h1, rs1) ∧
      (rs1 = rs ∨ rs1 = rs.tail) ∧
      Inv cmp (stack_push t4 h1) ∧
      (stack_push t4 h1).capacity = t.capacity ∧
      (stack_push t4 h1).idx = t.idx ∧
      (stack_push t4 h1).num_elements = t.num_elements ∧
      (stack_push t4 h1).sdepth = t.sdepth + 1 ∧
      (∀ j : Nat, j ≤ k → (stack_push t4 h1).sdata j = t.sdata j) ∧
      (stack_push t4 h1).sdata (k + 1) = h1 ∧
      t.idx ≤ h1 ∧ h1 < t.sdata k ∧
      (residents (stack_push t4 h1)).Perm (residents t) := by
  have hC := hinv.cap_pos
  have hdep := hinv.depth_pos
  have hn0 := hinv.ne_lb
  have hnC := hinv.ne_ub
  have hi0 := hinv.idx_lb
  have hi1 := hinv.idx_ub
  have hd : t.sdepth = k + 1 := by
    have hl : lst_length t k = 1 := hbkt
    unfold lst_length at hl
    omega
  have hkdep : k < t.sdepth := by omega
  have hlwb : bucket_lwb t k = t.idx := by
    unfold bucket_lwb; rw [if_pos hbkt]
  have hupb : bucket_upb t k = t.sdata k - 1 := rfl
  have hslb : t.idx < t.sdata k := by
    by_cases hk0 : k = 0
    · have hz := hinv.s_zero
      subst hk0
      unfold lst_size at hsz
      rw [if_pos rfl] at hsz
      omega
    · have hge : 1 ≤ k := by omega
      have := hinv.size_eq k hge hkdep
      omega
  have hsub : t.sdata k ≤ t.idx + t.num_elements := by
    by_cases hk0 : k = 0
    · subst hk0; rw [hinv.s_zero]
    · have := hinv.s_ub k (by omega) hkdep
      omega
  have hwin : t.sdata k - 1 - t.idx < t.capacity := by omega
  have hHS : HS t t.idx (t.sdata k - 1) :=
    HS_mono hinv.hs_live (le_refl _) (by omega)
  obtain ⟨t4, h1, rs1, hres, hrs, hh1a, hh1b, hshape, hPF, hO2, hO3⟩ :=
    partition_spec_aux rs hlwb hupb hC hcmp.refl (by omega) hwin hHS
  have hcap4 : t4.capacity = t.capacity := hshape.1
  have hidx4 : t4.idx = t.idx := hshape.2.1
  have hnum4 : t4.num_elements = t.num_elements := hshape.2.2.1
  have hsdep4 : t4.sdepth = t.sdepth := hshape.2.2.2.1
  have hsdata4 : ∀ j, t4.sdata j = t.sdata j := hshape.2.2.2.2
  have hHS4 : HS t4 t.idx (t.sdata k - 1) := hPF.2.1
  have hSrc : Src t t4 t.idx (t.sdata k - 1) := hPF.2.2.1
  have hPFr : PFrame t t4 t.idx (t.sdata k - 1) := hPF.2.2.2.1
  have hHFr : HFrame t t4 t.idx (t.sdata k - 1) := hPF.2.2.2.2
  -- items and handles outside the partition window are untouched
  have hout_item : ∀ q : Int, t.sdata k ≤ q → q ≤ t.idx + t.num_elements - 1 →
      item t4 q = item t q := by
    intro q hq1 hq2
    show t4.p (reduce t4 q) = item t q
    rw [reduce_congr hcap4 q]
    rw [hPFr (reduce t q) ?_]
    · rfl
    · intro q' hA hB heq
      have := reduce_inj_window t hC heq.symm (by omega) (by omega)
      omega
  have hout_handle : ∀ q : Int, t.sdata k ≤ q → q ≤ t.idx + t.num_elements - 1 →
      t4.hIdx (item t q) = t.hIdx (item t q) := by
    intro q hq1 hq2
    refine hHFr (item t q) ?_
    intro q' hA hB heq
    have hne : (q - t.idx).toNat ≠ (q' - t.idx).toNat := by omega
    have := hinv.inj (k := (q - t.idx).toNat) (l := (q' - t.idx).toNat)
      (by omega) (by omega) hne
    apply this
    rw [show t.idx + (((q - t.idx).toNat : Nat) : Int) = q by omega,
      show t.idx + (((q' - t.idx).toNat : Nat) : Int) = q' by omega]
    exact heq
  -- the stack of the pushed state
  have hsp : ∀ j : Nat, (stack_push t4 h1).sdata j =
      if j = k + 1 then h1 else t.sdata j := by
    intro j
    show fupd t4.sdata t4.sdepth h1 j = _
    unfold fupd
    rw [hsdep4, hd]
    by_cases e : j = k + 1
    · rw [if_pos e, if_pos e]
    · rw [if_neg e, if_neg e, hsdata4 j]
  have hdp : (stack_push t4 h1).sdepth = k + 2 := by
    show t4.sdepth + 1 = k + 2
    rw [hsdep4, hd]
  have hcapp : (stack_push t4 h1).capacity = t.capacity := hcap4
  have hidxp : (stack_push t4 h1).idx = t.idx := hidx4
  have hnump : (stack_push t4 h1).num_elements = t.num_elements := hnum4
  -- old pivots sit outside the window and keep their items
  have hpiv_old : ∀ i : Nat, 1 ≤ i → i ≤ k → item t4 (t.sdata i) = item t (t.sdata i) := by
    intro i hA hB
    have hik : t.sdata k ≤ t.sdata i := hinv.s_le i k hB hkdep
    have hupi : t.sdata i < t.idx + t.num_elements := hinv.s_ub i hA (by omega)
    exact hout_item (t.sdata i) hik (by omega)
  -- items of the pushed state coincide with those of t4
  have hitemp : ∀ q : Int, item (stack_push t4 h1) q = item t4 q := fun _ => rfl
  have hperm : (residents (stack_push t4 h1)).Perm (residents t) := by
    show (residents t4).Perm (residents t)
    refine residents_perm_of_permFacts hinv (by omega) (by omega) hPF hshape
  refine ⟨t4, h1, rs1, hres, hrs, ?_, hcapp, hidxp, hnump,
    by rw [hdp, hd], fun j hj => by rw [hsp j, if_neg (by omega)],
    by rw [hsp (k + 1), if_pos rfl], by omega, by omega, hperm⟩
  -- the invariant for the pushed state
  refine ⟨by rw [hcapp]; exact hinv.cap_pow,
    by rw [hidxp]; exact hi0,
    by rw [hidxp, hcapp]; exact hi1,
    by rw [hnump]; exact hn0,
    by rw [hnump, hcapp]; exact hnC,
    by rw [hdp]; omega, ?_, ?_, ?_, ?_, ?_, ?_⟩
  · -- s_zero
    rw [hsp 0, if_neg (by omega), hidxp, hnump]
    exact hinv.s_zero
  · -- s_mono
    intro i hi
    rw [hdp] at hi
    rw [hsp i, hsp (i + 1)]
    by_cases e : i + 1 = k + 1
    · rw [if_pos e, if_neg (by omega)]
      have : i = k := by omega
      rw [this]
      omega
    · rw [if_neg e, if_neg (by omega)]
      exact hinv.s_mono i (by omega)
  · -- s_lb
    intro i hi
    rw [hdp] at hi
    rw [hsp i, hidxp]
    by_cases e : i = k + 1
    · rw [if_pos e]; omega
    · rw [if_neg e]
      exact hinv.s_lb i (by omega)
  · -- handles
    intro j hj
    rw [hnump] at hj
    rw [hidxp, hitemp]
    show t4.hIdx (item t4 (t.idx + (j : Int))) =
      reduce (stack_push t4 h1) (t.idx + (j : Int))
    have hredp : reduce (stack_push t4 h1) (t.idx + (j : Int)) =
        reduce t (t.idx + (j : Int)) := reduce_congr hcapp _
    rw [hredp]
    by_cases hc1 : t.idx + (j : Int) ≤ t.sdata k - 1
    · have := hHS4 (t.idx + (j : Int)) (by omega) hc1
      rw [this, reduce_congr hcap4]
    · have hge : t.sdata k ≤ t.idx + (j : Int) := by omega
      have hle : t.idx + (j : Int) ≤ t.idx + t.num_elements - 1 := by omega
      rw [hout_item _ hge hle, hout_handle _ hge hle]
      have := hinv.hs_live (t.idx + (j : Int)) (by omega) hle
      exact this
  · -- ord_le
    intro i hi h1i j hj
    rw [hdp] at hi
    rw [hidxp, hsp i] at hj
    rw [hitemp]
    have hpivp : pivot_item (stack_push t4 h1) i =
        item t4 ((stack_push t4 h1).sdata i) := rfl
    rw [hpivp, hsp i]
    rw [hidxp]
    by_cases e : i = k + 1
    · rw [if_pos e] at hj ⊢
      exact hO2 (t.idx + (j : Int)) (by omega) (by omega)
    · rw [if_neg e] at hj ⊢
      have hik : i ≤ k := by omega
      rw [hpiv_old i h1i hik]
      by_cases hc1 : t.idx + (j : Int) ≤ t.sdata k - 1
      · obtain ⟨q', hq1, hq2, hq3⟩ := hSrc (t.idx + (j : Int)) (by omega) hc1
        rw [hq3]
        have hsik : t.sdata k ≤ t.sdata i := hinv.s_le i k hik hkdep
        have := hinv.ord_le i (by omega) h1i (q' - t.idx).toNat (by omega)
        rw [show t.idx + (((q' - t.idx).toNat : Nat) : Int) = q' by omega] at this
        exact this
      · have hupi : t.sdata i < t.idx + t.num_elements := hinv.s_ub i h1i (by omega)
        rw [hout_item _ (by omega) (by omega)]
        have := hinv.ord_le i (by omega) h1i j hj
        exact this
  · -- ord_ge
    intro i hi h1i j hjn hjgt
    rw [hdp] at hi
    rw [hnump] at hjn
    rw [hidxp, hsp i] at hjgt
    rw [hitemp]
    have hpivp : pivot_item (stack_push t4 h1) i =
        item t4 ((stack_push t4 h1).sdata i) := rfl
    rw [hpivp, hsp i]
    rw [hidxp]
    by_cases e : i = k + 1
    · rw [if_pos e] at hjgt ⊢
      by_cases hc1 : t.idx + (j : Int) ≤ t.sdata k - 1
      · exact hO3 (t.idx + (j : Int)) (by omega) hc1
      · -- beyond the window: use the old level-k ordering and transitivity
        by_cases hk0 : k = 0
        · exfalso
          have hz := hinv.s_zero
          rw [hk0] at hc1
          omega
        · have hk1 : 1 ≤ k := by omega
          obtain ⟨qp, hqp1, hqp2, hqp3⟩ := hSrc h1 (by omega) (by omega)
          have hnp_le : cmp (item t4 h1) (pivot_item t k) ≤ 0 := by
            rw [hqp3]
            have := hinv.ord_le k hkdep hk1 (qp - t.idx).toNat (by omega)
            rw [show t.idx + (((qp - t.idx).toNat : Nat) : Int) = qp by omega] at this
            exact this
          have hq := hout_item (t.idx + (j : Int)) (by omega) (by omega)
          rw [hq]
          by_cases hqs : t.idx + (j : Int) = t.sdata k
          · rw [hqs]
            show 0 ≤ cmp (pivot_item t k) (item t4 h1)
            exact (hcmp.le_flip _ _).mp hnp_le
          · have hgtp : 0 ≤ cmp (item t (t.idx + (j : Int))) (pivot_item t k) := by
              have := hinv.ord_ge k hkdep hk1 j hjn (by omega)
              exact this
            have h2' : cmp (pivot_item t k) (item t (t.idx + (j : Int))) ≤ 0 :=
              (hcmp.le_flip _ _).mpr hgtp
            have h3' : cmp (item t4 h1) (item t (t.idx + (j : Int))) ≤ 0 :=
              hcmp.trans_le _ _ _ hnp_le h2'
            exact (hcmp.le_flip _ _).mp h3'
    · rw [if_neg e] at hjgt ⊢
      have hik : i ≤ k := by omega
      rw [hpiv_old i h1i hik]
      have hsik : t.sdata k ≤ t.sdata i := hinv.s_le i k hik hkdep
      have hilb : t.idx ≤ t.sdata i := hinv.s_lb i (by omega)
      rw [hout_item _ (by omega) (by omega)]
      exact hinv.ord_ge i (by omega) h1i j hjn hjgt

lemma Inv.size_all {cmp : Nat → Nat → Int} {t : LST} (h : Inv cmp t) :
    ∀ k : Nat, k < t.sdepth → lst_size t k = t.sdata k - t.idx := by
  intro k hk
  by_cases hk0 : k = 0
  · subst hk0
    have hz := h.s_zero
    unfold lst_size
    rw [if_pos rfl]
    omega
  · exact h.size_eq k (by omega) hk

lemma peek_go_spec {cmp : Nat → Nat → Int} (hcmp : IsTotalCmp cmp) :
    ∀ (f : Nat) (t : LST) (k : Nat) (rs : List Nat),
    Inv cmp t → k < t.sdepth → 0 < lst_size t k → (lst_size t k).toNat ≤ f →
    ∃ x : Nat, ∃ t' : LST, ∃ rs' : List Nat,
      peek_go cmp f t k rs = some (x, t', rs') ∧
      Inv cmp t' ∧
      t'.capacity = t.capacity ∧ t'.idx = t.idx ∧
      t'.num_elements = t.num_elements ∧
      (∀ j : Nat, j ≤ k → t'.sdata j = t.sdata j) ∧
      k < t'.sdepth ∧
      (residents t').Perm (residents t) := by
  intro f
  induction f with
  | zero => intro t k rs _ _ hsz hf; exfalso; omega
  | succ f ih =>
    intro t k rs hinv hk hsz hf
    by_cases hb : is_bucket t k
    · obtain ⟨t4, h1, rs1, hres, hrs, hinvp, hcapp, hidxp, hnump, hdepp, hsdj,
        hsk1, hh1a, hh1b, hperm⟩ := partition_inv rs hcmp hinv hb hsz
      have hk1dep : k + 1 < (stack_push t4 h1).sdepth := by omega
      have hsize : lst_size (stack_push t4 h1) (k + 1) = h1 - t.idx := by
        rw [hinvp.size_all (k + 1) hk1dep, hsk1, hidxp]
      have hszk : lst_size t k = t.sdata k - t.idx := hinv.size_all k hk
      by_cases hz : lst_size (stack_push t4 h1) (k + 1) = 0
      · refine ⟨pivot_item (stack_push t4 h1) (k + 1), stack_push t4 h1, rs1, ?_,
          hinvp, hcapp, hidxp, hnump, fun j hj => hsdj j hj, by omega, hperm⟩
        simp only [peek_go]
        rw [if_pos hb, hres, Option.some_bind]
        simp only []
        rw [if_pos hz]
      · have hsz1 : 0 < lst_size (stack_push t4 h1) (k + 1) := by
          have : 0 ≤ h1 - t.idx := by omega
          omega
        obtain ⟨x, t', rs', hrun, hinv', hcap', hidx', hnum', hsd', hk', hperm'⟩ :=
          ih (stack_push t4 h1) (k + 1) rs1 hinvp hk1dep hsz1 (by omega)
        refine ⟨x, t', rs', ?_, hinv', hcap'.trans hcapp, hidx'.trans hidxp,
          hnum'.trans hnump, ?_, by omega, hperm'.trans hperm⟩
        · simp only [peek_go]
          rw [if_pos hb, hres, Option.some_bind]
          simp only []
          rw [if_neg hz]
          exact hrun
        · intro j hj
          rw [hsd' j (by omega), hsdj j hj]
    · have hd2 : k + 2 ≤ t.sdepth := by
        have hl : lst_length t k ≠ 1 := hb
        unfold lst_length at hl
        omega
      have hsize : lst_size t (k + 1) = t.sdata (k + 1) - t.idx :=
        hinv.size_all (k + 1) (by omega)
      have hszk : lst_size t k = t.sdata k - t.idx := hinv.size_all k hk
      have hdec : t.sdata (k + 1) < t.sdata k := hinv.s_mono k (by omega)
      by_cases hz : lst_size t (k + 1) = 0
      · refine ⟨pivot_item t (k + 1), t, rs, ?_, hinv, rfl, rfl, rfl,
          fun j hj => rfl, by omega, List.Perm.refl _⟩
        simp only [peek_go]
        rw [if_neg hb, Option.some_bind]
        simp only []
        rw [if_pos hz]
      · have hlb1 : t.idx ≤ t.sdata (k + 1) := hinv.s_lb (k + 1) (by omega)
        obtain ⟨x, t', rs', hrun, hinv', hcap', hidx', hnum', hsd', hk', hperm'⟩ :=
          ih t (k + 1) rs hinv (by omega) (by omega) (by omega)
        refine ⟨x, t', rs', ?_, hinv', hcap', hidx', hnum',
          fun j hj => hsd' j (by omega), by omega, hperm'⟩
        simp only [peek_go]
        rw [if_neg hb, Option.some_bind]
        simp only []
        rw [if_neg hz]
        exact hrun

lemma lst_size_congr {a b : LST} (hcap : a.capacity = b.capacity)
    (hidx : a.idx = b.idx) (hnum : a.num_elements = b.num_elements) {j : Nat}
    (hsd : a.sdata j = b.sdata j) : lst_size a j = lst_size b j := by
  unfold lst_size
  by_cases hj : j = 0
  · rw [if_pos hj, if_pos hj, hnum]
  · rw [if_neg hj, if_neg hj]
    unfold stack_item reduce
    rw [hcap, hidx, hsd]

/-- C10: on a non-empty invariant-satisfying state, `lst_peek` succeeds for
any sequence of random draws and leaves `num_elements`, `idx` and `capacity`
unchanged; the list of resident elements is merely permuted, so every element
that was resident is still resident and none is added or removed, and every
resident element's handle field equals the reduced index of its (possibly
new) slot. -/
theorem C10_spec {cmp : Nat → Nat → Int} {t : LST} (rs : List Nat)
    (hcmp : IsTotalCmp cmp) (hinv : Inv cmp t) (hne : 0 < t.num_elements) :
    ∃ x : Nat, ∃ t' : LST, ∃ rs' : List Nat,
      lst_peek cmp t rs = some (x, t', rs') ∧
      t'.capacity = t.capacity ∧ t'.idx = t.idx ∧
      t'.num_elements = t.num_elements ∧
      (residents t').Perm (residents t) ∧
      (∀ y : Nat, Resident t' y ↔ Resident t y) ∧
      (∀ q : Int, t'.idx ≤ q → q ≤ t'.idx + t'.num_elements - 1 →
        t'.hIdx (item t' q) = reduce t' q) := by
  have hsz0 : lst_size t 0 = t.num_elements := by unfold lst_size; rw [if_pos rfl]
  obtain ⟨x, t', rs', hrun, hinv', hcap', hidx', hnum', _, _, hperm⟩ :=
    peek_go_spec hcmp (t.num_elements.toNat + 1) t 0 rs hinv hinv.depth_pos
      (by rw [hsz0]; exact hne) (by rw [hsz0]; omega)
  refine ⟨x, t', rs', ?_, hcap', hidx', hnum', hperm, ?_, hinv'.hs_live⟩
  · unfold lst_peek
    rw [if_neg (by omega)]
    exact hrun
  · intro y
    rw [← mem_residents, ← mem_residents]
    exact hperm.mem_iff

/-- Witness for C10 at the concrete full capacity-2 state `tC5`. -/
theorem C10_witness :
    (IsTotalCmp cmpId ∧ Inv cmpId tC5 ∧ 0 < tC5.num_elements) ∧
    (∃ x : Nat, ∃ t' : LST, ∃ rs' : List Nat,
      lst_peek cmpId tC5 [0] = some (x, t', rs') ∧
      t'.capacity = tC5.capacity ∧ t'.idx = tC5.idx ∧
      t'.num_elements = tC5.num_elements ∧
      (residents t').Perm (residents tC5) ∧
      (∀ y : Nat, Resident t' y ↔ Resident tC5 y) ∧
      (∀ q : Int, t'.idx ≤ q → q ≤ t'.idx + t'.num_elements - 1 →
        t'.hIdx (item t' q) = reduce t' q)) :=
  ⟨⟨cmpId_total, inv_tC5, by decide⟩,
    C10_spec [0] cmpId_total inv_tC5 (by decide)⟩

lemma peek_pop_pair {cmp : Nat → Nat → Int} (rs₂ : List Nat) :
    ∀ (f : Nat) (t : LST) (k : Nat) (rs : List Nat) (x : Nat) (t' : LST)
      (rs' : List Nat),
    k + 1 ≤ t.sdepth →
    peek_go cmp f t k rs = some (x, t', rs') →
    k + 2 ≤ t'.sdepth ∧ (∀ j : Nat, j ≤ k → t'.sdata j = t.sdata j) ∧
    t'.capacity = t.capacity ∧ t'.idx = t.idx ∧
    t'.num_elements = t.num_elements ∧
    ∃ t'' : LST, pop_go cmp f t' k rs₂ = some (x, t'', rs₂) := by
  intro f
  induction f with
  | zero => intro t k rs x t' rs' _ hrun; simp [peek_go] at hrun
  | succ f ih =>
    intro t k rs x t' rs' hk hrun
    simp only [peek_go] at hrun
    rw [Option.bind_eq_some] at hrun
    obtain ⟨⟨t1, rs1⟩, heq, hrun⟩ := hrun
    have hstate : k + 2 ≤ t1.sdepth ∧ (∀ j : Nat, j ≤ k → t1.sdata j = t.sdata j) ∧
        t1.capacity = t.capacity ∧ t1.idx = t.idx ∧
        t1.num_elements = t.num_elements := by
      split at heq
      · rename_i hb
        have hd : t.sdepth = k + 1 := by
          have hl : lst_length t k = 1 := hb
          unfold lst_length at hl
          omega
        obtain ⟨c1, c2, c3, c4, c5⟩ := partition_shape heq
        exact ⟨by omega, fun j hj => c5 j (by omega), c1, c2, c3⟩
      · cases heq
        rename_i hb
        have hl : lst_length t k ≠ 1 := hb
        unfold lst_length at hl
        exact ⟨by omega, fun j _ => rfl, rfl, rfl, rfl⟩
    obtain ⟨hs1, hs2, hs3, hs4, hs5⟩ := hstate
    simp only at hrun
    split at hrun
    · rename_i hz
      cases hrun
      refine ⟨hs1, hs2, hs3, hs4, hs5, ?_⟩
      refine ⟨bucket_delete (lst_flatten t' (k + 1)) (k + 1)
        (pivot_item t' (k + 1)), ?_⟩
      have hnb : ¬ is_bucket t' k := by
        intro hcon
        have hl : lst_length t' k = 1 := hcon
        unfold lst_length at hl
        omega
      simp only [pop_go]
      rw [if_neg hnb, Option.some_bind]
      simp only []
      rw [if_pos hz]
    · rename_i hz
      obtain ⟨hr1, hr2, hr3, hr4, hr5, t'', hpop⟩ := ih t1 (k + 1) rs1 x t' rs' hs1 hrun
      refine ⟨by omega, ?_, hr3.trans hs3, hr4.trans hs4, hr5.trans hs5, t'', ?_⟩
      · intro j hj
        rw [hr2 j (by omega), hs2 j hj]
      · have hnb : ¬ is_bucket t' k := by
          intro hcon
          have hl : lst_length t' k = 1 := hcon
          unfold lst_length at hl
          omega
        have hsz' : ¬ lst_size t' (k + 1) = 0 := by
          intro hcon
          exact hz ((lst_size_congr hr3 hr4 hr5 (hr2 (k + 1) (le_refl _))).symm.trans
            hcon)
        simp only [pop_go]
        rw [if_neg hnb, Option.some_bind]
        simp only []
        rw [if_neg hsz']
        exact hpop

/-- C7: on a non-empty invariant-satisfying state, `lst_peek` succeeds for any
random draws, and an immediately following `lst_pop` (on the state `lst_peek`
left behind, with any further random draws) succeeds and returns the same
element. -/
theorem C7_spec {cmp : Nat → Nat → Int} {t : LST} (rs rs₂ : List Nat)
    (hcmp : IsTotalCmp cmp) (hinv : Inv cmp t) (hne : 0 < t.num_elements) :
    ∃ x : Nat, ∃ t1 : LST, ∃ rs1 : List Nat,
      lst_peek cmp t rs = some (x, t1, rs1) ∧
      ∃ t2 : LST, lst_pop cmp t1 rs₂ = some (x, t2, rs₂) := by
  have hsz0 : lst_size t 0 = t.num_elements := by unfold lst_size; rw [if_pos rfl]
  obtain ⟨x, t1, rs1, hrun, hinv1, hcap1, hidx1, hnum1, _, _, _⟩ :=
    peek_go_spec hcmp (t.num_elements.toNat + 1) t 0 rs hinv hinv.depth_pos
      (by rw [hsz0]; exact hne) (by rw [hsz0]; omega)
  obtain ⟨_, _, _, _, _, t2, hpop⟩ :=
    peek_pop_pair rs₂ (t.num_elements.toNat + 1) t 0 rs x t1 rs1
      (by have := hinv.depth_pos; omega) hrun
  refine ⟨x, t1, rs1, ?_, t2, ?_⟩
  · unfold lst_peek
    rw [if_neg (by omega)]
    exact hrun
  · unfold lst_pop
    rw [if_neg (by rw [hnum1]; omega), hnum1]
    exact hpop

/-- Witness for C7 at the concrete full capacity-2 state `tC5`. -/
theorem C7_witness :
    (IsTotalCmp cmpId ∧ Inv cmpId tC5 ∧ 0 < tC5.num_elements) ∧
    (∃ x : Nat, ∃ t1 : LST, ∃ rs1 : List Nat,
      lst_peek cmpId tC5 [0] = some (x, t1, rs1) ∧
      ∃ t2 : LST, lst_pop cmpId t1 [1] = some (x, t2, [1])) :=
  ⟨⟨cmpId_total, inv_tC5, by decide⟩,
    C7_spec [0] [1] cmpId_total inv_tC5 (by decide)⟩

lemma bucket_delete_fields (t : LST) (K : Nat) (d : Nat) :
    (bucket_delete t K d).num_elements = t.num_elements - 1 ∧
    (bucket_delete t K d).hIdx d = -1 ∧
    (bucket_delete t K d).capacity = t.capacity := by
  simp only [bucket_delete]
  split
  · split
    · refine ⟨?_, ?_, ?_⟩
      · show (lst_indices_reduce { t with idx := t.idx + 1 }).num_elements - 1 =
          t.num_elements - 1
        rw [(lst_indices_reduce_fields { t with idx := t.idx + 1 }).2.1]
      · exact fupd_self _ _ _
      · show (lst_indices_reduce { t with idx := t.idx + 1 }).capacity = t.capacity
        rw [(lst_indices_reduce_fields { t with idx := t.idx + 1 }).1]
    · exact ⟨rfl, fupd_self _ _ _, rfl⟩
  · have hl := bucket_delete_loop_spec K t (t.hIdx d)
    exact ⟨by rw [hl.2.2.1], fupd_self _ _ _, hl.1⟩

lemma extract_go_total {cmp : Nat → Nat → Int} {d : Nat} :
    ∀ (f : Nat) (t : LST) (k : Nat), k < t.sdepth → t.sdepth ≤ f + k →
    ∃ u : LST, extract_go cmp f t k d = some u ∧
      u.num_elements = t.num_elements - 1 ∧ u.hIdx d = -1 ∧
      u.capacity = t.capacity := by
  intro f
  induction f with
  | zero => intro t k h1 h2; exfalso; omega
  | succ f ih =>
    intro t k h1 h2
    by_cases hb : is_bucket t k
    · obtain ⟨n1, n2, n3⟩ := bucket_delete_fields t k d
      refine ⟨bucket_delete t k d, ?_, n1, n2, n3⟩
      simp only [extract_go]
      rw [if_pos hb]
    · have hd2 : k + 2 ≤ t.sdepth := by
        have hl : lst_length t k ≠ 1 := hb
        unfold lst_length at hl
        omega
      by_cases hc1 : cmp d (pivot_item t (k + 1)) < 0
      · obtain ⟨u, hu, n1, n2, n3⟩ := ih t (k + 1) (by omega) (by omega)
        refine ⟨u, ?_, n1, n2, n3⟩
        simp only [extract_go]
        rw [if_neg hb, if_pos hc1]
        exact hu
      · by_cases hc2 : 0 < cmp d (pivot_item t (k + 1))
        · obtain ⟨n1, n2, n3⟩ := bucket_delete_fields t k d
          refine ⟨bucket_delete t k d, ?_, n1, n2, n3⟩
          simp only [extract_go]
          rw [if_neg hb, if_neg hc1, if_pos hc2]
          rfl
        · obtain ⟨n1, n2, n3⟩ :=
            bucket_delete_fields (lst_flatten t (k + 1)) (k + 1) d
          refine ⟨bucket_delete (lst_flatten t (k + 1)) (k + 1) d, ?_, n1, n2, n3⟩
          simp only [extract_go]
          rw [if_neg hb, if_neg hc1, if_neg hc2]

/-- Counterexample to C6: on the capacity-2 state `tC6` holding only the
record 1, extracting the record 2 — which is not resident and has handle
field 0 — reports success instead of failure, refuting both the claimed
failure condition ("fails iff empty or negative handle" is the code's test,
but success does not imply residency) and the claim that a successful
extraction removes a resident `x`. -/
theorem C6_counterexample :
    ¬ Resident tC6 2 ∧ tC6.num_elements ≠ 0 ∧ ¬ tC6.hIdx 2 < 0 ∧
    (∃ u : LST, lst_extract cmpId tC6 2 = some (1, u)) :=
  ⟨by decide, by decide, by decide, ⟨bucket_delete tC6 0 2, rfl⟩⟩

/-- C6 (amended): `lst_extract` returns failure (code `-1`) if and only if
the LST is empty or `x`'s handle field is negative, and a failing call
leaves the state unchanged; otherwise it returns success (code `1`), and the
resulting state has `num_elements` decreased by one and `x`'s handle field
set to `-1` — but success does not imply that `x` was resident, nor that the
element removed is `x`. -/
theorem C6_spec {cmp : Nat → Nat → Int} {t : LST} {x : Nat}
    (hdep : 1 ≤ t.sdepth) :
    ((∃ u : LST, lst_extract cmp t x = some (-1, u)) ↔
      (t.num_elements = 0 ∨ t.hIdx x < 0)) ∧
    (∀ u : LST, lst_extract cmp t x = some (-1, u) → u = t) ∧
    (¬ (t.num_elements = 0 ∨ t.hIdx x < 0) →
      ∃ t' : LST, lst_extract cmp t x = some (1, t') ∧
        t'.num_elements = t.num_elements - 1 ∧ t'.hIdx x = -1) := by
  by_cases hcond : t.num_elements = 0 ∨ t.hIdx x < 0
  · have hres : lst_extract cmp t x = some (-1, t) := by
      unfold lst_extract
      rw [if_pos hcond]
    refine ⟨⟨fun _ => hcond, fun _ => ⟨t, hres⟩⟩, ?_, fun hc => absurd hcond hc⟩
    intro u hu
    rw [hres] at hu
    cases hu
    rfl
  · obtain ⟨u, hu, n1, n2, n3⟩ :=
      @extract_go_total cmp x t.sdepth t 0 (by omega) (by omega)
    have hres : lst_extract cmp t x = some (1, u) := by
      unfold lst_extract
      rw [if_neg hcond, hu]
      rfl
    refine ⟨⟨?_, fun hc => absurd hc hcond⟩, ?_, fun _ => ⟨u, hres, n1, n2⟩⟩
    · rintro ⟨v, hv⟩
      rw [hres] at hv
      simp at hv
    · intro v hv
      rw [hres] at hv
      simp at hv

/-- Witness for the amended C6 at the concrete state `tC6` and record 2. -/
theorem C6_witness :
    1 ≤ tC6.sdepth ∧
    (((∃ u : LST, lst_extract cmpId tC6 2 = some (-1, u)) ↔
      (tC6.num_elements = 0 ∨ tC6.hIdx 2 < 0)) ∧
    (∀ u : LST, lst_extract cmpId tC6 2 = some (-1, u) → u = tC6) ∧
    (¬ (tC6.num_elements = 0 ∨ tC6.hIdx 2 < 0) →
      ∃ t' : LST, lst_extract cmpId tC6 2 = some (1, t') ∧
        t'.num_elements = tC6.num_elements - 1 ∧ t'.hIdx 2 = -1)) :=
  ⟨by decide, C6_spec (by decide)⟩

lemma chain_locate (s : Nat → Int) :
    ∀ (K : Nat) (q : Int), s K ≤ q → q ≤ s 0 →
    q = s K ∨ ∃ j : Nat, j < K ∧ s (j + 1) < q ∧ q ≤ s j := by
  intro K
  induction K with
  | zero => intro q h1 h2; left; omega
  | succ K ih =>
    intro q h1 h2
    by_cases he : q = s (K + 1)
    · left; exact he
    · by_cases hle : q ≤ s K
      · right; exact ⟨K, by omega, by omega, hle⟩
      · rcases ih q (by omega) h2 with h | ⟨j, hj1, hj2, hj3⟩
        · exfalso; omega
        · right; exact ⟨j, by omega, hj2, hj3⟩

lemma bucket_add_loop_spec {cmp : Nat → Nat → Int} {t : LST} {K : Nat}
    (hcmp : IsTotalCmp cmp)
    (hC : 0 < t.capacity)
    (hidx0 : 0 ≤ t.idx) (hidx1 : t.idx < t.capacity)
    (hn0 : 0 ≤ t.num_elements) (hnC : t.num_elements < t.capacity)
    (hs0 : t.sdata 0 = t.idx + t.num_elements)
    (hmono : ∀ j : Nat, j < K → t.sdata (j + 1) < t.sdata j)
    (hlbK : t.idx ≤ t.sdata K)
    (hHS : HS t t.idx (t.idx + t.num_elements - 1)) :
    ∀ m : Nat, m ≤ K →
    ((List.range m).foldl bucket_add_step t).capacity = t.capacity ∧
    ((List.range m).foldl bucket_add_step t).idx = t.idx ∧
    ((List.range m).foldl bucket_add_step t).num_elements = t.num_elements ∧
    ((List.range m).foldl bucket_add_step t).sdepth = t.sdepth ∧
    (∀ j : Nat, (j < m → ((List.range m).foldl bucket_add_step t).sdata j =
        t.sdata j + 1) ∧
      (m ≤ j → ((List.range m).foldl bucket_add_step t).sdata j = t.sdata j)) ∧
    (∀ q : Int, t.idx ≤ q → q ≤ t.sdata m →
      item ((List.range m).foldl bucket_add_step t) q = item t q) ∧
    (∀ j : Nat, 1 ≤ j → j ≤ m →
      item ((List.range m).foldl bucket_add_step t) (t.sdata j + 1) =
        item t (t.sdata j)) ∧
    (∀ j : Nat, j < m → t.sdata j - t.sdata (j + 1) ≠ 1 →
      item ((List.range m).foldl bucket_add_step t) (t.sdata j) =
        item t (t.sdata (j + 1) + 1)) ∧
    (∀ j : Nat, j < m → ∀ q : Int, t.sdata (j + 1) + 2 ≤ q → q ≤ t.sdata j - 1 →
      item ((List.range m).foldl bucket_add_step t) q = item t q) ∧
    (∀ q : Int, t.idx ≤ q → q ≤ t.idx + t.num_elements - 1 →
      (∀ j : Nat, 1 ≤ j → j ≤ m → q ≠ t.sdata j) →
      (∀ j : Nat, j < m → q ≠ t.sdata (j + 1) + 1) →
      ((List.range m).foldl bucket_add_step t).hIdx (item t q) =
        t.hIdx (item t q)) ∧
    (∀ j : Nat, 1 ≤ j → j ≤ m →
      ((List.range m).foldl bucket_add_step t).hIdx (item t (t.sdata j)) =
        reduce t (t.sdata j + 1)) ∧
    (∀ j : Nat, j < m → t.sdata j - t.sdata (j + 1) ≠ 1 →
      ((List.range m).foldl bucket_add_step t).hIdx (item t (t.sdata (j + 1) + 1)) =
        reduce t (t.sdata j)) ∧
    (∀ x : Nat,
      (∀ q : Int, t.idx ≤ q → q ≤ t.idx + t.num_elements - 1 → x ≠ item t q) →
      ((List.range m).foldl bucket_add_step t).hIdx x = t.hIdx x) := by
  -- chain facts
  have hs_le : ∀ i j : Nat, i ≤ j → j ≤ K → t.sdata j ≤ t.sdata i := by
    intro i j hij hjK
    induction j with
    | zero => cases Nat.le_zero.mp hij; exact le_refl _
    | succ j ihj =>
      rcases Nat.lt_or_ge i (j + 1) with hlt | hge
      · have h1 := hmono j (by omega)
        have h2 := ihj (by omega) (by omega)
        omega
      · have : i = j + 1 := by omega
        rw [this]
    -- strictly below s 0 for positive indices
  have hs_lt : ∀ i j : Nat, i < j → j ≤ K → t.sdata j < t.sdata i := by
    intro i j hij hjK
    have h1 := hmono i (by omega)
    have h2 := hs_le (i + 1) j (by omega) hjK
    omega
  have hs_lb : ∀ j : Nat, j ≤ K → t.idx ≤ t.sdata j := by
    intro j hj
    have := hs_le j K hj (le_refl _)
    omega
  have hs_ub : ∀ j : Nat, j ≤ K → t.sdata j ≤ t.idx + t.num_elements := by
    intro j hj
    have := hs_le 0 j (by omega) hj
    omega
  have hs_ub1 : ∀ j : Nat, 1 ≤ j → j ≤ K → t.sdata j ≤ t.idx + t.num_elements - 1 := by
    intro j h1 h2
    have ha := hs_le 1 j h1 h2
    have hb : t.sdata 1 < t.sdata 0 := by simpa using hmono 0 (by omega)
    omega
  have hwin_ne : ∀ a b : Int, t.idx ≤ a → a ≤ t.idx + t.num_elements →
      t.idx ≤ b → b ≤ t.idx + t.num_elements → a ≠ b →
      reduce t a ≠ reduce t b := by
    intro a b h1 h2 h3 h4 hne heq
    exact hne (reduce_inj_window t hC heq (by omega) (by omega))
  have hval_ne : ∀ a b : Int, t.idx ≤ a → a ≤ t.idx + t.num_elements - 1 →
      t.idx ≤ b → b ≤ t.idx + t.num_elements - 1 → a ≠ b →
      item t a ≠ item t b := by
    intro a b h1 h2 h3 h4 hne heq
    exact hne (HS.item_inj hHS hC (by omega) h1 h2 h3 h4 heq)
  intro m
  induction m with
  | zero =>
    intro _
    refine ⟨rfl, rfl, rfl, rfl, fun j => ⟨fun h => absurd h (by omega), fun _ => rfl⟩,
      fun q _ _ => rfl, fun j h1 h2 => absurd (by omega : j = 0) (by omega),
      fun j h _ => absurd h (by omega),
      fun j h _ _ _ => absurd h (by omega),
      fun q _ _ _ _ => rfl,
      fun j h1 h2 => absurd (by omega : j = 0) (by omega),
      fun j h _ => absurd h (by omega),
      fun x _ => rfl⟩
  | succ m ih =>
    intro hmK
    obtain ⟨c1, c2, c3, c4, c5, c6, c7, c8, c9, c10, c11, c12, c13⟩ := ih (by omega)
    set u := (List.range m).foldl bucket_add_step t with hu
    have hfold : (List.range (m + 1)).foldl bucket_add_step t = bucket_add_step u m := by
      rw [List.range_succ, List.foldl_append]
      rfl
    -- facts about the current step
    have hmono_m := hmono m (by omega)
    have hsm_lb := hs_lb m (by omega)
    have hsm1_lb := hs_lb (m + 1) (by omega)
    have hsm_ub := hs_ub m (by omega)
    have hsm1_ub := hs_ub1 (m + 1) (by omega) (by omega)
    have hsm_ub1 : 1 ≤ m → t.sdata m ≤ t.idx + t.num_elements - 1 :=
      fun h => hs_ub1 m h (by omega)
    have hups : u.sdata (m + 1) = t.sdata (m + 1) := (c5 (m + 1)).2 (by omega)
    have hupm : u.sdata m = t.sdata m := (c5 m).2 (le_refl _)
    -- the step unfolded
    have hstep : bucket_add_step u m =
        lst_move
          (if t.sdata m - t.sdata (m + 1) = 1 then stack_set u m (t.sdata m + 1)
           else lst_move (stack_set u m (t.sdata m + 1)) (t.sdata m)
             (item (stack_set u m (t.sdata m + 1)) (t.sdata (m + 1) + 1)))
          (t.sdata (m + 1) + 1)
          (item
            (if t.sdata m - t.sdata (m + 1) = 1 then stack_set u m (t.sdata m + 1)
             else lst_move (stack_set u m (t.sdata m + 1)) (t.sdata m)
               (item (stack_set u m (t.sdata m + 1)) (t.sdata (m + 1) + 1)))
            (t.sdata (m + 1))) := by
      simp only [bucket_add_step, stack_item, hups, hupm]
    -- capacities of all intermediate states equal t.capacity
    have hcapu : u.capacity = t.capacity := c1
    have hredu : ∀ q : Int, reduce u q = reduce t q := fun q => reduce_congr hcapu q
    -- items of the stack_set state are those of u
    have hss : ∀ q : Int, item (stack_set u m (t.sdata m + 1)) q = item u q :=
      fun q => rfl
    -- the element moved first (gap case): item u (s (m+1) + 1) = item t (s (m+1) + 1)
    have hfirst : item u (t.sdata (m + 1) + 1) = item t (t.sdata (m + 1) + 1) :=
      c6 _ (by omega) (by omega)
    have hpivv : item u (t.sdata (m + 1)) = item t (t.sdata (m + 1)) :=
      c6 _ (by omega) (by omega)
    set t2 := (if t.sdata m - t.sdata (m + 1) = 1 then stack_set u m (t.sdata m + 1)
      else lst_move (stack_set u m (t.sdata m + 1)) (t.sdata m)
        (item (stack_set u m (t.sdata m + 1)) (t.sdata (m + 1) + 1))) with ht2
    have hcap2 : t2.capacity = t.capacity := by
      rw [ht2]; split <;> exact hcapu
    have hred2 : ∀ q : Int, reduce t2 q = reduce t q := fun q => reduce_congr hcap2 q
    have ht2p : ∀ q : Int, q ≠ t.sdata m →
        t.idx ≤ q → q ≤ t.idx + t.num_elements → item t2 q = item u q := by
      intro q hne hb1 hb2
      rw [ht2]
      split
      · rfl
      · have hX : reduce (stack_set u m (t.sdata m + 1)) q ≠
            reduce (stack_set u m (t.sdata m + 1)) (t.sdata m) := by
          show reduce u q ≠ reduce u (t.sdata m)
          rw [hredu q, hredu (t.sdata m)]
          exact hwin_ne q (t.sdata m) hb1 hb2 hsm_lb hsm_ub hne
        rw [item_move_ne _ _ _ hX]
        rfl
    have ht2top : t.sdata m - t.sdata (m + 1) ≠ 1 →
        item t2 (t.sdata m) = item t (t.sdata (m + 1) + 1) := by
      intro hgap
      rw [ht2, if_neg hgap, item_move_self]
      exact hfirst
    have ht2piv : item t2 (t.sdata (m + 1)) = item t (t.sdata (m + 1)) := by
      rw [ht2p _ (by omega) (by omega) (by omega)]
      exact hpivv
    -- hIdx of t2
    have ht2h : ∀ x : Nat, (t.sdata m - t.sdata (m + 1) = 1 ∨
        x ≠ item t (t.sdata (m + 1) + 1)) → t2.hIdx x = u.hIdx x := by
      intro x hx
      rw [ht2]
      rcases hx with hgap | hne
      · rw [if_pos hgap]; rfl
      · split
        · rfl
        · have hXX : x ≠ item (stack_set u m (t.sdata m + 1))
              (t.sdata (m + 1) + 1) := by
            show x ≠ item u (t.sdata (m + 1) + 1)
            rw [hfirst]
            exact hne
          rw [hIdx_move_ne _ _ _ hXX]
          rfl
    have ht2hset : t.sdata m - t.sdata (m + 1) ≠ 1 →
        t2.hIdx (item t (t.sdata (m + 1) + 1)) = reduce t (t.sdata m) := by
      intro hgap
      rw [ht2, if_neg hgap,
        show item (stack_set u m (t.sdata m + 1)) (t.sdata (m + 1) + 1) =
          item t (t.sdata (m + 1) + 1) from hfirst,
        hIdx_move_self]
      exact hredu _
    -- the final state of the step
    have hres : (List.range (m + 1)).foldl bucket_add_step t =
        lst_move t2 (t.sdata (m + 1) + 1) (item t2 (t.sdata (m + 1))) := by
      rw [hfold, hstep, ht2]
    have hresp : ∀ q : Int, q ≠ t.sdata (m + 1) + 1 →
        t.idx ≤ q → q ≤ t.idx + t.num_elements →
        item ((List.range (m + 1)).foldl bucket_add_step t) q = item t2 q := by
      intro q hne hb1 hb2
      rw [hres]
      refine item_move_ne _ _ _ ?_
      rw [hred2 q, hred2 (t.sdata (m + 1) + 1)]
      exact hwin_ne q (t.sdata (m + 1) + 1) hb1 hb2 (by omega) (by omega) hne
    have hrestop : item ((List.range (m + 1)).foldl bucket_add_step t)
        (t.sdata (m + 1) + 1) = item t (t.sdata (m + 1)) := by
      rw [hres, item_move_self]
      exact ht2piv
    have hresh : ∀ x : Nat, x ≠ item t (t.sdata (m + 1)) →
        ((List.range (m + 1)).foldl bucket_add_step t).hIdx x = t2.hIdx x := by
      intro x hne
      rw [hres]
      refine hIdx_move_ne _ _ _ ?_
      rw [ht2piv]
      exact hne
    have hreshset : ((List.range (m + 1)).foldl bucket_add_step t).hIdx
        (item t (t.sdata (m + 1))) = reduce t (t.sdata (m + 1) + 1) := by
      rw [hres, ← ht2piv, hIdx_move_self, hred2]
    -- fields
    have hrescap : ((List.range (m + 1)).foldl bucket_add_step t).capacity =
        t.capacity := by
      rw [hres]
      show t2.capacity = t.capacity
      exact hcap2
    have hresidx : ((List.range (m + 1)).foldl bucket_add_step t).idx = t.idx := by
      rw [hres]
      show t2.idx = t.idx
      rw [ht2]
      split
      · exact c2
      · exact c2
    have hresnum : ((List.range (m + 1)).foldl bucket_add_step t).num_elements =
        t.num_elements := by
      rw [hres]
      show t2.num_elements = t.num_elements
      rw [ht2]
      split
      · exact c3
      · exact c3
    have hresdep : ((List.range (m + 1)).foldl bucket_add_step t).sdepth =
        t.sdepth := by
      rw [hres]
      show t2.sdepth = t.sdepth
      rw [ht2]
      split
      · exact c4
      · exact c4
    have hressd : ∀ j : Nat, ((List.range (m + 1)).foldl bucket_add_step t).sdata j =
        fupd u.sdata m (t.sdata m + 1) j := by
      intro j
      rw [hres]
      show t2.sdata j = _
      rw [ht2]
      split
      · rfl
      · rfl
    refine ⟨hrescap, hresidx, hresnum, hresdep, ?_, ?_, ?_, ?_, ?_, ?_, ?_, ?_, ?_⟩
    · -- sdata
      intro j
      rw [hressd j]
      constructor
      · intro hj
        by_cases e : j = m
        · rw [e]
          show fupd u.sdata m (t.sdata m + 1) m = t.sdata m + 1
          rw [fupd_self]
        · rw [fupd_ne _ _ _ e]
          exact (c5 j).1 (by omega)
      · intro hj
        rw [fupd_ne _ _ _ (by omega)]
        exact (c5 j).2 (by omega)
    · -- low items
      intro q hb1 hb2
      rw [hresp q (by omega) hb1 (by omega), ht2p q (by omega) hb1 (by omega)]
      exact c6 q hb1 (by omega)
    · -- pivots
      intro j h1j hjm
      by_cases e : j = m + 1
      · rw [e]
        exact hrestop
      · have hjm' : j ≤ m := by omega
        have hsj_ge : t.sdata m ≤ t.sdata j := hs_le j m hjm' (by omega)
        have hjlb : t.idx ≤ t.sdata j := hs_lb j (by omega)
        have hjub : t.sdata j ≤ t.idx + t.num_elements - 1 :=
          hs_ub1 j h1j (by omega)
        rw [hresp (t.sdata j + 1) (by omega) (by omega) (by omega),
          ht2p (t.sdata j + 1) (by omega) (by omega) (by omega)]
        exact c7 j h1j hjm'
    · -- firsts
      intro j hj hgap
      by_cases e : j = m
      · rw [e] at hgap ⊢
        rw [hresp (t.sdata m) (by omega) (by omega) (by omega)]
        exact ht2top hgap
      · have hjm' : j < m := by omega
        have hsj_gt : t.sdata m < t.sdata j := hs_lt j m hjm' (by omega)
        have hsj1_ge : t.sdata m ≤ t.sdata (j + 1) :=
          hs_le (j + 1) m (by omega) (by omega)
        have hjlb : t.idx ≤ t.sdata j := hs_lb j (by omega)
        have hjub : t.sdata j ≤ t.idx + t.num_elements := hs_ub j (by omega)
        rw [hresp (t.sdata j) (by omega) (by omega) (by omega),
          ht2p (t.sdata j) (by omega) (by omega) (by omega)]
        exact c8 j hjm' hgap
    · -- interiors
      intro j hj q hq1 hq2
      by_cases e : j = m
      · rw [e] at hq1 hq2
        rw [hresp q (by omega) (by omega) (by omega),
          ht2p q (by omega) (by omega) (by omega)]
        exact c6 q (by omega) (by omega)
      · have hjm' : j < m := by omega
        have hsj1_ge : t.sdata m ≤ t.sdata (j + 1) :=
          hs_le (j + 1) m (by omega) (by omega)
        have hj1lb : t.idx ≤ t.sdata (j + 1) := hs_lb (j + 1) (by omega)
        have hjub : t.sdata j ≤ t.idx + t.num_elements := hs_ub j (by omega)
        rw [hresp q (by omega) (by omega) (by omega),
          ht2p q (by omega) (by omega) (by omega)]
        exact c9 j hjm' q hq1 hq2
    · -- handle frame over untouched live positions
      intro q hb1 hb2 hnot1 hnot2
      have hq_ne_piv : q ≠ t.sdata (m + 1) := hnot1 (m + 1) (by omega) (le_refl _)
      have hq_ne_first : q ≠ t.sdata (m + 1) + 1 := hnot2 m (by omega)
      have hv1 : item t q ≠ item t (t.sdata (m + 1)) :=
        hval_ne q (t.sdata (m + 1)) hb1 hb2 hsm1_lb hsm1_ub hq_ne_piv
      rw [hresh _ hv1]
      have hv2 : t.sdata m - t.sdata (m + 1) = 1 ∨
          item t q ≠ item t (t.sdata (m + 1) + 1) := by
        by_cases hgap : t.sdata m - t.sdata (m + 1) = 1
        · exact Or.inl hgap
        · right
          exact hval_ne q (t.sdata (m + 1) + 1) hb1 hb2 (by omega) (by omega)
            hq_ne_first
      rw [ht2h _ hv2]
      exact c10 q hb1 hb2 (fun j a b => hnot1 j a (by omega))
        (fun j a => hnot2 j (by omega))
    · -- pivot handles
      intro j h1j hjm
      by_cases e : j = m + 1
      · rw [e]
        exact hreshset
      · have hjm' : j ≤ m := by omega
        have hsj_ge : t.sdata m ≤ t.sdata j := hs_le j m hjm' (by omega)
        have hsjlive : t.sdata j ≤ t.idx + t.num_elements - 1 := hs_ub1 j h1j (by omega)
        have hv1 : item t (t.sdata j) ≠ item t (t.sdata (m + 1)) :=
          hval_ne _ _ (by omega) hsjlive hsm1_lb hsm1_ub (by omega)
        rw [hresh _ hv1]
        have hv2 : t.sdata m - t.sdata (m + 1) = 1 ∨
            item t (t.sdata j) ≠ item t (t.sdata (m + 1) + 1) := by
          by_cases hgap : t.sdata m - t.sdata (m + 1) = 1
          · exact Or.inl hgap
          · right
            exact hval_ne _ _ (by omega) hsjlive (by omega) (by omega) (by omega)
        rw [ht2h _ hv2]
        exact c11 j h1j hjm'
    · -- first handles
      intro j hj hgap
      by_cases e : j = m
      · rw [e] at hgap ⊢
        have hv1 : item t (t.sdata (m + 1) + 1) ≠ item t (t.sdata (m + 1)) :=
          hval_ne _ _ (by omega) (by omega) hsm1_lb hsm1_ub (by omega)
        rw [hresh _ hv1]
        exact ht2hset hgap
      · have hjm' : j < m := by omega
        have hsj1_ge : t.sdata m ≤ t.sdata (j + 1) :=
          hs_le (j + 1) m (by omega) (by omega)
        have hlive : t.sdata (j + 1) + 1 ≤ t.idx + t.num_elements - 1 := by
          have h0 := hs_le 0 j (by omega) (by omega)
          have hmj := hmono j (by omega)
          omega
        have hv1 : item t (t.sdata (j + 1) + 1) ≠ item t (t.sdata (m + 1)) :=
          hval_ne _ _ (by omega) hlive hsm1_lb hsm1_ub (by omega)
        rw [hresh _ hv1]
        have hv2 : t.sdata m - t.sdata (m + 1) = 1 ∨
            item t (t.sdata (j + 1) + 1) ≠ item t (t.sdata (m + 1) + 1) := by
          by_cases hga : t.sdata m - t.sdata (m + 1) = 1
          · exact Or.inl hga
          · right
            exact hval_ne _ _ (by omega) hlive (by omega) (by omega) (by omega)
        rw [ht2h _ hv2]
        exact c12 j hjm' hgap
    · -- global frame for non-resident values
      intro x hx
      have hv1 : x ≠ item t (t.sdata (m + 1)) := hx _ hsm1_lb hsm1_ub
      rw [hresh _ hv1]
      have hv2 : t.sdata m - t.sdata (m + 1) = 1 ∨
          x ≠ item t (t.sdata (m + 1) + 1) := by
        by_cases hga : t.sdata m - t.sdata (m + 1) = 1
        · exact Or.inl hga
        · right
          exact hx _ (by omega) (by omega)
      rw [ht2h _ hv2]
      exact c13 x hx

lemma bucket_add_final {t u : LST} {K : Nat} {d : Nat}
    (hC : 0 < t.capacity) (hidx0 : 0 ≤ t.idx) (hidx1 : t.idx < t.capacity)
    (hn0 : 0 ≤ t.num_elements) (hnC : t.num_elements < t.capacity)
    (hs0 : t.sdata 0 = t.idx + t.num_elements)
    (hmono : ∀ j : Nat, j < K → t.sdata (j + 1) < t.sdata j)
    (hlbK : t.idx ≤ t.sdata K)
    (hHS : HS t t.idx (t.idx + t.num_elements - 1))
    (hdnew : ∀ q : Int, t.idx ≤ q → q ≤ t.idx + t.num_elements - 1 → d ≠ item t q)
    (c1 : u.capacity = t.capacity) (c2 : u.idx = t.idx)
    (c3 : u.num_elements = t.num_elements) (c4 : u.sdepth = t.sdepth)
    (c5 : ∀ j : Nat, (j < K → u.sdata j = t.sdata j + 1) ∧
      (K ≤ j → u.sdata j = t.sdata j))
    (c6 : ∀ q : Int, t.idx ≤ q → q ≤ t.sdata K → item u q = item t q)
    (c7 : ∀ j : Nat, 1 ≤ j → j ≤ K → item u (t.sdata j + 1) = item t (t.sdata j))
    (c8 : ∀ j : Nat, j < K → t.sdata j - t.sdata (j + 1) ≠ 1 →
      item u (t.sdata j) = item t (t.sdata (j + 1) + 1))
    (c9 : ∀ j : Nat, j < K → ∀ q : Int, t.sdata (j + 1) + 2 ≤ q →
      q ≤ t.sdata j - 1 → item u q = item t q)
    (c10 : ∀ q : Int, t.idx ≤ q → q ≤ t.idx + t.num_elements - 1 →
      (∀ j : Nat, 1 ≤ j → j ≤ K → q ≠ t.sdata j) →
      (∀ j : Nat, j < K → q ≠ t.sdata (j + 1) + 1) →
      u.hIdx (item t q) = t.hIdx (item t q))
    (c11 : ∀ j : Nat, 1 ≤ j → j ≤ K →
      u.hIdx (item t (t.sdata j)) = reduce t (t.sdata j + 1))
    (c12 : ∀ j : Nat, j < K → t.sdata j - t.sdata (j + 1) ≠ 1 →
      u.hIdx (item t (t.sdata (j + 1) + 1)) = reduce t (t.sdata j))
    (c13 : ∀ x : Nat,
      (∀ q : Int, t.idx ≤ q → q ≤ t.idx + t.num_elements - 1 → x ≠ item t q) →
      u.hIdx x = t.hIdx x)
    (R : LST)
    (hR : R = { lst_move (stack_set u K (stack_item u K + 1)) (stack_item u K) d
      with num_elements :=
        (lst_move (stack_set u K (stack_item u K + 1)) (stack_item u K)
          d).num_elements + 1 }) :
    R.capacity = t.capacity ∧ R.idx = t.idx ∧
    R.num_elements = t.num_elements + 1 ∧ R.sdepth = t.sdepth ∧
    (∀ j : Nat, j ≤ K → R.sdata j = t.sdata j + 1) ∧
    (∀ j : Nat, K < j → R.sdata j = t.sdata j) ∧
    (∀ q : Int, t.idx ≤ q → q ≤ t.sdata K - 1 → item R q = item t q) ∧
    item R (t.sdata K) = d ∧
    (∀ j : Nat, 1 ≤ j → j ≤ K → item R (t.sdata j + 1) = item t (t.sdata j)) ∧
    (∀ j : Nat, j < K → t.sdata j - t.sdata (j + 1) ≠ 1 →
      item R (t.sdata j) = item t (t.sdata (j + 1) + 1)) ∧
    (∀ j : Nat, j < K → ∀ q : Int, t.sdata (j + 1) + 2 ≤ q → q ≤ t.sdata j - 1 →
      item R q = item t q) ∧
    (∀ q : Int, t.idx ≤ q → q ≤ t.idx + t.num_elements →
      R.hIdx (item R q) = reduce t q ∧
      ((item R q = d ∧ q = t.sdata K) ∨
       ∃ q' : Int, t.idx ≤ q' ∧ q' ≤ t.idx + t.num_elements - 1 ∧
        item R q = item t q' ∧ q' ≤ q ∧ q ≠ t.sdata K ∧
        (q' = q → ∀ i : Nat, 1 ≤ i → i ≤ K → q ≠ t.sdata i) ∧
        (∀ i : Nat, 1 ≤ i → i ≤ K → t.sdata i < q → t.sdata i ≤ q'))) ∧
    (∀ x : Nat, x ≠ d →
      (∀ q : Int, t.idx ≤ q → q ≤ t.idx + t.num_elements - 1 → x ≠ item t q) →
      R.hIdx x = t.hIdx x) := by
  have hsK : stack_item u K = t.sdata K := (c5 K).2 (le_refl _)
  rw [hsK] at hR
  -- chain facts
  have hs_le : ∀ i j : Nat, i ≤ j → j ≤ K → t.sdata j ≤ t.sdata i := by
    intro i j hij hjK
    induction j with
    | zero => cases Nat.le_zero.mp hij; exact le_refl _
    | succ j ihj =>
      rcases Nat.lt_or_ge i (j + 1) with hlt | hge
      · have h1 := hmono j (by omega)
        have h2 := ihj (by omega) (by omega)
        omega
      · have : i = j + 1 := by omega
        rw [this]
  have hs_lt : ∀ i j : Nat, i < j → j ≤ K → t.sdata j < t.sdata i := by
    intro i j hij hjK
    have h1 := hmono i (by omega)
    have h2 := hs_le (i + 1) j (by omega) hjK
    omega
  have hs_lb : ∀ j : Nat, j ≤ K → t.idx ≤ t.sdata j := by
    intro j hj
    have := hs_le j K hj (le_refl _)
    omega
  have hs_ub : ∀ j : Nat, j ≤ K → t.sdata j ≤ t.idx + t.num_elements := by
    intro j hj
    have := hs_le 0 j (by omega) hj
    omega
  have hs_ub1 : ∀ j : Nat, 1 ≤ j → j ≤ K →
      t.sdata j ≤ t.idx + t.num_elements - 1 := by
    intro j h1 h2
    have ha := hs_le 1 j h1 h2
    have hb : t.sdata 1 < t.sdata 0 := by simpa using hmono 0 (by omega)
    omega
  have hwin_ne : ∀ a b : Int, t.idx ≤ a → a ≤ t.idx + t.num_elements →
      t.idx ≤ b → b ≤ t.idx + t.num_elements → a ≠ b →
      reduce t a ≠ reduce t b := by
    intro a b h1 h2 h3 h4 hne heq
    exact hne (reduce_inj_window t hC heq (by omega) (by omega))
  -- basic fields of R
  have hRcap : R.capacity = t.capacity := by rw [hR]; exact c1
  have hRidx : R.idx = t.idx := by rw [hR]; exact c2
  have hRnum : R.num_elements = t.num_elements + 1 := by
    rw [hR]
    show u.num_elements + 1 = t.num_elements + 1
    rw [c3]
  have hRdep : R.sdepth = t.sdepth := by rw [hR]; exact c4
  have hredR : ∀ q : Int, reduce R q = reduce t q := by
    intro q
    exact reduce_congr hRcap q
  have hredss : ∀ q : Int, reduce (stack_set u K (t.sdata K + 1)) q = reduce t q := by
    intro q
    show reduce u q = reduce t q
    exact reduce_congr c1 q
  -- items of R
  have hRitem_ne : ∀ q : Int, q ≠ t.sdata K →
      t.idx ≤ q → q ≤ t.idx + t.num_elements → item R q = item u q := by
    intro q hne hb1 hb2
    rw [hR]
    show item (lst_move (stack_set u K (t.sdata K + 1)) (t.sdata K) d) q = item u q
    rw [item_move_ne _ _ _ ?_]
    · rfl
    · rw [hredss q, hredss (t.sdata K)]
      exact hwin_ne q (t.sdata K) hb1 hb2 hlbK (hs_ub K (le_refl _)) hne
  have hRitem_d : item R (t.sdata K) = d := by
    rw [hR]
    show item (lst_move (stack_set u K (t.sdata K + 1)) (t.sdata K) d)
      (t.sdata K) = d
    rw [item_move_self]
  have hRh_ne : ∀ x : Nat, x ≠ d → R.hIdx x = u.hIdx x := by
    intro x hne
    rw [hR]
    show (lst_move (stack_set u K (t.sdata K + 1)) (t.sdata K) d).hIdx x = u.hIdx x
    rw [hIdx_move_ne _ _ _ hne]
    rfl
  have hRh_d : R.hIdx d = reduce t (t.sdata K) := by
    rw [hR]
    show (lst_move (stack_set u K (t.sdata K + 1)) (t.sdata K) d).hIdx d = _
    rw [hIdx_move_self]
    exact hredss _
  have hRsd : ∀ j : Nat, R.sdata j = fupd u.sdata K (t.sdata K + 1) j := by
    intro j
    rw [hR]
    rfl
  refine ⟨hRcap, hRidx, hRnum, hRdep, ?_, ?_, ?_, hRitem_d, ?_, ?_, ?_, ?_, ?_⟩
  · -- sdata at j ≤ K
    intro j hj
    rw [hRsd j]
    by_cases e : j = K
    · rw [e]
      show fupd u.sdata K (t.sdata K + 1) K = _
      rw [fupd_self]
    · rw [fupd_ne _ _ _ e]
      exact (c5 j).1 (by omega)
  · -- sdata at j > K
    intro j hj
    rw [hRsd j]
    rw [fupd_ne _ _ _ (by omega)]
    exact (c5 j).2 (by omega)
  · -- items below s K
    intro q hb1 hb2
    have hKub := hs_ub K (le_refl _)
    rw [hRitem_ne q (by omega) hb1 (by omega)]
    exact c6 q hb1 (by omega)
  · -- pivots
    intro j h1j hjK
    have hjlb := hs_lb j (by omega)
    have hjub := hs_ub1 j h1j hjK
    have hjK2 := hs_le j K hjK (le_refl _)
    rw [hRitem_ne (t.sdata j + 1) (by omega) (by omega) (by omega)]
    exact c7 j h1j hjK
  · -- firsts
    intro j hj hgap
    have hjub := hs_ub j (by omega)
    have hjlt := hs_lt j K hj (le_refl _)
    rw [hRitem_ne (t.sdata j) (by omega) (by omega) (by omega)]
    exact c8 j hj hgap
  · -- interiors
    intro j hj q hq1 hq2
    have hj1ge : t.sdata K ≤ t.sdata (j + 1) := hs_le (j + 1) K (by omega) (le_refl _)
    have hj1lb := hs_lb (j + 1) (by omega)
    have hjub := hs_ub j (by omega)
    rw [hRitem_ne q (by omega) (by omega) (by omega)]
    exact c9 j hj q hq1 hq2
  · -- handles and coverage for every new live position
    intro q hb1 hb2
    by_cases hlow : q ≤ t.sdata K - 1
    · have hlive : q ≤ t.idx + t.num_elements - 1 := by
        have := hs_ub K (le_refl _)
        omega
      have hit : item R q = item t q := by
        rw [hRitem_ne q (by omega) hb1 hb2]
        exact c6 q hb1 (by omega)
      refine ⟨?_, Or.inr ⟨q, hb1, hlive, hit, le_refl _, by omega,
        fun _ i hi1 hi2 => by have := hs_le i K hi2 (le_refl _); omega,
        fun i hi1 hi2 hlt => by omega⟩⟩
      rw [hit, hRh_ne _ (fun e => hdnew q hb1 hlive e.symm)]
      rw [c10 q hb1 hlive ?_ ?_]
      · exact hHS q hb1 hlive
      · intro j hj1 hj2 he
        have := hs_le j K hj2 (le_refl _)
        omega
      · intro j hj he
        have := hs_le (j + 1) K (by omega) (le_refl _)
        omega
    · have hge : t.sdata K ≤ q := by omega
      rcases chain_locate t.sdata K q hge (by omega) with he | ⟨j, hjK, hq1, hq2⟩
      · refine ⟨?_, Or.inl ⟨by rw [he]; exact hRitem_d, he⟩⟩
        rw [he, hRitem_d, hRh_d]
      · by_cases hfirst : q = t.sdata (j + 1) + 1
        · have hit : item R q = item t (t.sdata (j + 1)) := by
            rw [hfirst]
            have hjlb := hs_lb (j + 1) (by omega)
            have hjub := hs_ub1 (j + 1) (by omega) (by omega)
            have hjK2 := hs_le (j + 1) K (by omega) (le_refl _)
            rw [hRitem_ne (t.sdata (j + 1) + 1) (by omega) (by omega) (by omega)]
            exact c7 (j + 1) (by omega) (by omega)
          have hjlb := hs_lb (j + 1) (by omega)
          have hjub := hs_ub1 (j + 1) (by omega) (by omega)
          have hj1K : t.sdata K ≤ t.sdata (j + 1) :=
            hs_le (j + 1) K (by omega) (le_refl _)
          refine ⟨?_, Or.inr ⟨t.sdata (j + 1), hjlb, hjub, hit, by omega, by omega,
            fun e => absurd e (by omega),
            fun i hi1 hi2 hlt => by omega⟩⟩
          rw [hit, hRh_ne _ (fun e => hdnew _ hjlb hjub e.symm)]
          rw [c11 (j + 1) (by omega) (by omega), hfirst]
        · by_cases htop : q = t.sdata j
          · have hgap : t.sdata j - t.sdata (j + 1) ≠ 1 := by omega
            have hjlb : t.idx ≤ t.sdata (j + 1) + 1 := by
              have := hs_lb (j + 1) (by omega)
              omega
            have hjub : t.sdata (j + 1) + 1 ≤ t.idx + t.num_elements - 1 := by
              have h0 := hs_le 0 j (by omega) (by omega)
              omega
            have hit : item R q = item t (t.sdata (j + 1) + 1) := by
              rw [htop]
              have hjlt := hs_lt j K hjK (le_refl _)
              have hjub2 := hs_ub j (by omega)
              rw [hRitem_ne (t.sdata j) (by omega) (by omega) (by omega)]
              exact c8 j hjK hgap
            have hjlt2 : t.sdata K < t.sdata j := hs_lt j K hjK (le_refl _)
            refine ⟨?_, Or.inr ⟨t.sdata (j + 1) + 1, hjlb, hjub, hit, by omega,
              by omega, fun e => absurd e (by omega), ?_⟩⟩
            · rw [hit, hRh_ne _ (fun e => hdnew _ hjlb hjub e.symm)]
              rw [c12 j hjK hgap, htop]
            · intro i hi1 hi2 hlt
              rcases le_or_lt i j with hij | hij
              · have := hs_le i j hij (by omega)
                omega
              · have := hs_le (j + 1) i (by omega) hi2
                omega
          · have hin1 : t.sdata (j + 1) + 2 ≤ q := by omega
            have hin2 : q ≤ t.sdata j - 1 := by omega
            have hlive : q ≤ t.idx + t.num_elements - 1 := by
              have h0 := hs_le 0 j (by omega) (by omega)
              omega
            have hj1ge : t.sdata K ≤ t.sdata (j + 1) :=
              hs_le (j + 1) K (by omega) (le_refl _)
            have hjub := hs_ub j (by omega)
            have hit : item R q = item t q := by
              rw [hRitem_ne q (by omega) (by omega) (by omega)]
              exact c9 j hjK q hin1 hin2
            have hnot1 : ∀ i : Nat, 1 ≤ i → i ≤ K → q ≠ t.sdata i := by
              intro i hi1 hi2 he
              rcases le_or_lt i j with hij | hij
              · have := hs_le i j hij (by omega)
                omega
              · have := hs_le (j + 1) i (by omega) hi2
                omega
            refine ⟨?_, Or.inr ⟨q, hb1, hlive, hit, le_refl _, by omega,
              fun _ => hnot1, fun i hi1 hi2 hlt => by omega⟩⟩
            rw [hit, hRh_ne _ (fun e => hdnew q hb1 hlive e.symm)]
            rw [c10 q hb1 hlive hnot1 ?_]
            · exact hHS q hb1 hlive
            · intro i hi he
              rcases le_or_lt (i + 1) j with hij | hij
              · have := hs_le (i + 1) j hij (by omega)
                omega
              · have := hs_le (j + 1) (i + 1) (by omega) (by omega)
                omega
  · -- handle frame for non-residents
    intro x hxd hx
    rw [hRh_ne _ hxd]
    exact c13 x hx

lemma residents_cons_perm {t R : LST} {d : Nat} {K : Nat}
    (hC : 0 < t.capacity) (hn0 : 0 ≤ t.num_elements)
    (hnC : t.num_elements < t.capacity)
    (hRcap : R.capacity = t.capacity) (hRidx : R.idx = t.idx)
    (hRnum : R.num_elements = t.num_elements + 1)
    (hcover : ∀ q : Int, t.idx ≤ q → q ≤ t.idx + t.num_elements →
      R.hIdx (item R q) = reduce t q ∧
      ((item R q = d ∧ q = t.sdata K) ∨
       ∃ q' : Int, t.idx ≤ q' ∧ q' ≤ t.idx + t.num_elements - 1 ∧
        item R q = item t q' ∧ q' ≤ q ∧ q ≠ t.sdata K ∧
        (q' = q → ∀ i : Nat, 1 ≤ i → i ≤ K → q ≠ t.sdata i) ∧
        (∀ i : Nat, 1 ≤ i → i ≤ K → t.sdata i < q → t.sdata i ≤ q'))) :
    (residents R).Perm (d :: residents t) := by
  have hHSR : HS R t.idx (t.idx + t.num_elements) := by
    intro q h1 h2
    rw [reduce_congr hRcap q]
    exact (hcover q h1 h2).1
  have hC' : 0 < R.capacity := by rw [hRcap]; exact hC
  have hwin' : t.idx + t.num_elements - t.idx < R.capacity := by rw [hRcap]; omega
  have hnodup := windowList_nodup hC' hwin' hHSR
  have hres_eq : residents R =
      (List.range (t.idx + t.num_elements + 1 - t.idx).toNat).map
        (fun (i : Nat) => item R (t.idx + (i : Int))) := by
    unfold residents
    rw [hRidx, show R.num_elements.toNat =
      (t.idx + t.num_elements + 1 - t.idx).toNat by omega]
  have hsub : residents R ⊆ d :: residents t := by
    intro a ha
    rw [hres_eq, List.mem_map] at ha
    obtain ⟨i, hi, hia⟩ := ha
    rw [List.mem_range] at hi
    rcases (hcover (t.idx + (i : Int)) (by omega) (by omega)).2 with
      ⟨hd, _⟩ | ⟨q', h1, h2, h3, _⟩
    · rw [← hia, hd]
      exact List.mem_cons_self _ _
    · rw [← hia, h3]
      refine List.mem_cons_of_mem _ ?_
      rw [mem_residents]
      refine ⟨(q' - t.idx).toNat, by omega, ?_⟩
      rw [show t.idx + (((q' - t.idx).toNat : Nat) : Int) = q' by omega]
  have hnodupR : (residents R).Nodup := by
    rw [hres_eq]
    exact hnodup
  refine (hnodupR.subperm hsub).perm_of_length_le ?_
  rw [hres_eq]
  simp [residents]
  omega

lemma bucket_add_inv {cmp : Nat → Nat → Int} {t : LST} {K : Nat} {d : Nat}
    (hcmp : IsTotalCmp cmp) (hinv : Inv cmp t)
    (hnC : t.num_elements < t.capacity)
    (hKdep : K ≤ t.sdepth)
    (hmono : ∀ j : Nat, j < K → t.sdata (j + 1) < t.sdata j)
    (hlbK : t.idx ≤ t.sdata K)
    (hdnew : ¬ Resident t d)
    (hble : ∀ i : Nat, 1 ≤ i → i ≤ K → i < t.sdepth → cmp d (pivot_item t i) ≤ 0)
    (hbge : ∀ i : Nat, K < i → i < t.sdepth → 0 ≤ cmp d (pivot_item t i)) :
    Inv cmp (bucket_add t K d) ∧
    (bucket_add t K d).capacity = t.capacity ∧
    (bucket_add t K d).idx = t.idx ∧
    (bucket_add t K d).num_elements = t.num_elements + 1 ∧
    (bucket_add t K d).sdepth = t.sdepth ∧
    (residents (bucket_add t K d)).Perm (d :: residents t) ∧
    (∀ x : Nat, x ≠ d → ¬ Resident t x → (bucket_add t K d).hIdx x = t.hIdx x) := by
  have hC := hinv.cap_pos
  have hidx0 := hinv.idx_lb
  have hidx1 := hinv.idx_ub
  have hn0 := hinv.ne_lb
  have hs0 := hinv.s_zero
  have hHSl := hinv.hs_live
  have hdnew' : ∀ q : Int, t.idx ≤ q → q ≤ t.idx + t.num_elements - 1 →
      d ≠ item t q := by
    intro q h1 h2 he
    exact hdnew ⟨(q - t.idx).toNat, by omega,
      by rw [show t.idx + (((q - t.idx).toNat : Nat) : Int) = q by omega, ← he]⟩
  obtain ⟨c1, c2, c3, c4, c5, c6, c7, c8, c9, c10, c11, c12, c13⟩ :=
    @bucket_add_loop_spec cmp t K hcmp hC hidx0 hidx1 hn0 hnC hs0 hmono hlbK
      hHSl K (le_refl K)
  obtain ⟨b1, b2, b3, b4, b5, b6, b7, b8, b9, b10, b11, b12, b13⟩ :=
    bucket_add_final hC hidx0 hidx1 hn0 hnC hs0 hmono hlbK hHSl hdnew'
      c1 c2 c3 c4 c5 c6 c7 c8 c9 c10 c11 c12 c13 (bucket_add t K d) rfl
  have hperm : (residents (bucket_add t K d)).Perm (d :: residents t) :=
    residents_cons_perm (K := K) hC hn0 hnC b1 b2 b3 b12
  have hxframe : ∀ x : Nat, x ≠ d → ¬ Resident t x →
      (bucket_add t K d).hIdx x = t.hIdx x := by
    intro x hx1 hx2
    refine b13 x hx1 ?_
    intro q h1 h2 he
    exact hx2 ⟨(q - t.idx).toNat, by omega,
      by rw [show t.idx + (((q - t.idx).toNat : Nat) : Int) = q by omega, ← he]⟩
  -- chain facts on the original stack
  have hs_le : ∀ i j : Nat, i ≤ j → j ≤ K → t.sdata j ≤ t.sdata i := by
    intro i j hij hjK
    induction j with
    | zero => cases Nat.le_zero.mp hij; exact le_refl _
    | succ j ihj =>
      rcases Nat.lt_or_ge i (j + 1) with hlt | hge
      · have h1 := hmono j (by omega)
        have h2 := ihj (by omega) (by omega)
        omega
      · have : i = j + 1 := by omega
        rw [this]
  refine ⟨?_, b1, b2, b3, b4, hperm, hxframe⟩
  refine ⟨by rw [b1]; exact hinv.cap_pow,
    by rw [b2]; exact hidx0,
    by rw [b2, b1]; exact hidx1,
    by rw [b3]; omega,
    by rw [b3, b1]; omega,
    by rw [b4]; exact hinv.depth_pos, ?_, ?_, ?_, ?_, ?_, ?_⟩
  · -- s_zero
    rw [b5 0 (by omega), b2, b3, hs0]
    ring
  · -- s_mono
    intro i hi
    rw [b4] at hi
    rcases le_or_lt (i + 1) K with h1 | h1
    · rw [b5 (i + 1) h1, b5 i (by omega)]
      have := hmono i (by omega)
      omega
    · rcases le_or_lt i K with h2 | h2
      · have he : i = K := by omega
        rw [b6 (i + 1) h1, b5 i h2, he]
        have := hinv.s_mono K (by omega)
        omega
      · rw [b6 (i + 1) h1, b6 i h2]
        exact hinv.s_mono i (by omega)
  · -- s_lb
    intro i hi
    rw [b4] at hi
    rw [b2]
    rcases le_or_lt i K with h1 | h1
    · rw [b5 i h1]
      rcases le_or_lt i t.sdepth with h2 | h2
      · have := hs_le i K h1 (le_refl _)
        omega
      · omega
    · rw [b6 i h1]
      exact hinv.s_lb i (by omega)
  · -- handles
    intro k hk
    rw [b3] at hk
    rw [b2]
    have := (b12 (t.idx + (k : Int)) (by omega) (by omega)).1
    rw [this]
    exact (reduce_congr b1 _).symm
  · -- ord_le
    intro i hi h1i j hj
    rw [b4] at hi
    rw [b2] at hj ⊢
    -- the pivot of level i is unchanged
    have hpiv : pivot_item (bucket_add t K d) i = pivot_item t i := by
      rcases le_or_lt i K with h1 | h1
      · show item (bucket_add t K d) ((bucket_add t K d).sdata i) = _
        rw [b5 i h1]
        exact b9 i h1i h1
      · show item (bucket_add t K d) ((bucket_add t K d).sdata i) = _
        rw [b6 i h1]
        have hlt : t.sdata i ≤ t.sdata (K + 1) := hinv.s_le (K + 1) i h1 (by omega)
        have hKlt : t.sdata (K + 1) < t.sdata K := hinv.s_mono K (by omega)
        have hilb : t.idx ≤ t.sdata i := hinv.s_lb i (by omega)
        exact b7 (t.sdata i) hilb (by omega)
    rw [hpiv]
    rcases le_or_lt i K with h1 | h1
    · rw [b5 i h1] at hj
      have hjle : t.idx + (j : Int) ≤ t.sdata i := by omega
      have hiub : t.sdata i ≤ t.idx + t.num_elements :=
        le_of_lt (hinv.s_ub i h1i hi)
      rcases (b12 (t.idx + (j : Int)) (by omega) (by omega)).2 with
        ⟨hd, _⟩ | ⟨q', hq1, hq2, hq3, hq4, hq5, hq6, hq7⟩
      · rw [hd]
        exact hble i h1i h1 hi
      · rw [hq3]
        have hstrict : q' < t.sdata i := by
          by_cases he : q' = t.idx + (j : Int)
          · have := hq6 he i h1i h1
            omega
          · omega
        have := hinv.ord_le i hi h1i (q' - t.idx).toNat (by omega)
        rw [show t.idx + (((q' - t.idx).toNat : Nat) : Int) = q' by omega] at this
        exact this
    · rw [b6 i h1] at hj
      have hlt : t.sdata i ≤ t.sdata (K + 1) := hinv.s_le (K + 1) i h1 (by omega)
      have hKlt : t.sdata (K + 1) < t.sdata K := hinv.s_mono K (by omega)
      have hilb : t.idx ≤ t.sdata i := hinv.s_lb i (by omega)
      rw [b7 (t.idx + (j : Int)) (by omega) (by omega)]
      exact hinv.ord_le i (by omega) h1i j hj
  · -- ord_ge
    intro i hi h1i j hjn hjgt
    rw [b4] at hi
    rw [b3] at hjn
    rw [b2] at hjgt ⊢
    have hpiv : pivot_item (bucket_add t K d) i = pivot_item t i := by
      rcases le_or_lt i K with h1 | h1
      · show item (bucket_add t K d) ((bucket_add t K d).sdata i) = _
        rw [b5 i h1]
        exact b9 i h1i h1
      · show item (bucket_add t K d) ((bucket_add t K d).sdata i) = _
        rw [b6 i h1]
        have hlt : t.sdata i ≤ t.sdata (K + 1) := hinv.s_le (K + 1) i h1 (by omega)
        have hKlt : t.sdata (K + 1) < t.sdata K := hinv.s_mono K (by omega)
        have hilb : t.idx ≤ t.sdata i := hinv.s_lb i (by omega)
        exact b7 (t.sdata i) hilb (by omega)
    rw [hpiv]
    have hilb : t.idx ≤ t.sdata i := hinv.s_lb i (by omega)
    have hiub : t.sdata i < t.idx + t.num_elements := hinv.s_ub i h1i hi
    rcases le_or_lt i K with h1 | h1
    · -- level at or above the insertion bucket
      rw [b5 i h1] at hjgt
      rcases (b12 (t.idx + (j : Int)) (by omega) (by omega)).2 with
        ⟨hd, _⟩ | ⟨q', hq1, hq2, hq3, hq4, hq5, hq6, hq7⟩
      · rw [hd]
        have := hs_le i K h1 (le_refl _)
        omega
      · rw [hq3]
        have hge : t.sdata i ≤ q' := hq7 i h1i h1 (by omega)
        by_cases he : q' = t.sdata i
        · rw [he]
          show (0 : Int) ≤ cmp (pivot_item t i) (pivot_item t i)
          rw [hcmp.refl]
        · have := hinv.ord_ge i hi h1i (q' - t.idx).toNat (by omega) (by omega)
          rw [show t.idx + (((q' - t.idx).toNat : Nat) : Int) = q' by omega] at this
          exact this
    · -- a deeper level
      rw [b6 i h1] at hjgt
      have hlt : t.sdata i ≤ t.sdata (K + 1) := hinv.s_le (K + 1) i h1 (by omega)
      have hKlt : t.sdata (K + 1) < t.sdata K := hinv.s_mono K (by omega)
      have hsKub : t.sdata K ≤ t.idx + t.num_elements := by
        have := hs_le 0 K (by omega) (le_refl _)
        omega
      by_cases hql : t.idx + (j : Int) ≤ t.sdata K - 1
      · rw [b7 (t.idx + (j : Int)) (by omega) (by omega)]
        exact hinv.ord_ge i (by omega) h1i j (by omega) hjgt
      · rcases (b12 (t.idx + (j : Int)) (by omega) (by omega)).2 with
          ⟨hd, _⟩ | ⟨q', hq1, hq2, hq3, hq4, hq5, hq6, hq7⟩
        · rw [hd]
          exact hbge i h1 (by omega)
        · rw [hq3]
          have hKpos : 1 ≤ K := by
            by_contra hK0
            have hK0' : K = 0 := by omega
            rw [hK0'] at hq5 hql
            omega
          have hgeK : t.sdata K ≤ q' := hq7 K hKpos (le_refl _) (by omega)
          have := hinv.ord_ge i (by omega) h1i (q' - t.idx).toNat (by omega)
            (by omega)
          rw [show t.idx + (((q' - t.idx).toNat : Nat) : Int) = q' by omega] at this
          exact this

lemma insert_go_spec {cmp : Nat → Nat → Int} {d : Nat} (hcmp : IsTotalCmp cmp) :
    ∀ (f : Nat) (t : LST) (k : Nat) (rs : List Nat),
    Inv cmp t → t.num_elements < t.capacity → ¬ Resident t d → k < t.sdepth →
    (∀ i : Nat, 1 ≤ i → i ≤ k → cmp d (pivot_item t i) < 0) →
    t.sdepth ≤ f + k →
    ∃ t' : LST, ∃ rs' : List Nat,
      insert_go cmp f t k d rs = some (t', rs') ∧
      Inv cmp t' ∧
      t'.capacity = t.capacity ∧ t'.num_elements = t.num_elements + 1 ∧
      (residents t').Perm (d :: residents t) ∧
      (∀ x : Nat, x ≠ d → ¬ Resident t x → t'.hIdx x = t.hIdx x) := by
  intro f
  induction f with
  | zero => intro t k rs _ _ _ hk _ hf; exfalso; omega
  | succ f ih =>
    intro t k rs hinv hnC hdnew hk hpath hf
    by_cases hb : is_bucket t k
    · have hd : t.sdepth = k + 1 := by
        have hl : lst_length t k = 1 := hb
        unfold lst_length at hl
        omega
      obtain ⟨i1, i2, i3, i4, i5, i6, i7⟩ :=
        bucket_add_inv (K := k) (d := d) hcmp hinv hnC (by omega)
          (fun j hj => hinv.s_mono j (by omega)) (hinv.s_lb k hk) hdnew
          (fun i ha hb2 hc => le_of_lt (hpath i ha hb2))
          (fun i ha hb2 => by omega)
      refine ⟨bucket_add t k d, rs, ?_, i1, i2, i4, i6, i7⟩
      simp only [insert_go]
      rw [if_pos hb]
    · have hd2 : k + 2 ≤ t.sdepth := by
        have hl : lst_length t k ≠ 1 := hb
        unfold lst_length at hl
        omega
      by_cases hr : ((rs.headD 0 : Nat) : Int) % (lst_size t (k + 1) + 1) ≠ 0
      · by_cases hc : cmp d (pivot_item t (k + 1)) < 0
        · have hpath' : ∀ i : Nat, 1 ≤ i → i ≤ k + 1 → cmp d (pivot_item t i) < 0 := by
            intro i ha hb2
            rcases le_or_lt i k with h | h
            · exact hpath i ha h
            · have : i = k + 1 := by omega
              rw [this]
              exact hc
          obtain ⟨t', rs', hrun, j1, j2, j3, j4, j5⟩ :=
            ih t (k + 1) rs.tail hinv hnC hdnew (by omega) hpath' (by omega)
          refine ⟨t', rs', ?_, j1, j2, j3, j4, j5⟩
          simp only [insert_go]
          rw [if_neg hb, if_pos hr, if_pos hc]
          exact hrun
        · have hbge : ∀ i : Nat, k < i → i < t.sdepth →
              0 ≤ cmp d (pivot_item t i) := by
            intro i ha hb2
            by_cases he : i = k + 1
            · rw [he]
              omega
            · -- deeper pivots are below the (k+1)-pivot, so d is above them too
              have hik : k + 2 ≤ i := by omega
              have hsi : t.sdata i < t.sdata (k + 1) := by
                have h1 : t.sdata i ≤ t.sdata (k + 2) :=
                  hinv.s_le (k + 2) i hik (by omega)
                have h2 : t.sdata (k + 2) < t.sdata (k + 1) :=
                  hinv.s_mono (k + 1) (by omega)
                omega
              have hilb : t.idx ≤ t.sdata i := hinv.s_lb i (by omega)
              have hub : t.sdata (k + 1) < t.idx + t.num_elements :=
                hinv.s_ub (k + 1) (by omega) (by omega)
              have hple : cmp (pivot_item t i) (pivot_item t (k + 1)) ≤ 0 := by
                have := hinv.ord_le (k + 1) (by omega) (by omega)
                  (t.sdata i - t.idx).toNat (by omega)
                rw [show t.idx + (((t.sdata i - t.idx).toNat : Nat) : Int) =
                  t.sdata i by omega] at this
                exact this
              have hdge : cmp (pivot_item t (k + 1)) d ≤ 0 :=
                (hcmp.le_flip _ _).mpr (by omega)
              have := hcmp.trans_le _ _ _ hple hdge
              exact (hcmp.le_flip _ _).mp this
          obtain ⟨i1, i2, i3, i4, i5, i6, i7⟩ :=
            bucket_add_inv (K := k) (d := d) hcmp hinv hnC (by omega)
              (fun j hj => hinv.s_mono j (by omega))
              (hinv.s_lb k (by omega)) hdnew
              (fun i ha hb2 hc2 => le_of_lt (hpath i ha hb2)) hbge
          refine ⟨bucket_add t k d, rs.tail, ?_, i1, i2, i4, i6, i7⟩
          simp only [insert_go]
          rw [if_neg hb, if_pos hr, if_neg hc]
          rfl
      · have htf : Inv cmp (lst_flatten t (k + 1)) :=
          Inv_flatten hinv (by omega) (by omega)
        obtain ⟨i1, i2, i3, i4, i5, i6, i7⟩ :=
          bucket_add_inv (t := lst_flatten t (k + 1)) (K := k + 1) (d := d)
            hcmp htf hnC (le_refl _)
            (fun j hj => hinv.s_mono j (by omega))
            (hinv.s_lb (k + 1) (by omega)) hdnew
            (fun i ha hb2 hc2 => le_of_lt (hpath i ha (by
              have : (lst_flatten t (k + 1)).sdepth = k + 1 := rfl
              omega)))
            (fun i ha hb2 => by
              have : (lst_flatten t (k + 1)).sdepth = k + 1 := rfl
              omega)
        refine ⟨bucket_add (lst_flatten t (k + 1)) (k + 1) d, rs.tail, ?_,
          i1, i2, i4, i6, i7⟩
        simp only [insert_go]
        rw [if_neg hb, if_neg hr]

lemma Inv_expand {cmp : Nat → Nat → Int} {t : LST} (hinv : Inv cmp t)
    (hfull : t.num_elements = t.capacity) : Inv cmp (lst_expand t) := by
  obtain ⟨e1, e2, e3, e4, e5, e6, e7, e8⟩ := lst_expand_spec hinv hfull
  have hC := hinv.cap_pos
  have hpiv : ∀ i : Nat, 1 ≤ i → i < t.sdepth →
      pivot_item (lst_expand t) i = pivot_item t i := by
    intro i h1 h2
    have hlb := hinv.s_lb i h2
    have hub := hinv.s_ub i h1 h2
    have he6 := e6 (t.sdata i - t.idx).toNat (by omega)
    rw [show t.idx + (((t.sdata i - t.idx).toNat : Nat) : Int) = t.sdata i
      by omega] at he6
    unfold pivot_item stack_item
    rw [e5]
    exact he6
  refine ⟨?_, ?_, ?_, ?_, ?_, ?_, ?_, ?_, ?_, ?_, ?_, ?_⟩
  · obtain ⟨m, hm⟩ := hinv.cap_pow
    exact ⟨m + 1, by rw [e1, hm]; ring⟩
  · rw [e2]; exact hinv.idx_lb
  · rw [e2, e1]; have := hinv.idx_ub; omega
  · rw [e3]; exact hinv.ne_lb
  · rw [e3, e1]; have := hinv.ne_ub; omega
  · rw [e4]; exact hinv.depth_pos
  · rw [e5, e2, e3]; exact hinv.s_zero
  · intro i hi
    rw [e5]
    rw [e4] at hi
    exact hinv.s_mono i hi
  · intro i hi
    rw [e5, e2]
    rw [e4] at hi
    exact hinv.s_lb i hi
  · intro k hk
    rw [e3] at hk
    rw [e2]
    exact e7 k hk
  · intro i hi h1 k hk
    rw [e4] at hi
    rw [e5, e2] at hk
    have hub := hinv.s_ub i h1 hi
    have hlb := hinv.idx_lb
    have hkn : k < t.num_elements.toNat := by omega
    rw [e2, e6 k hkn, hpiv i h1 hi]
    exact hinv.ord_le i hi h1 k hk
  · intro i hi h1 k hk hgt
    rw [e4] at hi
    rw [e3] at hk
    rw [e5, e2] at hgt
    rw [e2, e6 k hk, hpiv i h1 hi]
    exact hinv.ord_ge i hi h1 k hk hgt

lemma residents_expand {cmp : Nat → Nat → Int} {t : LST} (hinv : Inv cmp t)
    (hfull : t.num_elements = t.capacity) :
    residents (lst_expand t) = residents t := by
  obtain ⟨e1, e2, e3, e4, e5, e6, e7, e8⟩ := lst_expand_spec hinv hfull
  unfold residents
  rw [e2, e3]
  refine List.map_congr_left ?_
  intro a ha
  exact e6 a (List.mem_range.mp ha)

lemma lst_insert_spec {cmp : Nat → Nat → Int} {d : Nat} (hcmp : IsTotalCmp cmp)
    {t : LST} {rs : List Nat} (hinv : Inv cmp t)
    (hh : t.hIdx d = 0) (hres : ¬ Resident t d) :
    ∃ t' : LST, ∃ rs' : List Nat,
      lst_insert cmp t d rs = some (1, t', rs') ∧
      Inv cmp t' ∧
      (residents t').Perm (d :: residents t) ∧
      t'.num_elements = t.num_elements + 1 ∧
      (∀ x : Nat, x ≠ d → ¬ Resident t x → t'.hIdx x = t.hIdx x) := by
  by_cases hfull : t.num_elements = t.capacity
  · obtain ⟨e1, e2, e3, e4, e5, e6, e7, e8⟩ := lst_expand_spec hinv hfull
    have hE : Inv cmp (lst_expand t) := Inv_expand hinv hfull
    have hRE : residents (lst_expand t) = residents t := residents_expand hinv hfull
    have hresE : ¬ Resident (lst_expand t) d := by
      rw [← mem_residents, hRE, mem_residents]
      exact hres
    have hhE : (lst_expand t).hIdx d = 0 := by rw [e8 d hres]; exact hh
    have hC := hinv.cap_pos
    obtain ⟨t', rs', hrun, j1, j2, j3, j4, j5⟩ :=
      insert_go_spec hcmp ((lst_expand t).sdepth) (lst_expand t) 0 rs hE
        (by rw [e1, e3]; omega) hresE
        (by rw [e4]; have := hinv.depth_pos; omega)
        (fun i ha hb => by omega) (by omega)
    have hcond : ¬ (0 < (lst_expand t).hIdx d ∨
        ((lst_expand t).hIdx d = 0 ∧ 0 < (lst_expand t).num_elements ∧
          (lst_expand t).idx = 0 ∧ item (lst_expand t) 0 = d)) := by
      rintro (hpos | ⟨hz, hn1, hi0, hit⟩)
      · omega
      · refine hresE ⟨0, by omega, ?_⟩
        have h0 : (lst_expand t).idx + ((0 : Nat) : Int) = 0 := by omega
        rw [h0]
        exact hit
    refine ⟨t', rs', ?_, j1, by rw [← hRE]; exact j4, by rw [j3, e3], ?_⟩
    · simp only [lst_insert]
      rw [if_pos hfull, if_neg hcond, hrun]
      rfl
    · intro x hx hresx
      have hresEx : ¬ Resident (lst_expand t) x := by
        rw [← mem_residents, hRE, mem_residents]
        exact hresx
      rw [j5 x hx hresEx]
      exact e8 x hresx
  · have hnC : t.num_elements < t.capacity := by
      have := hinv.ne_ub
      omega
    obtain ⟨t', rs', hrun, j1, j2, j3, j4, j5⟩ :=
      insert_go_spec hcmp t.sdepth t 0 rs hinv hnC hres
        (by have := hinv.depth_pos; omega) (fun i ha hb => by omega) (by omega)
    have hcond : ¬ (0 < t.hIdx d ∨
        (t.hIdx d = 0 ∧ 0 < t.num_elements ∧ t.idx = 0 ∧ item t 0 = d)) := by
      rintro (hpos | ⟨hz, hn1, hi0, hit⟩)
      · omega
      · refine hres ⟨0, by omega, ?_⟩
        have h0 : t.idx + ((0 : Nat) : Int) = 0 := by omega
        rw [h0]
        exact hit
    refine ⟨t', rs', ?_, j1, j4, j3, j5⟩
    simp only [lst_insert]
    rw [if_neg hfull, if_neg hcond, hrun]
    rfl

lemma pop_front_inv {cmp : Nat → Nat → Int} {t : LST} {k1 : Nat}
    (hinv : Inv cmp t) (h1 : 1 ≤ k1) (hk : k1 < t.sdepth)
    (hz : t.sdata k1 = t.idx) (hn : 0 < t.num_elements)
    (σ : Int) (hσ : σ = 0 ∨ σ = t.capacity) (v : LST)
    (hvcap : v.capacity = t.capacity) (hvidx : v.idx = t.idx + 1 - σ)
    (hvnum : v.num_elements = t.num_elements - 1) (hvp : v.p = t.p)
    (hvdepth : v.sdepth = k1)
    (hvsdata : ∀ j : Nat, j < k1 → v.sdata j = t.sdata j - σ)
    (hvh : v.hIdx = fupd t.hIdx (item t t.idx) (-1))
    (hσlb : 0 ≤ t.idx + 1 - σ) (hσub : t.idx + 1 - σ < t.capacity) :
    Inv cmp v ∧ residents t = item t t.idx :: residents v := by
  have hC := hinv.cap_pos
  have hidx0 := hinv.idx_lb
  have hne0 := hinv.ne_lb
  have hneC := hinv.ne_ub
  have hσmod : ∀ x : Int, (x - σ) % t.capacity = x % t.capacity := by
    intro x
    rcases hσ with h | h
    · rw [h, sub_zero]
    · rw [h, Int.sub_emod, Int.emod_self, sub_zero,
        Int.emod_emod_of_dvd x (dvd_refl _)]
  have hitem : ∀ x : Int, item v (x - σ) = item t x := by
    intro x
    unfold item reduce
    rw [hvp, hvcap, hσmod]
  have hitem2 : ∀ x : Int, item v (v.idx + x) = item t (t.idx + 1 + x) := by
    intro x
    rw [hvidx, show t.idx + 1 - σ + x = t.idx + 1 + x - σ by ring, hitem]
  have hred : ∀ x : Int, reduce v (x - σ) = reduce t x := by
    intro x
    unfold reduce
    rw [hvcap, hσmod]
  have hpiv : ∀ i : Nat, i < k1 → pivot_item v i = pivot_item t i := by
    intro i hi
    unfold pivot_item stack_item
    rw [hvsdata i hi, hitem]
  have hslive : ∀ i : Nat, i < k1 → t.idx < t.sdata i := by
    intro i hi
    have ha := hinv.s_le i (k1 - 1) (by omega) (by omega)
    have hb := hinv.s_mono (k1 - 1) (by omega)
    have hc : k1 - 1 + 1 = k1 := by omega
    rw [hc, hz] at hb
    omega
  refine ⟨⟨?_, ?_, ?_, ?_, ?_, ?_, ?_, ?_, ?_, ?_, ?_, ?_⟩, ?_⟩
  · rw [hvcap]; exact hinv.cap_pow
  · rw [hvidx]; exact hσlb
  · rw [hvidx, hvcap]; exact hσub
  · rw [hvnum]; omega
  · rw [hvnum, hvcap]; omega
  · rw [hvdepth]; omega
  · rw [hvsdata 0 (by omega), hvidx, hvnum, hinv.s_zero]; ring
  · intro i hi
    rw [hvdepth] at hi
    rw [hvsdata i (by omega), hvsdata (i + 1) (by omega)]
    have := hinv.s_mono i (by omega)
    omega
  · intro i hi
    rw [hvdepth] at hi
    rw [hvsdata i hi, hvidx]
    have := hslive i hi
    omega
  · intro k hkn
    rw [hvnum] at hkn
    have hx : item v (v.idx + (k : Int)) = item t (t.idx + ((k + 1 : Nat) : Int)) := by
      rw [hitem2]
      congr 1
      push_cast
      ring
    rw [hx, hvh]
    have hne : item t (t.idx + ((k + 1 : Nat) : Int)) ≠ item t t.idx := by
      have := hinv.inj (k := k + 1) (l := 0) (by omega) (by omega) (by omega)
      rw [show t.idx + ((0 : Nat) : Int) = t.idx by simp] at this
      exact this
    unfold fupd
    rw [if_neg hne]
    rw [hinv.handles (k + 1) (by omega)]
    rw [hvidx, show t.idx + 1 - σ + (k : Int) = t.idx + 1 + (k : Int) - σ by ring,
      hred]
    congr 1
    push_cast
    ring
  · intro i hi hi1 k hkb
    rw [hvdepth] at hi
    rw [hvsdata i hi, hvidx] at hkb
    have hlive := hslive i hi
    rw [hitem2, hpiv i hi]
    have := hinv.ord_le i (by omega) hi1 (k + 1) (by omega)
    rw [show t.idx + ((k + 1 : Nat) : Int) = t.idx + 1 + (k : Int) by push_cast; ring]
      at this
    exact this
  · intro i hi hi1 k hkn hgt
    rw [hvdepth] at hi
    rw [hvnum] at hkn
    rw [hvsdata i hi, hvidx] at hgt
    have hlive := hslive i hi
    rw [hitem2, hpiv i hi]
    have := hinv.ord_ge i (by omega) hi1 (k + 1) (by omega) (by omega)
    rw [show t.idx + ((k + 1 : Nat) : Int) = t.idx + 1 + (k : Int) by push_cast; ring]
      at this
    exact this
  · unfold residents
    rw [hvnum]
    have hn' : t.num_elements.toNat = (t.num_elements - 1).toNat + 1 := by omega
    rw [hn', List.range_succ_eq_map, List.map_cons, List.map_map]
    congr 1
    · simp
    · refine (List.map_congr_left ?_).symm
      intro a ha
      show item v (v.idx + (a : Int)) = item t (t.idx + ((Nat.succ a : Nat) : Int))
      rw [hitem2]
      congr 1
      push_cast
      ring

lemma pop_front_min {cmp : Nat → Nat → Int} {t : LST} {k1 : Nat}
    (hcmp : IsTotalCmp cmp) (hinv : Inv cmp t) (h1 : 1 ≤ k1) (hk : k1 < t.sdepth)
    (hz : t.sdata k1 = t.idx) :
    ∀ x ∈ residents t, cmp (item t t.idx) x ≤ 0 := by
  intro x hx
  obtain ⟨k, hk2, he⟩ := mem_residents.mp hx
  rcases Nat.eq_zero_or_pos k with h0 | h0
  · rw [h0] at he
    rw [show t.idx + ((0 : Nat) : Int) = t.idx by simp] at he
    rw [← he, hcmp.refl]
  · have hog := hinv.ord_ge k1 hk h1 k hk2 (by rw [hz]; omega)
    unfold pivot_item stack_item at hog
    rw [hz, he] at hog
    exact (hcmp.le_flip _ _).mpr hog

lemma bucket_delete_min_spec {cmp : Nat → Nat → Int} {t : LST} {k1 : Nat}
    (hcmp : IsTotalCmp cmp) (hinv : Inv cmp t) (h1 : 1 ≤ k1) (hk : k1 < t.sdepth)
    (hz : t.sdata k1 = t.idx) (hn : 0 < t.num_elements) :
    Inv cmp (bucket_delete (lst_flatten t k1) k1 (pivot_item t k1)) ∧
    (bucket_delete (lst_flatten t k1) k1 (pivot_item t k1)).capacity = t.capacity ∧
    (bucket_delete (lst_flatten t k1) k1 (pivot_item t k1)).num_elements =
      t.num_elements - 1 ∧
    residents t =
      pivot_item t k1 :: residents (bucket_delete (lst_flatten t k1) k1 (pivot_item t k1)) ∧
    (∀ x ∈ residents t, cmp (pivot_item t k1) x ≤ 0) := by
  have hC := hinv.cap_pos
  have hidx0 := hinv.idx_lb
  have hidx1 := hinv.idx_ub
  have hm : pivot_item t k1 = item t t.idx := by
    unfold pivot_item stack_item
    rw [hz]
  have hh0 : t.hIdx (item t t.idx) = t.idx := by
    have hh := hinv.handles 0 (by omega)
    rw [show t.idx + ((0 : Nat) : Int) = t.idx by simp] at hh
    rw [hh]
    exact reduce_eq_of_bounds t hidx0 hidx1
  have hloc : (lst_flatten t k1).hIdx (pivot_item t k1) = t.idx := by
    show t.hIdx (pivot_item t k1) = t.idx
    rw [hm, hh0]
  have heq1 : is_equivalent (lst_flatten t k1)
      ((lst_flatten t k1).hIdx (pivot_item t k1)) (lst_flatten t k1).idx := by
    rw [hloc]
    show reduce (lst_flatten t k1) (t.idx - t.idx) = 0
    rw [sub_self]
    show (0 : Int) % t.capacity = 0
    exact Int.zero_emod _
  have hmin : ∀ x ∈ residents t, cmp (pivot_item t k1) x ≤ 0 := by
    rw [hm]
    exact pop_front_min hcmp hinv h1 hk hz
  have hn1 := hinv.ne_ub
  simp only [bucket_delete]
  rw [if_pos heq1]
  split
  · rename_i heq2
    have hmod : (t.idx + 1 - 0) % t.capacity = 0 := heq2
    rw [sub_zero] at hmod
    have hcap1 : t.idx + 1 = t.capacity := by
      by_contra hne
      have hlt : t.idx + 1 < t.capacity := by omega
      rw [Int.emod_eq_of_lt (by omega) hlt] at hmod
      omega
    obtain ⟨hinvv, hresv⟩ := pop_front_inv hinv h1 hk hz hn t.capacity (Or.inr rfl)
      { capacity := t.capacity, idx := (t.idx + 1) % t.capacity,
        num_elements := t.num_elements - 1, p := t.p,
        sdata := fun j => if j < k1 then
          (t.idx + 1) % t.capacity + t.sdata j - (t.idx + 1) else t.sdata j,
        sdepth := k1, hIdx := fupd t.hIdx (pivot_item t k1) (-1) }
      rfl
      (by show (t.idx + 1) % t.capacity = t.idx + 1 - t.capacity
          rw [hcap1, Int.emod_self]
          ring)
      rfl rfl rfl
      (fun j hj => by
        show (if j < k1 then (t.idx + 1) % t.capacity + t.sdata j - (t.idx + 1)
          else t.sdata j) = t.sdata j - t.capacity
        rw [if_pos hj, hcap1, Int.emod_self]
        ring)
      (by show fupd t.hIdx (pivot_item t k1) (-1) = fupd t.hIdx (item t t.idx) (-1)
          rw [hm])
      (by omega) (by omega)
    refine ⟨hinvv, rfl, rfl, ?_, hmin⟩
    rw [← hm] at hresv
    exact hresv
  · rename_i heq2
    have hmod : (t.idx + 1 - 0) % t.capacity ≠ 0 := heq2
    rw [sub_zero] at hmod
    have hcap1 : t.idx + 1 < t.capacity := by
      by_contra hge
      have he : t.idx + 1 = t.capacity := by omega
      rw [he, Int.emod_self] at hmod
      omega
    obtain ⟨hinvv, hresv⟩ := pop_front_inv hinv h1 hk hz hn 0 (Or.inl rfl)
      { capacity := t.capacity, idx := t.idx + 1,
        num_elements := t.num_elements - 1, p := t.p,
        sdata := t.sdata, sdepth := k1,
        hIdx := fupd t.hIdx (pivot_item t k1) (-1) }
      rfl (by show t.idx + 1 = t.idx + 1 - 0; ring) rfl rfl rfl
      (fun j hj => by show t.sdata j = t.sdata j - 0; ring)
      (by show fupd t.hIdx (pivot_item t k1) (-1) = fupd t.hIdx (item t t.idx) (-1)
          rw [hm])
      (by omega) (by omega)
    refine ⟨hinvv, rfl, rfl, ?_, hmin⟩
    rw [← hm] at hresv
    exact hresv

lemma pop_go_spec {cmp : Nat → Nat → Int} (hcmp : IsTotalCmp cmp) :
    ∀ (f : Nat) (t : LST) (k : Nat) (rs : List Nat),
    Inv cmp t → k < t.sdepth → 0 < lst_size t k → (lst_size t k).toNat ≤ f →
    ∃ x : Nat, ∃ t' : LST, ∃ rs' : List Nat,
      pop_go cmp f t k rs = some (x, t', rs') ∧
      Inv cmp t' ∧
      t'.capacity = t.capacity ∧
      t'.num_elements = t.num_elements - 1 ∧
      (residents t).Perm (x :: residents t') ∧
      (∀ y ∈ residents t, cmp x y ≤ 0) := by
  intro f
  induction f with
  | zero => intro t k rs _ _ hsz hf; exfalso; omega
  | succ f ih =>
    intro t k rs hinv hk hsz hf
    have hszk : lst_size t k = t.sdata k - t.idx := hinv.size_all k hk
    have hsk0 : t.sdata k ≤ t.sdata 0 := hinv.s_le 0 k (by omega) hk
    have hs0 := hinv.s_zero
    have htn : 0 < t.num_elements := by omega
    by_cases hb : is_bucket t k
    · obtain ⟨t4, h1, rs1, hres, hrs, hinvp, hcapp, hidxp, hnump, hdepp, hsdj,
        hsk1, hh1a, hh1b, hperm⟩ := partition_inv rs hcmp hinv hb hsz
      have hk1dep : k + 1 < (stack_push t4 h1).sdepth := by omega
      have hsize : lst_size (stack_push t4 h1) (k + 1) = h1 - t.idx := by
        rw [hinvp.size_all (k + 1) hk1dep, hsk1, hidxp]
      by_cases hz : lst_size (stack_push t4 h1) (k + 1) = 0
      · have hzero : (stack_push t4 h1).sdata (k + 1) = (stack_push t4 h1).idx :=
          hinvp.size_zero (k + 1) (by omega) hk1dep hz
        have htn1 : 0 < (stack_push t4 h1).num_elements := by omega
        obtain ⟨hinvu, hcapu, hnumu, hresu, hminu⟩ :=
          bucket_delete_min_spec hcmp hinvp (by omega) hk1dep hzero htn1
        refine ⟨pivot_item (stack_push t4 h1) (k + 1),
          bucket_delete (lst_flatten (stack_push t4 h1) (k + 1)) (k + 1)
            (pivot_item (stack_push t4 h1) (k + 1)), rs1, ?_,
          hinvu, hcapu.trans hcapp, by rw [hnumu, hnump], ?_, ?_⟩
        · simp only [pop_go]
          rw [if_pos hb, hres, Option.some_bind]
          simp only []
          rw [if_pos hz]
        · rw [← hresu]
          exact hperm.symm
        · intro y hy
          have hy1 : y ∈ residents (stack_push t4 h1) := hperm.mem_iff.mpr hy
          exact hminu y hy1
      · have hsz1 : 0 < lst_size (stack_push t4 h1) (k + 1) := by
          have : 0 ≤ h1 - t.idx := by omega
          omega
        obtain ⟨x, t', rs', hrun, hinv', hcap', hnum', hperm', hmin'⟩ :=
          ih (stack_push t4 h1) (k + 1) rs1 hinvp hk1dep hsz1 (by omega)
        refine ⟨x, t', rs', ?_, hinv', hcap'.trans hcapp, by rw [hnum', hnump],
          hperm.symm.trans hperm', ?_⟩
        · simp only [pop_go]
          rw [if_pos hb, hres, Option.some_bind]
          simp only []
          rw [if_neg hz]
          exact hrun
        · intro y hy
          exact hmin' y (hperm.mem_iff.mpr hy)
    · have hd2 : k + 2 ≤ t.sdepth := by
        have hl : lst_length t k ≠ 1 := hb
        unfold lst_length at hl
        omega
      have hsize : lst_size t (k + 1) = t.sdata (k + 1) - t.idx :=
        hinv.size_all (k + 1) (by omega)
      have hdec : t.sdata (k + 1) < t.sdata k := hinv.s_mono k (by omega)
      by_cases hz : lst_size t (k + 1) = 0
      · have hzero : t.sdata (k + 1) = t.idx :=
          hinv.size_zero (k + 1) (by omega) (by omega) hz
        obtain ⟨hinvu, hcapu, hnumu, hresu, hminu⟩ :=
          bucket_delete_min_spec hcmp hinv (by omega) (by omega) hzero htn
        refine ⟨pivot_item t (k + 1),
          bucket_delete (lst_flatten t (k + 1)) (k + 1) (pivot_item t (k + 1)),
          rs, ?_, hinvu, hcapu, hnumu, by rw [← hresu], hminu⟩
        simp only [pop_go]
        rw [if_neg hb, Option.some_bind]
        simp only []
        rw [if_pos hz]
      · have hlb1 : t.idx ≤ t.sdata (k + 1) := hinv.s_lb (k + 1) (by omega)
        obtain ⟨x, t', rs', hrun, hinv', hcap', hnum', hperm', hmin'⟩ :=
          ih t (k + 1) rs hinv (by omega) (by omega) (by omega)
        refine ⟨x, t', rs', ?_, hinv', hcap', hnum', hperm', hmin'⟩
        simp only [pop_go]
        rw [if_neg hb, Option.some_bind]
        simp only []
        rw [if_neg hz]
        exact hrun

lemma lst_pop_spec {cmp : Nat → Nat → Int} {t : LST} (rs : List Nat)
    (hcmp : IsTotalCmp cmp) (hinv : Inv cmp t) (hne : 0 < t.num_elements) :
    ∃ x : Nat, ∃ t' : LST, ∃ rs' : List Nat,
      lst_pop cmp t rs = some (x, t', rs') ∧
      Inv cmp t' ∧
      t'.capacity = t.capacity ∧
      t'.num_elements = t.num_elements - 1 ∧
      (residents t).Perm (x :: residents t') ∧
      (∀ y ∈ residents t, cmp x y ≤ 0) := by
  have hsz0 : lst_size t 0 = t.num_elements := by unfold lst_size; rw [if_pos rfl]
  obtain ⟨x, t', rs', hrun, hinv', hcap', hnum', hperm', hmin'⟩ :=
    pop_go_spec hcmp (t.num_elements.toNat + 1) t 0 rs hinv hinv.depth_pos
      (by rw [hsz0]; exact hne) (by rw [hsz0]; omega)
  refine ⟨x, t', rs', ?_, hinv', hcap', hnum', hperm', hmin'⟩
  unfold lst_pop
  rw [if_neg (by omega)]
  exact hrun

lemma inv_initial_any (cmp : Nat → Nat → Int) : Inv cmp initialLST := by
  refine ⟨⟨11, by decide⟩, by decide, by decide, by decide, by decide, by decide,
    by decide, ?_, ?_, ?_, ?_, ?_⟩
  · intro i hi
    rw [show initialLST.sdepth = 1 from rfl] at hi
    omega
  · intro i hi
    exact le_refl 0
  · intro k hk
    rw [show initialLST.num_elements.toNat = 0 from rfl] at hk
    omega
  · intro i hi h1 k hk
    rw [show initialLST.sdepth = 1 from rfl] at hi
    omega
  · intro i hi h1 k hk hgt
    rw [show initialLST.sdepth = 1 from rfl] at hi
    omega

lemma insertAll_spec {cmp : Nat → Nat → Int} (hcmp : IsTotalCmp cmp) :
    ∀ (xs : List Nat) (t : LST) (rs : List Nat),
    Inv cmp t → xs.Nodup →
    (∀ x ∈ xs, t.hIdx x = 0 ∧ ¬ Resident t x) →
    ∃ t' : LST, ∃ rs' : List Nat,
      insertAll cmp xs t rs = some (t', rs') ∧ Inv cmp t' ∧
      (residents t').Perm (xs ++ residents t) := by
  intro xs
  induction xs with
  | nil =>
    intro t rs hinv _ _
    exact ⟨t, rs, rfl, hinv, by simp⟩
  | cons x xs ih =>
    intro t rs hinv hnd hpend
    obtain ⟨hh, hr⟩ := hpend x (List.mem_cons_self x xs)
    obtain ⟨t1, rs1, hrun, hinv1, hperm1, hnum1, hframe1⟩ :=
      lst_insert_spec hcmp hinv hh hr
    have hpend1 : ∀ y ∈ xs, t1.hIdx y = 0 ∧ ¬ Resident t1 y := by
      intro y hy
      have hyx : y ≠ x := by
        intro he
        rw [he] at hy
        exact (List.nodup_cons.mp hnd).1 hy
      obtain ⟨hhy, hry⟩ := hpend y (List.mem_cons_of_mem x hy)
      refine ⟨by rw [hframe1 y hyx hry]; exact hhy, ?_⟩
      intro hres1
      have hm1 : y ∈ residents t1 := mem_residents.mpr hres1
      have hm2 : y ∈ x :: residents t := hperm1.mem_iff.mp hm1
      rcases List.mem_cons.mp hm2 with h | h
      · exact hyx h
      · exact hry (mem_residents.mp h)
    obtain ⟨t', rs', hrun', hinv', hperm'⟩ :=
      ih t1 rs1 hinv1 (List.nodup_cons.mp hnd).2 hpend1
    refine ⟨t', rs', ?_, hinv', ?_⟩
    · simp only [insertAll]
      rw [hrun]
      simp only []
      rw [if_true]
      exact hrun'
    · have p1 : (residents t').Perm (xs ++ (x :: residents t)) :=
        hperm'.trans (hperm1.append_left xs)
      exact p1.trans List.perm_middle

lemma popAll_spec {cmp : Nat → Nat → Int} (hcmp : IsTotalCmp cmp) :
    ∀ (n : Nat) (t : LST) (rs : List Nat),
    Inv cmp t → n = t.num_elements.toNat →
    ∃ out : List Nat, ∃ t' : LST, ∃ rs' : List Nat,
      popAll cmp n t rs = some (out, t', rs') ∧
      out.Perm (residents t) ∧ SortedCmp cmp out := by
  intro n
  induction n with
  | zero =>
    intro t rs hinv hn
    have hres0 : residents t = [] := by
      unfold residents
      rw [← hn]
      rfl
    refine ⟨[], t, rs, rfl, by rw [hres0], List.chain'_nil⟩
  | succ n ih =>
    intro t rs hinv hn
    have hne : 0 < t.num_elements := by
      have := hinv.ne_lb
      omega
    obtain ⟨x, t1, rs1, hrun, hinv1, hcap1, hnum1, hperm1, hmin1⟩ :=
      lst_pop_spec rs hcmp hinv hne
    obtain ⟨out, t', rs', hrun', hperm', hsort'⟩ :=
      ih t1 rs1 hinv1 (by rw [hnum1]; omega)
    refine ⟨x :: out, t', rs', ?_, ?_, ?_⟩
    · simp only [popAll]
      rw [hrun]
      simp only []
      rw [hrun']
      rfl
    · exact (hperm'.cons x).trans hperm1.symm
    · show List.Chain' (fun a b => cmp a b ≤ 0) (x :: out)
      rw [List.chain'_cons']
      refine ⟨?_, hsort'⟩
      intro y hy
      have hyo : y ∈ out := List.mem_of_mem_head? hy
      have hy1 : y ∈ residents t1 := hperm'.mem_iff.mp hyo
      have hy2 : y ∈ residents t :=
        hperm1.mem_iff.mpr (List.mem_cons_of_mem x hy1)
      exact hmin1 y hy2

/-- C1: for every total-order comparator, every list of distinct records whose
handle fields start at 0 (as in the freshly allocated LST, whose handle map is
identically 0), and every sequence of random draws, inserting the records one
by one succeeds, and popping as many times as there are records succeeds and
returns exactly those records in nondecreasing comparator order. -/
theorem C1_spec {cmp : Nat → Nat → Int} (hcmp : IsTotalCmp cmp) (xs : List Nat)
    (hnd : xs.Nodup) (rs : List Nat) :
    ∃ t1 : LST, ∃ rs1 : List Nat, ∃ out : List Nat, ∃ t2 : LST, ∃ rs2 : List Nat,
      insertAll cmp xs initialLST rs = some (t1, rs1) ∧
      popAll cmp xs.length t1 rs1 = some (out, t2, rs2) ∧
      out.Perm xs ∧ SortedCmp cmp out := by
  have hpend : ∀ x ∈ xs, initialLST.hIdx x = 0 ∧ ¬ Resident initialLST x := by
    intro x _
    refine ⟨rfl, ?_⟩
    rintro ⟨k, hk, _⟩
    rw [show initialLST.num_elements.toNat = 0 from rfl] at hk
    omega
  obtain ⟨t1, rs1, hrun1, hinv1, hperm1⟩ :=
    insertAll_spec hcmp xs initialLST rs (inv_initial_any cmp) hnd hpend
  have hres0 : residents initialLST = [] := rfl
  rw [hres0, List.append_nil] at hperm1
  have hlen : xs.length = t1.num_elements.toNat := by
    have h1 := hperm1.length_eq
    have h2 : (residents t1).length = t1.num_elements.toNat := by
      unfold residents
      rw [List.length_map, List.length_range]
    omega
  obtain ⟨out, t2, rs2, hrun2, hperm2, hsort2⟩ :=
    popAll_spec hcmp xs.length t1 rs1 hinv1 hlen
  exact ⟨t1, rs1, out, t2, rs2, hrun1, hrun2, hperm2.trans hperm1, hsort2⟩

/-- Witness for C1: inserting the records 2 and 1 (in that order) into a fresh
LST and popping twice succeeds and yields them sorted by identifier. -/
theorem C1_witness :
    (IsTotalCmp cmpId ∧ ([2, 1] : List Nat).Nodup) ∧
    (∃ t1 : LST, ∃ rs1 : List Nat, ∃ out : List Nat, ∃ t2 : LST, ∃ rs2 : List Nat,
      insertAll cmpId [2, 1] initialLST [] = some (t1, rs1) ∧
      popAll cmpId ([2, 1] : List Nat).length t1 rs1 = some (out, t2, rs2) ∧
      out.Perm [2, 1] ∧ SortedCmp cmpId out) :=
  ⟨⟨cmpId_total, by decide⟩, C1_spec cmpId_total [2, 1] (by decide) []⟩

end Lst
